import Mathlib

/-!
# carve: a shallow embedding of `src/carve.c`

The program extracts the byte range `[offset, offset + length)` of a source
file into a destination file.  The embedding follows the C text of
`get_file_size` and `main` statement by statement.

Modelling conventions.

* `size_t` and `unsigned long` are 64 bits wide (the program prints them with
  `%lu`); values are natural numbers and the one addition of the program that
  can overflow, `offset + length`, is reduced modulo `2 ^ 64`.
* The file system is a map from path names to contents.  A stream is a path
  together with a position and a buffer.  The input stream may read ahead of
  what the program asks for and serves later reads from its buffer; the output
  stream may hold bytes that `fwrite` accepted and pass them to the file at a
  later `fwrite` or at `fclose`.  How much is read ahead and how much is held
  is the choice of the C library, so the environment decides it; the stream
  without a buffer is the case where both amounts are 0.
* Every library call that can fail does so when the environment says so; a
  read also fails when the stream and the file hold too few bytes.  The
  `fclose` of the output stream can fail to write what the stream holds, and
  the program does not look at its result.
* The run records every library call and every printed message, in order.
-/

namespace Carve

/-! ## Machine constants -/

/-- An octet, the `uint8_t` of the transfer buffer. -/
abbrev Byte := Fin 256

/-- The `DEFAULT_BLOCK_SIZE` constant of line 10. -/
def DEFAULT_BLOCK_SIZE : Nat := 4096

/-- The number of values of a `size_t`: arithmetic on it is modulo this. -/
def SIZE_MOD : Nat := 2 ^ 64

/-- The largest `unsigned long`, which is also `(size_t)-1`. -/
def ULONG_MAX : Nat := 2 ^ 64 - 1

/-- The largest `long`, the return type of `ftell`. -/
def LONG_MAX : Nat := 2 ^ 63 - 1

/-! ## The C library function `strtoul` -/

/-- The `isspace` classification of the C locale. -/
def isspace (c : Char) : Bool :=
  c = ' ' || c = '\t' || c = '\n' || c = '\x0b' || c = '\x0c' || c = '\r'

/-- The value of a character as a digit: `0`-`9`, then letters of either case
from 10 upwards. -/
def digitValue (c : Char) : Option Nat :=
  if '0' ≤ c ∧ c ≤ '9' then some (c.toNat - '0'.toNat)
  else if 'a' ≤ c ∧ c ≤ 'z' then some (c.toNat - 'a'.toNat + 10)
  else if 'A' ≤ c ∧ c ≤ 'Z' then some (c.toNat - 'A'.toNat + 10)
  else none

/-- Whether a character is a digit of the given base. -/
def isDigitIn (base : Nat) (c : Char) : Bool :=
  match digitValue c with
  | some d => decide (d < base)
  | none => false

/-- The input of `strtoul` after its optional sign. -/
def skipSign : List Char → List Char
  | '-' :: t => t
  | '+' :: t => t
  | s => s

/-- The input of `strtoul` in base 16 after its optional `0x` or `0X`, which
counts as such only in front of a hexadecimal digit. -/
def skipHexMark (s : List Char) : List Char :=
  match s with
  | '0' :: x :: d :: t => if (x = 'x' ∨ x = 'X') ∧ isDigitIn 16 d = true then d :: t else s
  | _ => s

/-- The value `strtoul(s, NULL, base)` as ISO C describes it, for the two
bases the program uses: leading white space is skipped, one sign is accepted,
base 16 accepts a `0x` or `0X` before a hexadecimal digit, the longest run of
digits is converted, and what follows is ignored.  Without digits the value
is 0; a value that does not fit is `ULONG_MAX`; a minus sign negates the value
in `unsigned long`. -/
def strtoul (s : List Char) (base : Nat) : Nat :=
  let s1 := s.dropWhile isspace
  let neg := decide (s1.head? = some '-')
  let s2 := skipSign s1
  let s3 := if base = 16 then skipHexMark s2 else s2
  let v := (s3.takeWhile (isDigitIn base)).foldl (fun a c => a * base + (digitValue c).getD 0) 0
  if v > ULONG_MAX then ULONG_MAX
  else if neg then (SIZE_MOD - v) % SIZE_MOD
  else v

/-! ## Files, streams, faults and the record of a run -/

/-- The file system: the contents of each path that names a file. -/
abbrev FileSystem := String → Option (List Byte)

/-- The file system with the contents of one path replaced. -/
def FileSystem.store (fs : FileSystem) (path : String) (content : List Byte) : FileSystem :=
  fun p => if p = path then some content else fs p

/-- An open stdio stream (a non-null `FILE *`): the file it is attached to and
its position. -/
structure FILE where
  path : String
  pos : Nat
  deriving DecidableEq, Repr

/-- The two stream variables of `main`. -/
inductive Stream where
  | inputfile
  | outputfile
  deriving DecidableEq, Repr

/-- The origin argument of `fseek`. -/
inductive Whence where
  | SEEK_SET
  | SEEK_END
  deriving DecidableEq, Repr

/-- The messages of the program, one constructor for each format string. -/
inductive Msg where
  /-- The four lines of `print_usage` (lines 40-43). -/
  | usage
  /-- Line 69, "Error: cannot open file %s". -/
  | cannotOpen (path : String)
  /-- Line 74, "Error: cannot get input file size". -/
  | cannotGetSize
  /-- Line 77, "Size of input file %s is %lu bytes". -/
  | inputSize (path : String) (inputsize : Nat)
  /-- Line 106, "Error: length cannot be 0!". -/
  | lengthZero
  /-- Line 112, "Error: offset ... is larger than file ...". -/
  | offsetLarger (offset : Nat) (path : String) (inputsize : Nat)
  /-- Line 121, "Error: offset ... plus length ... is greater than size of ...". -/
  | rangeGreater (offset length : Nat) (path : String) (inputsize : Nat)
  /-- Line 137, "Cannot allocate transfer buffer". -/
  | cannotAllocate
  /-- Line 144, "Error: could not seek to offset ...". -/
  | cannotSeek (offset : Nat) (path : String)
  /-- Line 150, "Error: could not create output file ...". -/
  | cannotCreate (path : String)
  /-- Line 158, "Unable to read block %lu". -/
  | unableToReadBlock (count : Nat)
  /-- Line 163, "Unable to write block %lu". -/
  | unableToWriteBlock (count : Nat)
  /-- Lines 171 and 176, "Unable to read last block". -/
  | unableToReadLastBlock
  /-- Line 181, "%lu bytes (%lu blocks) carved from offset ...". -/
  | carved (length blocks offset : Nat) (source destination : String)
  deriving DecidableEq, Repr

/-- What a run does that can be seen from outside: library calls with their
outcome, and printed messages. -/
inductive Event where
  | printf (m : Msg)
  /-- The call `fopen(path, "rb")` and whether it returned a stream. -/
  | fopen_rb (path : String) (ok : Bool)
  /-- The call `fopen(path, "w+b")` and whether it returned a stream. -/
  | fopen_wb (path : String) (ok : Bool)
  | fseek (s : Stream) (offset : Nat) (whence : Whence) (ok : Bool)
  | ftell (s : Stream) (result : Int)
  | calloc (nmemb : Nat) (ok : Bool)
  /-- The call `fread(transferBuf, size, 1, inputfile)` and its return value. -/
  | fread (size : Nat) (ret : Nat)
  /-- The call `fwrite(transferBuf, size, 1, outputfile)` and its return value. -/
  | fwrite (size : Nat) (ret : Nat)
  | free
  | fclose (s : Stream)
  deriving DecidableEq, Repr

/-- The environment of a run: which library calls fail for a reason outside
the program, and how the two streams buffer.  Reads and writes are numbered
from 0 in the order the program issues them.  A faulty write, and a faulty
`fclose` of the output stream, says how many of the bytes it passes to the
file reach it before it fails (a count that is not below their number is no
fault).  `seekahead` is the number of bytes the input stream reads ahead when
it is positioned at `offset`, `readahead k` the number of bytes read `k`
fetches beyond what it needs, and `held k` the number of bytes the output
stream keeps in its buffer at write `k` instead of passing them to the
file. -/
structure Faults where
  fopen_rb : Bool
  fseek_end : Bool
  ftell : Bool
  fseek_set : Bool
  calloc : Bool
  fseek_offset : Bool
  fopen_wb : Bool
  fread : Nat → Bool
  fwrite : Nat → Option Nat
  seekahead : Nat
  readahead : Nat → Nat
  held : Nat → Nat
  fclose : Option Nat

/-- The environment in which nothing fails and no stream buffers. -/
def Faults.none : Faults :=
  ⟨false, false, false, false, false, false, false, fun _ => false, fun _ => Option.none,
    0, fun _ => 0, fun _ => 0, Option.none⟩

/-- The length of the file a path names (0 when there is none). -/
def FileSystem.size (fs : FileSystem) (path : String) : Nat :=
  ((fs path).getD []).length

/-! ## `get_file_size` (lines 14-36) -/

/-- What a call of `get_file_size` leaves behind: its return value, the
stream, the cell `*s`, and the library calls it made. -/
structure Probe where
  ret : Bool
  f : Option FILE
  s : Option Nat
  trace : List Event

/-- The function `get_file_size(f, s)`.  A null pointer is `none`; for the
cell `s` points to, `some v` says it holds `v`.  The stream is the one that
`main` passes, `inputfile`. -/
def get_file_size (flt : Faults) (fs : FileSystem) (f : Option FILE) (s : Option Nat) : Probe :=
  match f, s with
  | some h, some _ =>
    -- line 21: fseek( f, 0, SEEK_END )
    if flt.fseek_end then
      ⟨false, f, s, [.fseek .inputfile 0 .SEEK_END false]⟩
    else
      let h1 : FILE := ⟨h.path, fs.size h.path⟩
      -- line 25: size = (size_t)ftell(f)
      let r : Int := if flt.ftell ∨ h1.pos > LONG_MAX then -1 else (h1.pos : Int)
      let size : Nat := (r % (SIZE_MOD : Int)).toNat
      let t1 : List Event := [.fseek .inputfile 0 .SEEK_END true, .ftell .inputfile r]
      if size = ULONG_MAX then
        ⟨false, some h1, s, t1⟩
      -- line 30: fseek( f, 0, SEEK_SET )
      else if flt.fseek_set then
        ⟨false, some h1, s, t1 ++ [.fseek .inputfile 0 .SEEK_SET false]⟩
      else
        ⟨true, some ⟨h.path, 0⟩, some size, t1 ++ [.fseek .inputfile 0 .SEEK_SET true]⟩
  | _, _ => ⟨false, f, s, []⟩

/-! ## The pieces of `main` -/

/-- The test of lines 79 and 94: the argument has at least two characters and
starts with `0x`. -/
def hasHexMark (arg : String) : Bool :=
  decide (arg.data.length ≥ 2) && decide (arg.data[0]? = some '0') && decide (arg.data[1]? = some 'x')

/-- Lines 79-86: the value of `offset`. -/
def parseOffset (arg : String) : Nat :=
  if hasHexMark arg = true then strtoul arg.data 16 else strtoul arg.data 10

/-- Lines 88-102: the value of `length`. -/
def resolveLength (arg : String) (offset inputsize : Nat) : Nat :=
  if arg.data[0]? = some '-' ∧ offset < inputsize then
    inputsize - offset
  else if hasHexMark arg = true then strtoul arg.data 16
  else strtoul arg.data 10

/-- The outcome of the three checks of lines 104-128. -/
inductive Verdict where
  | lengthZero
  | offsetLarger
  | rangeGreater
  | accepted
  deriving DecidableEq, Repr

/-- Lines 104-128: the checks on the range, in the order of the program.  The
sum of line 119 is a `size_t`. -/
def validate (offset length inputsize : Nat) : Verdict :=
  if length = 0 then .lengthZero
  else if offset > inputsize then .offsetLarger
  else if (offset + length) % SIZE_MOD > inputsize then .rangeGreater
  else .accepted

/-- The state the copy loop works on: the file system, the record of the run,
the transfer buffer and the two streams.  `inbuf` holds the bytes the input
stream has read ahead of its position, as they were in the file when it read
them; `outbuf` holds the bytes the output stream accepted and has not yet
passed to the file, which go to the position of `outputfile`. -/
structure Copy where
  fs : FileSystem
  trace : List Event
  transferBuf : List Byte
  inputfile : FILE
  outputfile : FILE
  inbuf : List Byte
  outbuf : List Byte

/-- The call `fread(transferBuf, size, 1, inputfile)`: it returns 1 when `size`
bytes were read into the front of the buffer, and 0 otherwise.  The bytes
come from the buffer of the stream; when it holds fewer than `size`, the
stream first fetches the bytes it lacks, and `ahead` more, from the file.  A
short read stores the bytes there are. -/
def fread (fault : Bool) (ahead : Nat) (size : Nat) (st : Copy) : Nat × Copy :=
  if fault ∨ size = 0 then
    (0, { st with trace := st.trace ++ [.fread size 0] })
  else
    let stock :=
      if size ≤ st.inbuf.length then st.inbuf
      else st.inbuf ++
        (((st.fs st.inputfile.path).getD []).drop (st.inputfile.pos + st.inbuf.length)).take
          (size - st.inbuf.length + ahead)
    let data := stock.take size
    let ret := if data.length = size then 1 else 0
    (ret, { st with
      trace := st.trace ++ [.fread size ret]
      transferBuf := data ++ st.transferBuf.drop data.length
      inputfile := ⟨st.inputfile.path, st.inputfile.pos + data.length⟩
      inbuf := stock.drop size })

/-- The contents of a file after `data` is written at position `pos`; a gap
between the end of the file and `pos` reads as zeros. -/
def writeAt (content : List Byte) (pos : Nat) (data : List Byte) : List Byte :=
  content.take pos ++ List.replicate (pos - content.length) 0 ++ data
    ++ content.drop (pos + data.length)

/-- The call `fwrite(transferBuf, size, 1, outputfile)`: the stream takes the
leading `size` bytes of the buffer behind the bytes it holds, keeps the last
`held` of them all and passes the others to the file.  It returns 1 when it
took `size` bytes and all the bytes it passed on reached the file, and 0
otherwise.  A faulty write leaves in the file the bytes that did reach it;
what did not reach the file stays with the stream until `fclose`, which
decides how much of it is written: a library that drops these bytes is an
environment whose `fclose` puts none of them into the file. -/
def fwrite (fault : Option Nat) (held : Nat) (size : Nat) (st : Copy) : Nat × Copy :=
  let data := st.transferBuf.take size
  let all := st.outbuf ++ data
  let out := all.take (all.length - held)
  let put := match fault with
    | some m => out.take m
    | none => out
  let ret := if put.length = out.length ∧ data.length = size ∧ size ≠ 0 then 1 else 0
  (ret, { st with
    trace := st.trace ++ [.fwrite size ret]
    fs := st.fs.store st.outputfile.path
      (writeAt ((st.fs st.outputfile.path).getD []) st.outputfile.pos put)
    outputfile := ⟨st.outputfile.path, st.outputfile.pos + put.length⟩
    outbuf := all.drop put.length })

/-- The call `fclose(outputfile)` of line 201, as the file system sees it: the
stream passes the bytes it holds to the file.  A faulty call leaves in the
file the bytes that did reach it; the program does not look at the result. -/
def fclose (fault : Option Nat) (outputfile : FILE) (outbuf : List Byte) (fs : FileSystem) :
    FileSystem :=
  let put := match fault with
    | some m => outbuf.take m
    | none => outbuf
  fs.store outputfile.path (writeAt ((fs outputfile.path).getD []) outputfile.pos put)

/-- Lines 154-166: the loop over the whole blocks, with `remaining` standing
for `block_count - count`.  The result is `true` when the loop ran to its end
and `false` when it left through `goto end`. -/
def copyBlocks (flt : Faults) : (remaining count : Nat) → Copy → Bool × Copy
  | 0, _, st => (true, st)
  | remaining + 1, count, st =>
    let r := fread (flt.fread count) (flt.readahead count) DEFAULT_BLOCK_SIZE st
    if r.1 ≠ 1 then
      (false, { r.2 with trace := r.2.trace ++ [.printf (.unableToReadBlock count)] })
    else
      let w := fwrite (flt.fwrite count) (flt.held count) DEFAULT_BLOCK_SIZE r.2
      if w.1 ≠ 1 then
        (false, { w.2 with trace := w.2.trace ++ [.printf (.unableToWriteBlock count)] })
      else
        copyBlocks flt remaining (count + 1) w.2

/-- Lines 167-179: the last block; it is the read and the write numbered
`block_count`. -/
def copyLast (flt : Faults) (block_count last_block_size : Nat) (st : Copy) : Bool × Copy :=
  if last_block_size > 0 then
    let r := fread (flt.fread block_count) (flt.readahead block_count) last_block_size st
    if r.1 ≠ 1 then
      (false, { r.2 with trace := r.2.trace ++ [.printf .unableToReadLastBlock] })
    else
      let w := fwrite (flt.fwrite block_count) (flt.held block_count) last_block_size r.2
      if w.1 ≠ 1 then
        (false, { w.2 with trace := w.2.trace ++ [.printf .unableToReadLastBlock] })
      else
        (true, w.2)
  else
    (true, st)

/-- What a run of `main` leaves behind: the exit status, the file system and
the record of the run. -/
structure Result where
  retVal : Int
  fs : FileSystem
  trace : List Event

/-- The label `end` (lines 190-203): release what is not null, return
`retVal`.  `outbuf` is what the output stream holds when it is closed. -/
def finish (flt : Faults) (transferBuf : Option (List Byte))
    (inputfile outputfile : Option FILE) (outbuf : List Byte)
    (retVal : Int) (fs : FileSystem) (trace : List Event) : Result :=
  let t1 := if transferBuf.isSome then trace ++ [.free] else trace
  let t2 := if inputfile.isSome then t1 ++ [.fclose .inputfile] else t1
  match outputfile with
  | some o => ⟨retVal, fclose flt.fclose o outbuf fs, t2 ++ [.fclose .outputfile]⟩
  | none => ⟨retVal, fs, t2⟩

/-- Lines 129-188: what `main` does with a range that passed the checks. -/
def carve (flt : Faults) (fs : FileSystem) (trace : List Event) (inputfile : FILE)
    (source destination : String) (offset length : Nat) : Result :=
  let block_count := length / DEFAULT_BLOCK_SIZE
  let last_block_size := length % DEFAULT_BLOCK_SIZE
  -- line 134: calloc
  if flt.calloc then
    finish flt none (some inputfile) none [] (-1) fs
      (trace ++ [.calloc DEFAULT_BLOCK_SIZE false, .printf .cannotAllocate])
  else
    let transferBuf : List Byte := List.replicate DEFAULT_BLOCK_SIZE 0
    let t1 := trace ++ [.calloc DEFAULT_BLOCK_SIZE true]
    -- line 142: fseek( inputfile, offset, SEEK_SET )
    if flt.fseek_offset then
      finish flt (some transferBuf) (some inputfile) none [] (-1) fs
        (t1 ++ [.fseek .inputfile offset .SEEK_SET false, .printf (.cannotSeek offset source)])
    else
      let inputfile1 : FILE := ⟨inputfile.path, offset⟩
      -- what the stream reads ahead at its new position
      let inbuf := (((fs inputfile.path).getD []).drop offset).take flt.seekahead
      let t2 := t1 ++ [.fseek .inputfile offset .SEEK_SET true]
      -- line 147: fopen(argv[4],"w+b")
      if flt.fopen_wb then
        finish flt (some transferBuf) (some inputfile1) none [] (-1) fs
          (t2 ++ [.fopen_wb destination false, .printf (.cannotCreate destination)])
      else
        let st : Copy :=
          ⟨fs.store destination [], t2 ++ [.fopen_wb destination true], transferBuf,
            inputfile1, ⟨destination, 0⟩, inbuf, []⟩
        let b := copyBlocks flt block_count 0 st
        if b.1 = false then
          finish flt (some b.2.transferBuf) (some b.2.inputfile) (some b.2.outputfile)
            b.2.outbuf (-1) b.2.fs b.2.trace
        else
          let l := copyLast flt block_count last_block_size b.2
          if l.1 = false then
            finish flt (some l.2.transferBuf) (some l.2.inputfile) (some l.2.outputfile)
              l.2.outbuf (-1) l.2.fs l.2.trace
          else
            finish flt (some l.2.transferBuf) (some l.2.inputfile) (some l.2.outputfile)
              l.2.outbuf 0 l.2.fs
              (l.2.trace ++ [.printf (.carved length (if block_count = 0 then 1 else block_count)
                offset source destination)])

/-- The function `main` (lines 47-204) on the argument vector `argv`, in a
file system `fs` and an environment with the faults `flt`. -/
def main (argv : List String) (fs : FileSystem) (flt : Faults) : Result :=
  match argv with
  | _ :: source :: offsetArg :: lengthArg :: destination :: _ =>
    -- line 66: fopen( argv[1],"rb" )
    if flt.fopen_rb ∨ fs source = none then
      finish flt none none none [] (-1) fs
        [.fopen_rb source false, .printf (.cannotOpen source)]
    else
      let t0 : List Event := [.fopen_rb source true]
      -- line 72: get_file_size( inputfile, &inputsize )
      let p := get_file_size flt fs (some ⟨source, 0⟩) (some 0)
      if p.ret = false then
        finish flt none p.f none [] (-1) fs (t0 ++ p.trace ++ [.printf .cannotGetSize])
      else
        let inputfile := p.f.getD ⟨source, 0⟩
        let inputsize := p.s.getD 0
        let t1 := t0 ++ p.trace ++ [.printf (.inputSize source inputsize)]
        let offset := parseOffset offsetArg
        let length := resolveLength lengthArg offset inputsize
        match validate offset length inputsize with
        | .lengthZero =>
          finish flt none (some inputfile) none [] (-1) fs (t1 ++ [.printf .lengthZero])
        | .offsetLarger =>
          finish flt none (some inputfile) none [] (-1) fs
            (t1 ++ [.printf (.offsetLarger offset source inputsize)])
        | .rangeGreater =>
          finish flt none (some inputfile) none [] (-1) fs
            (t1 ++ [.printf (.rangeGreater offset length source inputsize)])
        | .accepted => carve flt fs t1 inputfile source destination offset length
  | _ =>
    -- lines 60-64: argc < 5
    ⟨0, fs, [.printf .usage]⟩

/-! ## Notions used to state the properties -/

/-- The progress of a copy: the source is intact and the output stream has
accepted the first `done` bytes of the range that starts at `offset`.  Of
these, the destination holds the first `st.outputfile.pos` and the stream
holds the others; the input stream stands right behind the `done` bytes, and
what it has read ahead are the bytes of the source that follow. -/
structure Copying (source destination : String) (src : List Byte) (offset done : Nat)
    (st : Copy) : Prop where
  distinct : source ≠ destination
  inpath : st.inputfile.path = source
  outpath : st.outputfile.path = destination
  intact : st.fs source = some src
  dest : st.fs destination = some ((src.drop offset).take st.outputfile.pos)
  pending : st.outbuf = ((src.drop offset).take done).drop st.outputfile.pos
  passed : st.outputfile.pos ≤ done
  inpos : st.inputfile.pos = offset + done
  ahead : ∃ n, st.inbuf = (src.drop (offset + done)).take n
  bound : offset + done ≤ src.length

/-- The library calls of `n` whole-block transfers that succeed. -/
def blockCalls (n : Nat) : List Event :=
  (List.replicate n [Event.fread DEFAULT_BLOCK_SIZE 1, Event.fwrite DEFAULT_BLOCK_SIZE 1]).flatten

/-- Whether an event is a read or a write that did not return 1. -/
def Event.failedTransfer : Event → Bool
  | .fread _ ret => decide (ret ≠ 1)
  | .fwrite _ ret => decide (ret ≠ 1)
  | _ => false

/-- The library calls of a last block of `size` bytes that is transferred:
none when there is no last block. -/
def lastCalls (size : Nat) : List Event :=
  if size > 0 then [Event.fread size 1, Event.fwrite size 1] else []

/-- The record of a run up to the message that reports the size of the
source. -/
def probeCalls (source : String) (inputsize : Nat) : List Event :=
  [Event.fopen_rb source true, Event.fseek .inputfile 0 .SEEK_END true,
   Event.ftell .inputfile (inputsize : Int), Event.fseek .inputfile 0 .SEEK_SET true,
   Event.printf (.inputSize source inputsize)]

/-- The state of the copy at line 153: buffer allocated, source positioned at
`offset`, destination created empty. -/
def copyStart (flt : Faults) (fs : FileSystem) (trace : List Event) (source destination : String)
    (offset : Nat) : Copy :=
  ⟨fs.store destination [],
   trace ++ [Event.calloc DEFAULT_BLOCK_SIZE true, Event.fseek .inputfile offset .SEEK_SET true,
     Event.fopen_wb destination true],
   List.replicate DEFAULT_BLOCK_SIZE 0, ⟨source, offset⟩, ⟨destination, 0⟩,
   (((fs source).getD []).drop offset).take flt.seekahead, []⟩

/-- The outcome of the loop over the whole blocks, started at line 153. -/
def blocksDone (flt : Faults) (fs : FileSystem) (trace : List Event) (source destination : String)
    (offset length : Nat) : Bool × Copy :=
  copyBlocks flt (length / DEFAULT_BLOCK_SIZE) 0
    (copyStart flt fs trace source destination offset)

/-- The outcome of the last block, after the loop over the whole blocks. -/
def lastDone (flt : Faults) (fs : FileSystem) (trace : List Event) (source destination : String)
    (offset length : Nat) : Bool × Copy :=
  copyLast flt (length / DEFAULT_BLOCK_SIZE) (length % DEFAULT_BLOCK_SIZE)
    (blocksDone flt fs trace source destination offset length).2

/-- The file system after the output stream of a state of the copy is
closed. -/
def closed (flt : Faults) (st : Copy) : FileSystem :=
  fclose flt.fclose st.outputfile st.outbuf st.fs

/-- The bytes the output stream of a state has accepted so far: those that
reached the file and those the stream still holds. -/
def Copy.accepted (st : Copy) : List Byte :=
  ((st.fs st.outputfile.path).getD []).take st.outputfile.pos ++ st.outbuf

/-- Lines 154-203 as one result: the copy, the summary and the releases. -/
def copyPhase (flt : Faults) (fs : FileSystem) (trace : List Event) (source destination : String)
    (offset length : Nat) : Result :=
  if (blocksDone flt fs trace source destination offset length).1 = false then
    ⟨-1, closed flt (blocksDone flt fs trace source destination offset length).2,
      (blocksDone flt fs trace source destination offset length).2.trace
        ++ [Event.free, Event.fclose .inputfile, Event.fclose .outputfile]⟩
  else if (lastDone flt fs trace source destination offset length).1 = false then
    ⟨-1, closed flt (lastDone flt fs trace source destination offset length).2,
      (lastDone flt fs trace source destination offset length).2.trace
        ++ [Event.free, Event.fclose .inputfile, Event.fclose .outputfile]⟩
  else
    ⟨0, closed flt (lastDone flt fs trace source destination offset length).2,
      (lastDone flt fs trace source destination offset length).2.trace
        ++ [Event.printf (.carved length
              (if length / DEFAULT_BLOCK_SIZE = 0 then 1 else length / DEFAULT_BLOCK_SIZE)
              offset source destination),
            Event.free, Event.fclose .inputfile, Event.fclose .outputfile]⟩

/-- How the loop over the whole blocks can end, with the calls it made. -/
inductive BlocksEnd (n count : Nat) : Bool → List Event → Prop where
  /-- All `n` blocks were transferred. -/
  | done : BlocksEnd n count true (blockCalls n)
  /-- The read of block `count + k` did not return 1. -/
  | readFailed (k : Nat) (hk : k < n) :
      BlocksEnd n count false
        (blockCalls k ++ [.fread DEFAULT_BLOCK_SIZE 0, .printf (.unableToReadBlock (count + k))])
  /-- The write of block `count + k` did not return 1. -/
  | writeFailed (k : Nat) (hk : k < n) :
      BlocksEnd n count false
        (blockCalls k ++ [.fread DEFAULT_BLOCK_SIZE 1, .fwrite DEFAULT_BLOCK_SIZE 0,
          .printf (.unableToWriteBlock (count + k))])

/-- How the last block can end, with the calls it made. -/
inductive LastEnd (size : Nat) : Bool → List Event → Prop where
  /-- The last block, when there is one, was transferred. -/
  | done : LastEnd size true (lastCalls size)
  /-- The read of the last block did not return 1. -/
  | readFailed (hs : 0 < size) :
      LastEnd size false [.fread size 0, .printf .unableToReadLastBlock]
  /-- The write of the last block did not return 1. -/
  | writeFailed (hs : 0 < size) :
      LastEnd size false [.fread size 1, .fwrite size 0, .printf .unableToReadLastBlock]

/-- The calls that release the buffer and both streams (lines 191-202). -/
def releaseAll : List Event :=
  [Event.free, Event.fclose .inputfile, Event.fclose .outputfile]

/-- The calls that open the copy phase: buffer allocated, source positioned,
destination created. -/
def setupCalls (destination : String) (offset : Nat) : List Event :=
  [Event.calloc DEFAULT_BLOCK_SIZE true, Event.fseek .inputfile offset .SEEK_SET true,
   Event.fopen_wb destination true]

/-- How the copy phase can end, with the exit status and the calls made after
the destination was opened. -/
inductive CopyEnd (source destination : String) (offset length : Nat) :
    Int → List Event → Prop where
  /-- A whole block was not transferred. -/
  | blocks (calls : List Event)
      (h : BlocksEnd (length / DEFAULT_BLOCK_SIZE) 0 false calls) :
      CopyEnd source destination offset length (-1) (calls ++ releaseAll)
  /-- The whole blocks were transferred and the last block was not. -/
  | last (calls : List Event) (h : LastEnd (length % DEFAULT_BLOCK_SIZE) false calls) :
      CopyEnd source destination offset length (-1)
        (blockCalls (length / DEFAULT_BLOCK_SIZE) ++ calls ++ releaseAll)
  /-- Everything was transferred. -/
  | done :
      CopyEnd source destination offset length 0
        (blockCalls (length / DEFAULT_BLOCK_SIZE) ++ lastCalls (length % DEFAULT_BLOCK_SIZE)
          ++ [.printf (.carved length
                (if length / DEFAULT_BLOCK_SIZE = 0 then 1 else length / DEFAULT_BLOCK_SIZE)
                offset source destination)]
          ++ releaseAll)

/-- A source of 100 bytes: byte `i` has the value `i`. -/
def bytes100 : List Byte := (List.range 100).map (fun i => Fin.ofNat i)

/-- A file system whose only file is `in`, with the 100 bytes of `bytes100`. -/
def fs100 : FileSystem := fun p => if p = "in" then some bytes100 else none

/-- A file system with the 100-byte source `in` and an older file `out` of
three bytes. -/
def fs100out : FileSystem :=
  fun p => if p = "in" then some bytes100 else if p = "out" then some [1, 2, 3] else none

/-- The three messages that reject a range (lines 106, 112 and 121). -/
def Msg.isRejection : Msg → Bool
  | .lengthZero => true
  | .offsetLarger _ _ _ => true
  | .rangeGreater _ _ _ _ => true
  | _ => false

/-- The events that belong to the copy phase after the destination was
opened: transfers, their error messages, the summary and the releases. -/
def Event.ofCopy : Event → Bool
  | .fread _ _ => true
  | .fwrite _ _ => true
  | .free => true
  | .fclose _ => true
  | .printf (.unableToReadBlock _) => true
  | .printf (.unableToWriteBlock _) => true
  | .printf .unableToReadLastBlock => true
  | .printf (.carved _ _ _ _ _) => true
  | _ => false

/-- The source was opened and its size determined: no call of lines 66-76
fails, the file exists and its size fits a `long`. -/
def Probed (flt : Faults) (fs : FileSystem) (source : String) : Prop :=
  flt.fopen_rb = false ∧ fs source ≠ none ∧ flt.fseek_end = false ∧ flt.ftell = false ∧
    fs.size source ≤ LONG_MAX ∧ flt.fseek_set = false

/-- No library call of a run fails for a reason outside the program.  How
the two streams buffer is left open. -/
def Faults.noFault (flt : Faults) : Prop :=
  flt.fopen_rb = false ∧ flt.fseek_end = false ∧ flt.ftell = false ∧ flt.fseek_set = false ∧
  flt.calloc = false ∧ flt.fseek_offset = false ∧ flt.fopen_wb = false ∧
  (∀ k, flt.fread k = false) ∧ (∀ k, flt.fwrite k = Option.none) ∧
  flt.fclose = Option.none

/-- The characters that are hexadecimal digits. -/
def hexDigitChars : List Char := "0123456789abcdefABCDEF".data

/-- The characters that are decimal digits. -/
def decDigitChars : List Char := "0123456789".data

/-- The value of a digit character, by table. -/
def digitOf : Char → Nat
  | '0' => 0 | '1' => 1 | '2' => 2 | '3' => 3 | '4' => 4
  | '5' => 5 | '6' => 6 | '7' => 7 | '8' => 8 | '9' => 9
  | 'a' => 10 | 'b' => 11 | 'c' => 12 | 'd' => 13 | 'e' => 14 | 'f' => 15
  | 'A' => 10 | 'B' => 11 | 'C' => 12 | 'D' => 13 | 'E' => 14 | 'F' => 15
  | _ => 0

/-- The number a string of digits denotes in a base, most significant digit
first. -/
def numeral (base : Nat) (ds : List Char) : Nat :=
  Nat.ofDigits base (ds.reverse.map digitOf)

/-- The messages that report a failure: all but the usage, the size of the
source and the summary. -/
def Msg.isError : Msg → Bool
  | .usage => false
  | .inputSize _ _ => false
  | .carved _ _ _ _ _ => false
  | _ => true

/-- The summary of line 181, printed when the copy ran to completion. -/
def Msg.isCarved : Msg → Bool
  | .carved _ _ _ _ _ => true
  | _ => false

/-- The events of a copy phase that fails: transfers, their error messages and
the releases. -/
def Event.ofFailedCopy : Event → Bool
  | .fread _ _ => true
  | .fwrite _ _ => true
  | .free => true
  | .fclose _ => true
  | .printf (.unableToReadBlock _) => true
  | .printf (.unableToWriteBlock _) => true
  | .printf .unableToReadLastBlock => true
  | _ => false

/-- The events of a copy phase that runs to completion: transfers that
returned 1, the summary and the releases. -/
def Event.ofDoneCopy : Event → Bool
  | .fread _ ret => decide (ret = 1)
  | .fwrite _ ret => decide (ret = 1)
  | .free => true
  | .fclose _ => true
  | .printf (.carved _ _ _ _ _) => true
  | _ => false

/-- The events of a run outside its transfers and its summary. -/
def Event.plain : Event → Bool
  | .fread _ _ => false
  | .fwrite _ _ => false
  | .printf (.carved _ _ _ _ _) => false
  | _ => true

/-- Whether an event is a call of `fread` or `fwrite`. -/
def Event.isTransfer : Event → Bool
  | .fread _ _ => true
  | .fwrite _ _ => true
  | _ => false

/-- The number of bytes a call of `fwrite` that returned 1 handed to the
output stream; nothing for any other event. -/
def Event.written : Event → Option Nat
  | .fwrite size ret => if ret = 1 then some size else none
  | _ => none

/-- The sizes of the writes of a run that returned 1, in order. -/
def writeSizes (trace : List Event) : List Nat :=
  trace.filterMap Event.written

/-- A source of 10000 bytes: byte `i` has the value `i % 256`. -/
def bytes10000 : List Byte := (List.range 10000).map (fun i => Fin.ofNat i)

/-- A file system whose only file is `in`, with the 10000 bytes of
`bytes10000`. -/
def fs10000 : FileSystem := fun p => if p = "in" then some bytes10000 else none

/-- An environment in which the first write, and only it, fails without
putting a byte into the file; the streams do not buffer, and the `fclose` of
the output stream puts no byte into the file either. -/
def firstWriteFails : Faults :=
  ⟨false, false, false, false, false, false, false, fun _ => false,
    fun k => if k = 0 then some 0 else Option.none, 0, fun _ => 0, fun _ => 0, some 0⟩

/-- The three resources `main` acquires: the variables `inputfile`,
`outputfile` and `transferBuf`. -/
inductive Resource where
  | inputfile
  | outputfile
  | transferBuf
  deriving DecidableEq, Repr

/-- Whether an event acquires the resource: an `fopen` or a `calloc` that did
not return null. -/
def Event.acquires : Resource → Event → Bool
  | .inputfile, .fopen_rb _ ok => ok
  | .outputfile, .fopen_wb _ ok => ok
  | .transferBuf, .calloc _ ok => ok
  | _, _ => false

/-- Whether an event releases the resource: the `fclose` of its stream, or
`free` for the buffer. -/
def Event.releases : Resource → Event → Bool
  | .inputfile, .fclose .inputfile => true
  | .outputfile, .fclose .outputfile => true
  | .transferBuf, .free => true
  | _, _ => false

/-- The events that neither acquire nor release: transfers and messages. -/
def Event.neutral : Event → Bool
  | .fread _ _ => true
  | .fwrite _ _ => true
  | .printf _ => true
  | _ => false

/-- Whether an event, when it is a read or a write, has the size of a whole
block or the size `last` of the last block. -/
def Event.sizeIn (last : Nat) : Event → Bool
  | .fread size _ => decide (size = DEFAULT_BLOCK_SIZE ∨ size = last)
  | .fwrite size _ => decide (size = DEFAULT_BLOCK_SIZE ∨ size = last)
  | _ => true

/-- Whether an event is free of read errors: not a read that returned other
than 1, and not the message of line 158. -/
def Event.readOk : Event → Bool
  | .fread _ ret => decide (ret = 1)
  | .printf (.unableToReadBlock _) => false
  | _ => true

/-- An environment in which the first write, and only it, fails after it put
5 bytes into the file; the streams do not buffer, and the `fclose` of the
output stream puts no further byte into the file. -/
def firstWriteShort : Faults :=
  ⟨false, false, false, false, false, false, false, fun _ => false,
    fun k => if k = 0 then some 5 else Option.none, 0, fun _ => 0, fun _ => 0, some 0⟩

/-- The events of a run before the destination is opened: everything but
transfers, the messages of the copy, and an `fopen(..., "w+b")` that
returned a stream. -/
def Event.early : Event → Bool
  | .fread _ _ => false
  | .fwrite _ _ => false
  | .fopen_wb _ ok => !ok
  | .printf (.unableToReadBlock _) => false
  | .printf (.unableToWriteBlock _) => false
  | .printf .unableToReadLastBlock => false
  | .printf (.carved _ _ _ _ _) => false
  | _ => true

/-- Whether an event is one of the two messages about a whole block (lines
158 and 163). -/
def Event.blockMessage : Event → Bool
  | .printf (.unableToReadBlock _) => true
  | .printf (.unableToWriteBlock _) => true
  | _ => false

/-- An environment in which no library call fails and both streams buffer:
the input stream reads 4096 bytes ahead, and the output stream keeps all it
accepts until it is closed. -/
def buffering : Faults :=
  ⟨false, false, false, false, false, false, false, fun _ => false, fun _ => Option.none,
    4096, fun _ => 4096, fun _ => 1000000, Option.none⟩

/-- An environment in which no call of `fread` or `fwrite` fails, the output
stream keeps what it accepts in its buffer (up to 4096 bytes), and the
`fclose` of the output stream fails to put any of it into the file, as on a
full disk. -/
def closeFails : Faults :=
  ⟨false, false, false, false, false, false, false, fun _ => false, fun _ => Option.none,
    0, fun _ => 0, fun _ => 4096, some 0⟩

/-- An environment in which no call of `fread` or `fwrite` fails: the output
stream passes whole blocks to the file at once, keeps a last block in its
buffer, and the `fclose` of the output stream fails to put any of it into
the file, as when the file cannot grow any further. -/
def lastBlockLost : Faults :=
  ⟨false, false, false, false, false, false, false, fun _ => false, fun _ => Option.none,
    0, fun _ => 0, fun k => if k < 2 then 0 else 4096, some 0⟩

/-! ## Library calls: reads and writes -/

theorem length_take_drop_eq_iff (content : List Byte) (pos size : Nat) :
    ((content.drop pos).take size).length = size ↔ pos + size ≤ content.length ∨ size = 0 := by
  simp only [List.length_take, List.length_drop]
  omega

theorem fread_trace (fault : Bool) (ahead size : Nat) (st : Copy) :
    (fread fault ahead size st).2.trace
      = st.trace ++ [.fread size (fread fault ahead size st).1] := by
  unfold fread
  split <;> rfl

theorem fread_fs (fault : Bool) (ahead size : Nat) (st : Copy) :
    (fread fault ahead size st).2.fs = st.fs := by
  unfold fread
  split <;> rfl

theorem fread_outputfile (fault : Bool) (ahead size : Nat) (st : Copy) :
    (fread fault ahead size st).2.outputfile = st.outputfile := by
  unfold fread
  split <;> rfl

theorem fread_outbuf (fault : Bool) (ahead size : Nat) (st : Copy) :
    (fread fault ahead size st).2.outbuf = st.outbuf := by
  unfold fread
  split <;> rfl

theorem fread_path (fault : Bool) (ahead size : Nat) (st : Copy) :
    (fread fault ahead size st).2.inputfile.path = st.inputfile.path := by
  unfold fread
  split <;> rfl

theorem fread_ret (fault : Bool) (ahead size : Nat) (st : Copy) :
    (fread fault ahead size st).1 = 0 ∨ (fread fault ahead size st).1 = 1 := by
  unfold fread
  split
  · exact Or.inl rfl
  · simp only
    split_ifs <;> simp

/-- What the input stream has for a read, when its buffer holds bytes of the
file `l` from its position on: again such bytes, and `size` of them or all
there are. -/
theorem stock_take (l inbuf : List Byte) (n size ahead : Nat) (h : inbuf = l.take n) :
    ∃ k, (if size ≤ inbuf.length then inbuf
        else inbuf ++ (l.drop inbuf.length).take (size - inbuf.length + ahead)) = l.take k ∧
      (size ≤ k ∨ l.length ≤ k) := by
  by_cases hs : size ≤ inbuf.length
  · rw [if_pos hs]
    refine ⟨n, h, Or.inl ?_⟩
    rw [h, List.length_take] at hs
    omega
  · rw [if_neg hs]
    refine ⟨inbuf.length + (size - inbuf.length + ahead), ?_, Or.inl (by omega)⟩
    have h2 : l.take inbuf.length = inbuf := by
      conv_rhs => rw [h]
      rw [h, List.length_take]
      by_cases hn : n ≤ l.length
      · rw [Nat.min_eq_left hn]
      · rw [Nat.min_eq_right (by omega), List.take_of_length_le (Nat.le_refl _),
          List.take_of_length_le (by omega)]
    conv_rhs => rw [List.take_add, h2]

/-- A read from a stream whose buffer holds bytes of the file from its
position on: it returns 1 exactly when there is no fault, the size is not 0
and the file holds `size` bytes from the position on; it then stored them at
the front of the transfer buffer and advanced the stream past them, and the
buffer of the stream again holds bytes of the file from the new position
on. -/
theorem fread_spec {fault : Bool} {ahead size : Nat} {st : Copy} {content : List Byte}
    (hfs : st.fs st.inputfile.path = some content)
    (hbuf : ∃ n, st.inbuf = (content.drop st.inputfile.pos).take n) :
    ((fread fault ahead size st).1 = 1 ↔
      fault = false ∧ 0 < size ∧ st.inputfile.pos + size ≤ content.length) ∧
    ((fread fault ahead size st).1 = 1 →
      (fread fault ahead size st).2.transferBuf
        = (content.drop st.inputfile.pos).take size ++ st.transferBuf.drop size ∧
      (fread fault ahead size st).2.inputfile.pos = st.inputfile.pos + size ∧
      ∃ n, (fread fault ahead size st).2.inbuf
        = (content.drop (st.inputfile.pos + size)).take n) := by
  obtain ⟨n, hn⟩ := hbuf
  obtain ⟨k, hk, hkb⟩ := stock_take (content.drop st.inputfile.pos) st.inbuf n size
    ahead hn
  rw [List.drop_drop] at hk
  have hdata : ((content.drop st.inputfile.pos).take k).take size
      = (content.drop st.inputfile.pos).take size := by
    rcases hkb with h | h
    · rw [List.take_take, Nat.min_eq_left h]
    · rw [List.take_of_length_le h]
  unfold fread
  by_cases hc : fault = true ∨ size = 0
  · rw [if_pos hc]
    refine ⟨⟨fun h => absurd h (by simp), fun h => ?_⟩, fun h => absurd h (by simp)⟩
    rcases hc with hc | hc
    · rw [hc] at h; exact absurd h.1 (by decide)
    · omega
  · rw [if_neg hc]
    simp only [hfs, Option.getD_some, hk, hdata]
    have hlen := length_take_drop_eq_iff content st.inputfile.pos size
    simp only [not_or] at hc
    by_cases hl : ((content.drop st.inputfile.pos).take size).length = size
    · rw [if_pos hl]
      have hb : st.inputfile.pos + size ≤ content.length := by
        rcases hlen.1 hl with h | h
        · exact h
        · exact absurd h hc.2
      refine ⟨⟨fun _ => ⟨by simpa using hc.1, by omega, hb⟩, fun _ => rfl⟩, fun _ => ?_⟩
      rw [hl]
      refine ⟨rfl, rfl, k - size, ?_⟩
      rw [List.drop_take, List.drop_drop]
    · rw [if_neg hl]
      refine ⟨⟨fun h => absurd h (by simp), fun h => ?_⟩, fun h => absurd h (by simp)⟩
      exact absurd (hlen.2 (Or.inl h.2.2)) hl

/-- A read that returns 1, from a stream whose buffer holds bytes of the file
from its position on. -/
theorem fread_one {fault : Bool} {ahead size : Nat} {st : Copy} {content : List Byte}
    (hfs : st.fs st.inputfile.path = some content)
    (hbuf : ∃ n, st.inbuf = (content.drop st.inputfile.pos).take n)
    (h : (fread fault ahead size st).1 = 1) :
    fault = false ∧ 0 < size ∧ st.inputfile.pos + size ≤ content.length ∧
    (fread fault ahead size st).2.transferBuf
      = (content.drop st.inputfile.pos).take size ++ st.transferBuf.drop size ∧
    (fread fault ahead size st).2.inputfile.pos = st.inputfile.pos + size ∧
    ∃ n, (fread fault ahead size st).2.inbuf
      = (content.drop (st.inputfile.pos + size)).take n := by
  obtain ⟨h1, h2⟩ := @fread_spec fault ahead size st content hfs hbuf
  obtain ⟨a, b, c⟩ := h1.1 h
  obtain ⟨d, e, f⟩ := h2 h
  exact ⟨a, b, c, d, e, f⟩

/-- A read without fault that finds `size > 0` bytes returns 1. -/
theorem fread_ok {ahead size : Nat} {st : Copy} {content : List Byte}
    (hfs : st.fs st.inputfile.path = some content)
    (hbuf : ∃ n, st.inbuf = (content.drop st.inputfile.pos).take n) (hsize : 0 < size)
    (h : st.inputfile.pos + size ≤ content.length) :
    (fread false ahead size st).1 = 1 :=
  (@fread_spec false ahead size st content hfs hbuf).1.2 ⟨rfl, hsize, h⟩

theorem fwrite_trace (fault : Option Nat) (held size : Nat) (st : Copy) :
    (fwrite fault held size st).2.trace
      = st.trace ++ [.fwrite size (fwrite fault held size st).1] := rfl

theorem fwrite_inputfile (fault : Option Nat) (held size : Nat) (st : Copy) :
    (fwrite fault held size st).2.inputfile = st.inputfile := rfl

theorem fwrite_inbuf (fault : Option Nat) (held size : Nat) (st : Copy) :
    (fwrite fault held size st).2.inbuf = st.inbuf := rfl

theorem fwrite_path (fault : Option Nat) (held size : Nat) (st : Copy) :
    (fwrite fault held size st).2.outputfile.path = st.outputfile.path := rfl

theorem fwrite_ret (fault : Option Nat) (held size : Nat) (st : Copy) :
    (fwrite fault held size st).1 = 0 ∨ (fwrite fault held size st).1 = 1 := by
  unfold fwrite
  simp only
  split <;> simp

theorem writeAt_end (content data : List Byte) :
    writeAt content content.length data = content ++ data := by
  simp [writeAt]

/-- What a write does to the file and to the output stream, whatever it
returns: of the bytes the stream held and the `size` bytes it took, the first
`n` are put into the file at the position of the stream, which moves past
them, and the others stay with the stream. -/
theorem fwrite_state (fault : Option Nat) (held size : Nat) (st : Copy) :
    ∃ n, n ≤ (st.outbuf ++ st.transferBuf.take size).length ∧
      (fwrite fault held size st).2.fs = st.fs.store st.outputfile.path
        (writeAt ((st.fs st.outputfile.path).getD []) st.outputfile.pos
          ((st.outbuf ++ st.transferBuf.take size).take n)) ∧
      (fwrite fault held size st).2.outputfile.pos = st.outputfile.pos + n ∧
      (fwrite fault held size st).2.outbuf = (st.outbuf ++ st.transferBuf.take size).drop n := by
  have key : ∀ put : List Byte, (∃ j, put = (st.outbuf ++ st.transferBuf.take size).take j) →
      put.length ≤ (st.outbuf ++ st.transferBuf.take size).length ∧
      put = (st.outbuf ++ st.transferBuf.take size).take put.length := by
    rintro put ⟨j, rfl⟩
    refine ⟨by rw [List.length_take]; omega, ?_⟩
    rw [List.length_take]
    by_cases hj : j ≤ (st.outbuf ++ st.transferBuf.take size).length
    · rw [Nat.min_eq_left hj]
    · rw [Nat.min_eq_right (by omega), List.take_of_length_le (Nat.le_refl _),
        List.take_of_length_le (by omega)]
  cases fault with
  | none =>
    obtain ⟨h1, h2⟩ := key ((st.outbuf ++ st.transferBuf.take size).take
      ((st.outbuf ++ st.transferBuf.take size).length - held)) ⟨_, rfl⟩
    refine ⟨_, h1, ?_, rfl, rfl⟩
    unfold fwrite
    simp only
    rw [← h2]
  | some m =>
    obtain ⟨h1, h2⟩ := key (((st.outbuf ++ st.transferBuf.take size).take
      ((st.outbuf ++ st.transferBuf.take size).length - held)).take m)
      ⟨_, by rw [List.take_take]⟩
    refine ⟨_, h1, ?_, rfl, rfl⟩
    unfold fwrite
    simp only
    rw [← h2]

/-- A write that returns 1 took `size > 0` bytes from the transfer buffer. -/
theorem fwrite_one {fault : Option Nat} {held size : Nat} {st : Copy}
    (h : (fwrite fault held size st).1 = 1) :
    0 < size ∧ (st.transferBuf.take size).length = size := by
  unfold fwrite at h
  simp only at h
  split at h
  · rename_i hc
    exact ⟨by omega, hc.2.1⟩
  · exact absurd h (by decide)

/-- A write without fault of `size > 0` bytes from a buffer that holds them
returns 1, whatever the stream keeps in its buffer. -/
theorem fwrite_ok {held size : Nat} {st : Copy} (hsize : 0 < size)
    (h : size ≤ st.transferBuf.length) : (fwrite none held size st).1 = 1 := by
  unfold fwrite
  simp only
  rw [if_pos]
  refine ⟨trivial, ?_, by omega⟩
  rw [List.length_take]
  omega

/-! ## The copy loop -/

/-- The bytes an output stream holds after it took one more piece of the
range. -/
theorem pending_append (R : List Byte) {pos done : Nat} (size : Nat) (hp : pos ≤ done)
    (hd : done ≤ R.length) :
    (R.take done).drop pos ++ (R.drop done).take size = (R.take (done + size)).drop pos := by
  rw [List.take_add, List.drop_append_of_le_length]
  rw [List.length_take]
  omega

/-- The file after the first `n` of the bytes the stream holds are put behind
the `pos` bytes it has. -/
theorem passed_append (R : List Byte) {pos done n : Nat} (hn : pos + n ≤ done) :
    R.take pos ++ ((R.take done).drop pos).take n = R.take (pos + n) := by
  rw [List.drop_take, List.take_take, Nat.min_eq_left (by omega), List.take_add]

/-- A write keeps the progress of a copy, whatever it returns: after a read
of `size` bytes that returned 1, the output stream has accepted `size` more
bytes of the range, and the destination and the stream share them as the
write left them. -/
theorem write_step {source destination : String} {src : List Byte}
    {offset done size ahead held : Nat} {st : Copy} {rf : Bool} {wf : Option Nat}
    (inv : Copying source destination src offset done st)
    (hr : (fread rf ahead size st).1 = 1) :
    Copying source destination src offset (done + size)
      (fwrite wf held size (fread rf ahead size st).2).2 := by
  have hsrc : st.fs st.inputfile.path = some src := by rw [inv.inpath]; exact inv.intact
  have hcoh : ∃ n, st.inbuf = (src.drop st.inputfile.pos).take n := by
    rw [inv.inpos]; exact inv.ahead
  obtain ⟨_, hpos, hbound, hbuf, hinpos, n2, hin2⟩ := fread_one hsrc hcoh hr
  rw [inv.inpos] at hbound hbuf hinpos hin2
  have hl : ((src.drop (offset + done)).take size).length = size :=
    (length_take_drop_eq_iff _ _ _).2 (Or.inl hbound)
  have hdata : ((fread rf ahead size st).2.transferBuf).take size
      = ((src.drop offset).drop done).take size := by
    rw [hbuf, List.take_append_of_le_length (by omega), List.take_of_length_le (by omega),
      List.drop_drop]
  have hRl : done + size ≤ (src.drop offset).length := by
    rw [List.length_drop]; omega
  obtain ⟨n, hn, hfs, hout, hob⟩ := fwrite_state wf held size (fread rf ahead size st).2
  rw [fread_outbuf, hdata, inv.pending, pending_append _ size inv.passed (by omega)] at hn hfs hob
  rw [fread_outputfile, fread_fs, inv.outpath, inv.dest, Option.getD_some] at hfs
  rw [fread_outputfile] at hout
  have hn2 : st.outputfile.pos + n ≤ done + size := by
    rw [List.length_drop, List.length_take] at hn
    have := inv.passed
    omega
  have hpl : ((src.drop offset).take st.outputfile.pos).length = st.outputfile.pos := by
    rw [List.length_take, List.length_drop]
    have := inv.passed
    omega
  have hw2 : writeAt ((src.drop offset).take st.outputfile.pos) st.outputfile.pos
      (((src.drop offset).take (done + size)).drop st.outputfile.pos |>.take n)
      = (src.drop offset).take (st.outputfile.pos + n) := by
    conv_lhs => rw [show writeAt ((src.drop offset).take st.outputfile.pos) st.outputfile.pos
        (((src.drop offset).take (done + size)).drop st.outputfile.pos |>.take n)
      = writeAt ((src.drop offset).take st.outputfile.pos)
          ((src.drop offset).take st.outputfile.pos).length
          (((src.drop offset).take (done + size)).drop st.outputfile.pos |>.take n) by rw [hpl]]
    rw [writeAt_end, passed_append _ hn2]
  rw [hw2] at hfs
  refine ⟨inv.distinct, ?_, ?_, ?_, ?_, ?_, ?_, ?_, ?_, by omega⟩
  · rw [fwrite_inputfile, fread_path]; exact inv.inpath
  · rw [fwrite_path, fread_outputfile]; exact inv.outpath
  · rw [hfs]
    simp only [FileSystem.store, if_neg inv.distinct]
    exact inv.intact
  · rw [hfs, hout]
    simp [FileSystem.store]
  · rw [hob, hout, List.drop_drop]
  · rw [hout]; exact hn2
  · rw [fwrite_inputfile, hinpos]; omega
  · rw [fwrite_inbuf, hin2, show offset + done + size = offset + (done + size) by omega]
    exact ⟨n2, rfl⟩

/-- One transfer: a read and a write of `size` bytes that both return 1 carry
the next `size` bytes of the range from the source to the output stream. -/
theorem transfer_step {source destination : String} {src : List Byte}
    {offset done size ahead held : Nat} {st : Copy} {rf : Bool} {wf : Option Nat}
    (inv : Copying source destination src offset done st)
    (hr : (fread rf ahead size st).1 = 1)
    (_hw : (fwrite wf held size (fread rf ahead size st).2).1 = 1) :
    Copying source destination src offset (done + size)
      (fwrite wf held size (fread rf ahead size st).2).2 :=
  write_step inv hr

/-- The destination after the output stream is closed: the bytes of the range
that reached the file, which are all the stream accepted when the `fclose`
does not fail, and the bytes the file had and the first `m` of those the
stream held when the `fclose` is a faulty one; the source is as it was. -/
theorem closed_files {flt : Faults} {source destination : String} {src : List Byte}
    {offset done : Nat} {st : Copy} (inv : Copying source destination src offset done st) :
    ∃ n, st.outputfile.pos ≤ n ∧ n ≤ done ∧
      closed flt st destination = some ((src.drop offset).take n) ∧
      (flt.fclose = none → n = done) ∧
      closed flt st source = some src ∧
      (∀ m, flt.fclose = some m →
        n = st.outputfile.pos + min m (done - st.outputfile.pos)) := by
  have hpl : ((src.drop offset).take st.outputfile.pos).length = st.outputfile.pos := by
    rw [List.length_take, List.length_drop]
    have := inv.passed
    have := inv.bound
    omega
  have hol : st.outbuf.length = done - st.outputfile.pos := by
    rw [inv.pending, List.length_drop, List.length_take, List.length_drop]
    have := inv.bound
    omega
  have hsrc : closed flt st source = some src := by
    unfold closed fclose
    simp only [FileSystem.store, inv.outpath, if_neg inv.distinct]
    exact inv.intact
  have key : ∀ n, n ≤ done - st.outputfile.pos →
      (st.fs.store st.outputfile.path (writeAt ((st.fs st.outputfile.path).getD [])
        st.outputfile.pos (st.outbuf.take n))) destination
      = some ((src.drop offset).take (st.outputfile.pos + n)) := by
    intro n hn
    simp only [FileSystem.store, inv.outpath, if_true, inv.dest, Option.getD_some]
    congr 1
    conv_lhs => rw [show writeAt ((src.drop offset).take st.outputfile.pos) st.outputfile.pos
        (st.outbuf.take n)
      = writeAt ((src.drop offset).take st.outputfile.pos)
          ((src.drop offset).take st.outputfile.pos).length (st.outbuf.take n) by rw [hpl]]
    rw [writeAt_end, inv.pending, passed_append _ (by have := inv.passed; omega)]
  have hfull : st.outbuf = st.outbuf.take (done - st.outputfile.pos) := by
    rw [List.take_of_length_le (by omega)]
  cases hf : flt.fclose with
  | none =>
    refine ⟨st.outputfile.pos + (done - st.outputfile.pos), by omega,
      by have := inv.passed; omega, ?_, fun _ => by have := inv.passed; omega, hsrc,
      fun m h => absurd h (by simp)⟩
    unfold closed fclose
    simp only [hf]
    rw [hfull]
    exact key _ (Nat.le_refl _)
  | some m =>
    refine ⟨st.outputfile.pos + min m (done - st.outputfile.pos), by omega,
      by have := inv.passed; omega, ?_, fun h => absurd h (by simp), hsrc,
      fun m2 h => by rw [Option.some.inj h]⟩
    unfold closed fclose
    simp only [hf]
    rw [hfull, List.take_take]
    exact key _ (Nat.min_le_right _ _)

theorem fread_buf_length {fault : Bool} {ahead size : Nat} {st : Copy}
    (h : size ≤ st.transferBuf.length) :
    (fread fault ahead size st).2.transferBuf.length = st.transferBuf.length := by
  unfold fread
  split
  · rfl
  · simp only [List.length_append, List.length_take, List.length_drop]
    omega

theorem fwrite_buf (fault : Option Nat) (held size : Nat) (st : Copy) :
    (fwrite fault held size st).2.transferBuf = st.transferBuf := rfl

theorem blockCalls_succ (n : Nat) :
    blockCalls (n + 1)
      = [Event.fread DEFAULT_BLOCK_SIZE 1, Event.fwrite DEFAULT_BLOCK_SIZE 1] ++ blockCalls n := by
  simp [blockCalls, List.replicate_succ]

/-- The loop over the whole blocks, when it runs to its end, has carried
`remaining` blocks from the source to the output stream by `remaining` reads
and writes that returned 1. -/
theorem copyBlocks_true {flt : Faults} {source destination : String} {src : List Byte}
    {offset : Nat} :
    ∀ (remaining count done : Nat) (st : Copy), Copying source destination src offset done st →
      (copyBlocks flt remaining count st).1 = true →
      Copying source destination src offset (done + remaining * DEFAULT_BLOCK_SIZE)
        (copyBlocks flt remaining count st).2 ∧
      (copyBlocks flt remaining count st).2.trace = st.trace ++ blockCalls remaining := by
  intro remaining
  induction remaining with
  | zero =>
    intro count done st inv _
    simp only [copyBlocks, Nat.zero_mul, Nat.add_zero]
    exact ⟨inv, by simp [blockCalls]⟩
  | succ n ih =>
    intro count done st inv h
    rw [copyBlocks] at h ⊢
    simp only at h ⊢
    by_cases hr : (fread (flt.fread count) (flt.readahead count) DEFAULT_BLOCK_SIZE st).1 = 1
    · rw [if_neg (not_not.2 hr)] at h ⊢
      by_cases hw : (fwrite (flt.fwrite count) (flt.held count) DEFAULT_BLOCK_SIZE
          (fread (flt.fread count) (flt.readahead count) DEFAULT_BLOCK_SIZE st).2).1 = 1
      · rw [if_neg (not_not.2 hw)] at h ⊢
        obtain ⟨inv2, ht⟩ := ih (count + 1) (done + DEFAULT_BLOCK_SIZE) _
          (transfer_step inv hr hw) h
        refine ⟨?_, ?_⟩
        · rw [show done + (n + 1) * DEFAULT_BLOCK_SIZE
            = done + DEFAULT_BLOCK_SIZE + n * DEFAULT_BLOCK_SIZE by ring]
          exact inv2
        · rw [ht, fwrite_trace, fread_trace, hr, hw, blockCalls_succ]
          simp
      · rw [if_pos hw] at h
        exact absurd h (by simp)
    · rw [if_pos hr] at h
      exact absurd h (by simp)

/-- The loop over the whole blocks leaves through `goto end` only after a
read or a write that did not return 1. -/
theorem copyBlocks_false {flt : Faults} :
    ∀ (remaining count : Nat) (st : Copy), (copyBlocks flt remaining count st).1 = false →
      ∃ e ∈ (copyBlocks flt remaining count st).2.trace, e.failedTransfer = true := by
  intro remaining
  induction remaining with
  | zero =>
    intro count st h
    simp [copyBlocks] at h
  | succ n ih =>
    intro count st h
    rw [copyBlocks] at h ⊢
    simp only at h ⊢
    by_cases hr : (fread (flt.fread count) (flt.readahead count) DEFAULT_BLOCK_SIZE st).1 = 1
    · rw [if_neg (not_not.2 hr)] at h ⊢
      by_cases hw : (fwrite (flt.fwrite count) (flt.held count) DEFAULT_BLOCK_SIZE
          (fread (flt.fread count) (flt.readahead count) DEFAULT_BLOCK_SIZE st).2).1 = 1
      · rw [if_neg (not_not.2 hw)] at h ⊢
        exact ih _ _ h
      · rw [if_pos hw]
        refine ⟨.fwrite DEFAULT_BLOCK_SIZE (fwrite (flt.fwrite count) (flt.held count) DEFAULT_BLOCK_SIZE
          (fread (flt.fread count) (flt.readahead count) DEFAULT_BLOCK_SIZE st).2).1, ?_, ?_⟩
        · simp [fwrite_trace]
        · simpa [Event.failedTransfer] using hw
    · rw [if_pos hr]
      refine ⟨.fread DEFAULT_BLOCK_SIZE (fread (flt.fread count) (flt.readahead count) DEFAULT_BLOCK_SIZE st).1, ?_, ?_⟩
      · simp [fread_trace]
      · simpa [Event.failedTransfer] using hr

/-- In an environment without read or write faults the loop over the whole
blocks runs to its end when the source holds the blocks. -/
theorem copyBlocks_ok {flt : Faults} {source destination : String} {src : List Byte}
    {offset : Nat}
    (hrf : ∀ k, flt.fread k = false) (hwf : ∀ k, flt.fwrite k = none) :
    ∀ (remaining count done : Nat) (st : Copy), Copying source destination src offset done st →
      DEFAULT_BLOCK_SIZE ≤ st.transferBuf.length →
      offset + done + remaining * DEFAULT_BLOCK_SIZE ≤ src.length →
      (copyBlocks flt remaining count st).1 = true ∧
      DEFAULT_BLOCK_SIZE ≤ (copyBlocks flt remaining count st).2.transferBuf.length := by
  intro remaining
  induction remaining with
  | zero =>
    intro count done st _ hb _
    exact ⟨rfl, hb⟩
  | succ n ih =>
    intro count done st inv hb hle
    have hr : (fread (flt.fread count) (flt.readahead count) DEFAULT_BLOCK_SIZE st).1 = 1 := by
      rw [hrf]
      refine fread_ok (by rw [inv.inpath]; exact inv.intact)
        (by rw [inv.inpos]; exact inv.ahead) (by decide) ?_
      rw [inv.inpos]
      have : (n + 1) * DEFAULT_BLOCK_SIZE = n * DEFAULT_BLOCK_SIZE + DEFAULT_BLOCK_SIZE := by ring
      omega
    have hbl : (fread (flt.fread count) (flt.readahead count) DEFAULT_BLOCK_SIZE st).2.transferBuf.length
        = st.transferBuf.length := fread_buf_length hb
    have hw : (fwrite (flt.fwrite count) (flt.held count) DEFAULT_BLOCK_SIZE
        (fread (flt.fread count) (flt.readahead count) DEFAULT_BLOCK_SIZE st).2).1 = 1 := by
      rw [hwf]
      exact fwrite_ok (by decide) (by rw [hbl]; exact hb)
    rw [copyBlocks]
    simp only
    rw [if_neg (not_not.2 hr), if_neg (not_not.2 hw)]
    refine ih (count + 1) (done + DEFAULT_BLOCK_SIZE) _ (transfer_step inv hr hw) ?_ ?_
    · rw [fwrite_buf, hbl]; exact hb
    · have : (n + 1) * DEFAULT_BLOCK_SIZE = n * DEFAULT_BLOCK_SIZE + DEFAULT_BLOCK_SIZE := by ring
      omega


theorem copyLast_true {flt : Faults} {source destination : String} {src : List Byte}
    {offset done block_count size : Nat}
    {st : Copy} (inv : Copying source destination src offset done st)
    (h : (copyLast flt block_count size st).1 = true) :
    Copying source destination src offset (done + size) (copyLast flt block_count size st).2 ∧
    (copyLast flt block_count size st).2.trace = st.trace ++ lastCalls size := by
  unfold copyLast at h ⊢
  by_cases hs : size > 0
  · rw [if_pos hs] at h ⊢
    simp only at h ⊢
    by_cases hr : (fread (flt.fread block_count) (flt.readahead block_count) size st).1 = 1
    · rw [if_neg (not_not.2 hr)] at h ⊢
      by_cases hw : (fwrite (flt.fwrite block_count) (flt.held block_count) size
          (fread (flt.fread block_count) (flt.readahead block_count) size st).2).1 = 1
      · rw [if_neg (not_not.2 hw)] at h ⊢
        refine ⟨transfer_step inv hr hw, ?_⟩
        simp only [fwrite_trace, fread_trace, hr, hw, lastCalls, if_pos hs]
        simp
      · rw [if_pos hw] at h
        exact absurd h (by simp)
    · rw [if_pos hr] at h
      exact absurd h (by simp)
  · rw [if_neg hs]
    have h0 : size = 0 := by omega
    subst h0
    exact ⟨inv, by simp [lastCalls]⟩

theorem copyLast_false {flt : Faults} {block_count size : Nat} {st : Copy}
    (h : (copyLast flt block_count size st).1 = false) :
    ∃ e ∈ (copyLast flt block_count size st).2.trace, e.failedTransfer = true := by
  unfold copyLast at h ⊢
  by_cases hs : size > 0
  · rw [if_pos hs] at h ⊢
    simp only at h ⊢
    by_cases hr : (fread (flt.fread block_count) (flt.readahead block_count) size st).1 = 1
    · rw [if_neg (not_not.2 hr)] at h ⊢
      by_cases hw : (fwrite (flt.fwrite block_count) (flt.held block_count) size
          (fread (flt.fread block_count) (flt.readahead block_count) size st).2).1 = 1
      · rw [if_neg (not_not.2 hw)] at h
        exact absurd h (by simp)
      · rw [if_pos hw]
        refine ⟨.fwrite size (fwrite (flt.fwrite block_count) (flt.held block_count) size
          (fread (flt.fread block_count) (flt.readahead block_count) size st).2).1, ?_, ?_⟩
        · simp [fwrite_trace]
        · simpa [Event.failedTransfer] using hw
    · rw [if_pos hr]
      refine ⟨.fread size (fread (flt.fread block_count) (flt.readahead block_count) size st).1, ?_, ?_⟩
      · simp [fread_trace]
      · simpa [Event.failedTransfer] using hr
  · rw [if_neg hs] at h
    exact absurd h (by simp)

theorem copyLast_ok {flt : Faults} {source destination : String} {src : List Byte}
    {offset done block_count size : Nat}
    {st : Copy} (hrf : ∀ k, flt.fread k = false) (hwf : ∀ k, flt.fwrite k = none)
    (inv : Copying source destination src offset done st) (hb : size ≤ st.transferBuf.length)
    (hle : offset + done + size ≤ src.length) :
    (copyLast flt block_count size st).1 = true := by
  unfold copyLast
  by_cases hs : size > 0
  · rw [if_pos hs]
    have hr : (fread (flt.fread block_count) (flt.readahead block_count) size st).1 = 1 := by
      rw [hrf]
      refine fread_ok (by rw [inv.inpath]; exact inv.intact)
        (by rw [inv.inpos]; exact inv.ahead) hs ?_
      rw [inv.inpos]
      exact hle
    have hw : (fwrite (flt.fwrite block_count) (flt.held block_count) size
        (fread (flt.fread block_count) (flt.readahead block_count) size st).2).1 = 1 := by
      rw [hwf]
      exact fwrite_ok hs (by rw [fread_buf_length hb]; exact hb)
    simp only
    rw [if_neg (not_not.2 hr), if_neg (not_not.2 hw)]
  · rw [if_neg hs]

/-! ## The run of `main`, case by case -/

theorem size_cast_neg_one : (((-1 : Int) % (SIZE_MOD : Int)).toNat) = ULONG_MAX := by
  decide

theorem size_cast_of_le {n : Nat} (h : n ≤ LONG_MAX) :
    (((n : Int) % (SIZE_MOD : Int)).toNat) = n ∧ n ≠ ULONG_MAX := by
  have h1 : n < SIZE_MOD := by
    unfold LONG_MAX at h; unfold SIZE_MOD; omega
  constructor
  · rw [← Int.natCast_mod, Int.toNat_natCast, Nat.mod_eq_of_lt h1]
  · unfold LONG_MAX at h; unfold ULONG_MAX; omega

/-- The call of `get_file_size` that `main` makes, case by case. -/
theorem get_file_size_main (flt : Faults) (fs : FileSystem) (source : String) :
    get_file_size flt fs (some ⟨source, 0⟩) (some 0) =
      if flt.fseek_end = true then
        ⟨false, some ⟨source, 0⟩, some 0, [.fseek .inputfile 0 .SEEK_END false]⟩
      else if flt.ftell = true ∨ fs.size source > LONG_MAX then
        ⟨false, some ⟨source, fs.size source⟩, some 0,
          [.fseek .inputfile 0 .SEEK_END true, .ftell .inputfile (-1)]⟩
      else if flt.fseek_set = true then
        ⟨false, some ⟨source, fs.size source⟩, some 0,
          [.fseek .inputfile 0 .SEEK_END true, .ftell .inputfile (fs.size source : Int),
           .fseek .inputfile 0 .SEEK_SET false]⟩
      else
        ⟨true, some ⟨source, 0⟩, some (fs.size source),
          [.fseek .inputfile 0 .SEEK_END true, .ftell .inputfile (fs.size source : Int),
           .fseek .inputfile 0 .SEEK_SET true]⟩ := by
  unfold get_file_size
  simp only
  by_cases h1 : flt.fseek_end = true
  · rw [if_pos h1, if_pos h1]
  · rw [if_neg h1, if_neg h1]
    by_cases h2 : flt.ftell = true ∨ fs.size source > LONG_MAX
    · rw [if_pos h2, if_pos h2, size_cast_neg_one, if_pos rfl]
    · rw [if_neg h2, if_neg h2]
      have h3 : fs.size source ≤ LONG_MAX := by
        simp only [not_or, not_lt] at h2; exact h2.2
      obtain ⟨h4, h5⟩ := size_cast_of_le h3
      rw [h4, if_neg h5]
      by_cases h6 : flt.fseek_set = true
      · rw [if_pos h6, if_pos h6]; rfl
      · rw [if_neg h6, if_neg h6]; rfl

/-- The run of `main` with four arguments or more, case by case up to the
point where the range is accepted. -/
theorem main_eq (prog source offsetArg lengthArg destination : String) (rest : List String)
    (fs : FileSystem) (flt : Faults) :
    main (prog :: source :: offsetArg :: lengthArg :: destination :: rest) fs flt =
      if flt.fopen_rb = true ∨ fs source = none then
        ⟨-1, fs, [.fopen_rb source false, .printf (.cannotOpen source)]⟩
      else if flt.fseek_end = true then
        ⟨-1, fs, [.fopen_rb source true, .fseek .inputfile 0 .SEEK_END false,
          .printf .cannotGetSize, .fclose .inputfile]⟩
      else if flt.ftell = true ∨ fs.size source > LONG_MAX then
        ⟨-1, fs, [.fopen_rb source true, .fseek .inputfile 0 .SEEK_END true,
          .ftell .inputfile (-1), .printf .cannotGetSize, .fclose .inputfile]⟩
      else if flt.fseek_set = true then
        ⟨-1, fs, [.fopen_rb source true, .fseek .inputfile 0 .SEEK_END true,
          .ftell .inputfile (fs.size source : Int), .fseek .inputfile 0 .SEEK_SET false,
          .printf .cannotGetSize, .fclose .inputfile]⟩
      else
        match validate (parseOffset offsetArg)
          (resolveLength lengthArg (parseOffset offsetArg) (fs.size source)) (fs.size source) with
        | .lengthZero =>
          ⟨-1, fs, probeCalls source (fs.size source) ++ [.printf .lengthZero, .fclose .inputfile]⟩
        | .offsetLarger =>
          ⟨-1, fs, probeCalls source (fs.size source) ++
            [.printf (.offsetLarger (parseOffset offsetArg) source (fs.size source)),
             .fclose .inputfile]⟩
        | .rangeGreater =>
          ⟨-1, fs, probeCalls source (fs.size source) ++
            [.printf (.rangeGreater (parseOffset offsetArg)
              (resolveLength lengthArg (parseOffset offsetArg) (fs.size source)) source
              (fs.size source)), .fclose .inputfile]⟩
        | .accepted =>
          carve flt fs (probeCalls source (fs.size source)) ⟨source, 0⟩ source destination
            (parseOffset offsetArg)
            (resolveLength lengthArg (parseOffset offsetArg) (fs.size source)) := by
  unfold main
  simp only
  by_cases h0 : flt.fopen_rb = true ∨ fs source = none
  · rw [if_pos h0, if_pos h0]; rfl
  · rw [if_neg h0, if_neg h0, get_file_size_main]
    by_cases h1 : flt.fseek_end = true
    · simp only [if_pos h1]; rfl
    · simp only [if_neg h1]
      by_cases h2 : flt.ftell = true ∨ fs.size source > LONG_MAX
      · simp only [if_pos h2]; rfl
      · simp only [if_neg h2]
        by_cases h3 : flt.fseek_set = true
        · simp only [if_pos h3]; rfl
        · simp only [if_neg h3]
          simp only [Bool.true_eq_false, if_false, Option.getD_some]
          cases validate (parseOffset offsetArg)
            (resolveLength lengthArg (parseOffset offsetArg) (fs.size source)) (fs.size source)
            <;> rfl


/-- The part of `main` after the checks, case by case. -/
theorem carve_eq (flt : Faults) (fs : FileSystem) (trace : List Event) (source destination : String)
    (offset length : Nat) :
    carve flt fs trace ⟨source, 0⟩ source destination offset length =
      if flt.calloc = true then
        ⟨-1, fs, trace ++ [.calloc DEFAULT_BLOCK_SIZE false, .printf .cannotAllocate,
          .fclose .inputfile]⟩
      else if flt.fseek_offset = true then
        ⟨-1, fs, trace ++ [.calloc DEFAULT_BLOCK_SIZE true,
          .fseek .inputfile offset .SEEK_SET false, .printf (.cannotSeek offset source),
          .free, .fclose .inputfile]⟩
      else if flt.fopen_wb = true then
        ⟨-1, fs, trace ++ [.calloc DEFAULT_BLOCK_SIZE true,
          .fseek .inputfile offset .SEEK_SET true, .fopen_wb destination false,
          .printf (.cannotCreate destination), .free, .fclose .inputfile]⟩
      else copyPhase flt fs trace source destination offset length := by
  unfold carve copyPhase lastDone blocksDone
  simp only
  by_cases h1 : flt.calloc = true
  · rw [if_pos h1, if_pos h1]; simp [finish]
  · rw [if_neg h1, if_neg h1]
    by_cases h2 : flt.fseek_offset = true
    · rw [if_pos h2, if_pos h2]; simp [finish]
    · rw [if_neg h2, if_neg h2]
      by_cases h3 : flt.fopen_wb = true
      · rw [if_pos h3, if_pos h3]; simp [finish]
      · rw [if_neg h3, if_neg h3]
        have hs : (⟨fs.store destination [],
            trace ++ [Event.calloc DEFAULT_BLOCK_SIZE true] ++
              [Event.fseek .inputfile offset .SEEK_SET true] ++ [Event.fopen_wb destination true],
            List.replicate DEFAULT_BLOCK_SIZE 0, ⟨source, offset⟩, ⟨destination, 0⟩,
            (((fs source).getD []).drop offset).take flt.seekahead, []⟩ : Copy)
            = copyStart flt fs trace source destination offset := by
          simp [copyStart]
        rw [hs]
        split
        · simp [finish, closed]
        · split
          · simp [finish, closed]
          · simp [finish, closed]

/-! ## The copy phase -/

theorem copyStart_copying {flt : Faults} {fs : FileSystem} {trace : List Event}
    {source destination : String} {offset : Nat} {src : List Byte} (hd : source ≠ destination)
    (hsrc : fs source = some src) (ho : offset ≤ src.length) :
    Copying source destination src offset 0
      (copyStart flt fs trace source destination offset) := by
  refine ⟨hd, rfl, rfl, ?_, ?_, ?_, Nat.le_refl _, rfl, ?_, ho⟩
  · simp only [copyStart, FileSystem.store, if_neg hd]
    exact hsrc
  · simp [copyStart, FileSystem.store]
  · simp [copyStart]
  · exact ⟨flt.seekahead, by simp [copyStart, hsrc]⟩

theorem div_mul_add_mod (length : Nat) :
    0 + length / DEFAULT_BLOCK_SIZE * DEFAULT_BLOCK_SIZE + length % DEFAULT_BLOCK_SIZE = length := by
  rw [Nat.zero_add, Nat.mul_comm]
  exact Nat.div_add_mod length DEFAULT_BLOCK_SIZE

/-- When both parts of the copy run to their end, the output stream has
accepted the range, the source held it, and the calls made are the
whole-block transfers followed by the transfer of the last block. -/
theorem copy_complete {flt : Faults} {fs : FileSystem} {trace : List Event}
    {source destination : String} {offset length : Nat} {src : List Byte}
    (hd : source ≠ destination) (hsrc : fs source = some src) (ho : offset ≤ src.length)
    (hb : (blocksDone flt fs trace source destination offset length).1 = true)
    (hl : (lastDone flt fs trace source destination offset length).1 = true) :
    Copying source destination src offset length
      (lastDone flt fs trace source destination offset length).2 ∧
    (lastDone flt fs trace source destination offset length).2.trace
      = (copyStart flt fs trace source destination offset).trace
        ++ blockCalls (length / DEFAULT_BLOCK_SIZE) ++ lastCalls (length % DEFAULT_BLOCK_SIZE) := by
  unfold lastDone at hl ⊢
  unfold blocksDone at hb hl ⊢
  obtain ⟨inv1, ht1⟩ := copyBlocks_true _ 0 0 _ (copyStart_copying hd hsrc ho) hb
  obtain ⟨inv2, ht2⟩ := copyLast_true inv1 hl
  rw [div_mul_add_mod] at inv2
  exact ⟨inv2, by rw [ht2, ht1]⟩

/-- In an environment without read or write faults, the copy of a range that
lies in the source, to a destination other than the source, runs to its end. -/
theorem copy_runs {flt : Faults} {fs : FileSystem} {trace : List Event}
    {source destination : String} {offset length : Nat} {src : List Byte}
    (hrf : ∀ k, flt.fread k = false) (hwf : ∀ k, flt.fwrite k = none)
    (hd : source ≠ destination) (hsrc : fs source = some src)
    (hsum : offset + length ≤ src.length) :
    (blocksDone flt fs trace source destination offset length).1 = true ∧
    (lastDone flt fs trace source destination offset length).1 = true := by
  unfold lastDone blocksDone
  have hdm := Nat.div_add_mod length DEFAULT_BLOCK_SIZE
  have hm : length % DEFAULT_BLOCK_SIZE < DEFAULT_BLOCK_SIZE := Nat.mod_lt _ (by decide)
  have hstart : Copying source destination src offset 0
      (copyStart flt fs trace source destination offset) :=
    copyStart_copying hd hsrc (by omega)
  obtain ⟨hb, hbuf⟩ := copyBlocks_ok hrf hwf (length / DEFAULT_BLOCK_SIZE) 0 0 _ hstart
    (by simp [copyStart]) (by rw [Nat.mul_comm]; omega)
  refine ⟨hb, ?_⟩
  obtain ⟨inv1, _⟩ := copyBlocks_true _ 0 0 _ hstart hb
  exact copyLast_ok hrf hwf inv1 (by omega) (by rw [Nat.mul_comm]; omega)

/-- The exit status of the copy phase: 0 when both parts ran to their end,
and -1 otherwise. -/
theorem copyPhase_retVal (flt : Faults) (fs : FileSystem) (trace : List Event)
    (source destination : String) (offset length : Nat) :
    (copyPhase flt fs trace source destination offset length).retVal
      = if (blocksDone flt fs trace source destination offset length).1 = true ∧
          (lastDone flt fs trace source destination offset length).1 = true then 0 else -1 := by
  unfold copyPhase
  cases (blocksDone flt fs trace source destination offset length).1 <;>
    cases (lastDone flt fs trace source destination offset length).1 <;> simp

/-- The copy phase ends with exit status -1 only after a read or a write that
did not return 1. -/
theorem copyPhase_failed {flt : Faults} {fs : FileSystem} {trace : List Event}
    {source destination : String} {offset length : Nat}
    (h : (copyPhase flt fs trace source destination offset length).retVal ≠ 0) :
    ∃ e ∈ (copyPhase flt fs trace source destination offset length).trace,
      e.failedTransfer = true := by
  unfold copyPhase at h ⊢
  by_cases hb : (blocksDone flt fs trace source destination offset length).1 = false
  · rw [if_pos hb]
    obtain ⟨e, he, hf⟩ := copyBlocks_false _ _ _ hb
    exact ⟨e, List.mem_append_left _ he, hf⟩
  · rw [if_neg hb] at h ⊢
    by_cases hl : (lastDone flt fs trace source destination offset length).1 = false
    · rw [if_pos hl]
      obtain ⟨e, he, hf⟩ := copyLast_false hl
      exact ⟨e, List.mem_append_left _ he, hf⟩
    · rw [if_neg hl] at h
      exact absurd rfl h

/-! ## The record of the copy phase -/

theorem mem_blockCalls {e : Event} {n : Nat} (h : e ∈ blockCalls n) :
    e = .fread DEFAULT_BLOCK_SIZE 1 ∨ e = .fwrite DEFAULT_BLOCK_SIZE 1 := by
  unfold blockCalls at h
  rw [List.mem_flatten] at h
  obtain ⟨l, hl, he⟩ := h
  rw [List.eq_of_mem_replicate hl] at he
  simpa using he

theorem fread_ne_one {fault : Bool} {ahead size : Nat} {st : Copy}
    (h : (fread fault ahead size st).1 ≠ 1) : (fread fault ahead size st).1 = 0 := by
  rcases fread_ret fault ahead size st with h0 | h1
  · exact h0
  · exact absurd h1 h

theorem fwrite_ne_one {fault : Option Nat} {held size : Nat} {st : Copy}
    (h : (fwrite fault held size st).1 ≠ 1) : (fwrite fault held size st).1 = 0 := by
  rcases fwrite_ret fault held size st with h0 | h1
  · exact h0
  · exact absurd h1 h

/-- The record of the loop over the whole blocks: the record before it,
followed by the calls of one of its three ways to end. -/
theorem copyBlocks_trace (flt : Faults) :
    ∀ (remaining count : Nat) (st : Copy),
      ∃ calls, BlocksEnd remaining count (copyBlocks flt remaining count st).1 calls ∧
        (copyBlocks flt remaining count st).2.trace = st.trace ++ calls := by
  intro remaining
  induction remaining with
  | zero =>
    intro count st
    exact ⟨blockCalls 0, .done, by simp [copyBlocks, blockCalls]⟩
  | succ n ih =>
    intro count st
    rw [copyBlocks]
    simp only
    by_cases hr : (fread (flt.fread count) (flt.readahead count) DEFAULT_BLOCK_SIZE st).1 = 1
    · rw [if_neg (not_not.2 hr)]
      by_cases hw : (fwrite (flt.fwrite count) (flt.held count) DEFAULT_BLOCK_SIZE
          (fread (flt.fread count) (flt.readahead count) DEFAULT_BLOCK_SIZE st).2).1 = 1
      · rw [if_neg (not_not.2 hw)]
        obtain ⟨calls, hend, ht⟩ := ih (count + 1)
          (fwrite (flt.fwrite count) (flt.held count) DEFAULT_BLOCK_SIZE
            (fread (flt.fread count) (flt.readahead count) DEFAULT_BLOCK_SIZE st).2).2
        rw [ht, fwrite_trace, fread_trace, hr, hw]
        refine ⟨[.fread DEFAULT_BLOCK_SIZE 1, .fwrite DEFAULT_BLOCK_SIZE 1] ++ calls, ?_,
          by simp⟩
        revert hend
        generalize (copyBlocks flt n (count + 1)
          (fwrite (flt.fwrite count) (flt.held count) DEFAULT_BLOCK_SIZE
            (fread (flt.fread count) (flt.readahead count) DEFAULT_BLOCK_SIZE st).2).2).1 = b
        intro hend
        cases hend with
        | done =>
          rw [← blockCalls_succ]
          exact .done
        | readFailed k hk =>
          rw [← List.append_assoc, ← blockCalls_succ,
            show count + 1 + k = count + (k + 1) by omega]
          exact .readFailed (k + 1) (by omega)
        | writeFailed k hk =>
          rw [← List.append_assoc, ← blockCalls_succ,
            show count + 1 + k = count + (k + 1) by omega]
          exact .writeFailed (k + 1) (by omega)
      · rw [if_pos hw]
        refine ⟨_, .writeFailed 0 (by omega), ?_⟩
        simp [fwrite_trace, fread_trace, hr, fwrite_ne_one hw, blockCalls]
    · rw [if_pos hr]
      refine ⟨_, .readFailed 0 (by omega), ?_⟩
      simp [fread_trace, fread_ne_one hr, blockCalls]

theorem copyLast_trace (flt : Faults) (block_count size : Nat) (st : Copy) :
    ∃ calls, LastEnd size (copyLast flt block_count size st).1 calls ∧
      (copyLast flt block_count size st).2.trace = st.trace ++ calls := by
  unfold copyLast
  by_cases hs : size > 0
  · rw [if_pos hs]
    simp only
    by_cases hr : (fread (flt.fread block_count) (flt.readahead block_count) size st).1 = 1
    · rw [if_neg (not_not.2 hr)]
      by_cases hw : (fwrite (flt.fwrite block_count) (flt.held block_count) size
          (fread (flt.fread block_count) (flt.readahead block_count) size st).2).1 = 1
      · rw [if_neg (not_not.2 hw)]
        refine ⟨_, .done, ?_⟩
        simp [fwrite_trace, fread_trace, hr, hw, lastCalls, hs]
      · rw [if_pos hw]
        refine ⟨_, .writeFailed hs, ?_⟩
        simp [fwrite_trace, fread_trace, hr, fwrite_ne_one hw]
    · rw [if_pos hr]
      refine ⟨_, .readFailed hs, ?_⟩
      simp [fread_trace, fread_ne_one hr]
  · rw [if_neg hs]
    refine ⟨_, .done, ?_⟩
    simp [lastCalls, hs]

theorem blocksEnd_true {n count : Nat} {calls : List Event} (h : BlocksEnd n count true calls) :
    calls = blockCalls n := by
  cases h
  rfl

theorem lastEnd_true {size : Nat} {calls : List Event} (h : LastEnd size true calls) :
    calls = lastCalls size := by
  cases h
  rfl

/-- The record of the copy phase: the record before it, the calls that set
the copy up, and the calls of one of its ways to end. -/
theorem copyPhase_trace (flt : Faults) (fs : FileSystem) (trace : List Event)
    (source destination : String) (offset length : Nat) :
    ∃ calls, CopyEnd source destination offset length
        (copyPhase flt fs trace source destination offset length).retVal calls ∧
      (copyPhase flt fs trace source destination offset length).trace
        = trace ++ setupCalls destination offset ++ calls := by
  obtain ⟨bc, hb, hbt⟩ := copyBlocks_trace flt (length / DEFAULT_BLOCK_SIZE) 0
    (copyStart flt fs trace source destination offset)
  obtain ⟨lc, hl, hlt⟩ := copyLast_trace flt (length / DEFAULT_BLOCK_SIZE)
    (length % DEFAULT_BLOCK_SIZE) (blocksDone flt fs trace source destination offset length).2
  have hst : (copyStart flt fs trace source destination offset).trace
      = trace ++ setupCalls destination offset := rfl
  rw [hst] at hbt
  unfold copyPhase
  by_cases h1 : (blocksDone flt fs trace source destination offset length).1 = false
  · rw [if_pos h1]
    unfold blocksDone at h1 ⊢
    rw [h1] at hb
    exact ⟨bc ++ releaseAll, .blocks bc hb, by simp [hbt, releaseAll]⟩
  · rw [if_neg h1]
    have h1t : (copyBlocks flt (length / DEFAULT_BLOCK_SIZE) 0
        (copyStart flt fs trace source destination offset)).1 = true := by
      simpa [blocksDone] using h1
    rw [h1t] at hb
    have hbc := blocksEnd_true hb
    subst hbc
    have hlt2 : (lastDone flt fs trace source destination offset length).2.trace
        = trace ++ setupCalls destination offset ++ blockCalls (length / DEFAULT_BLOCK_SIZE)
          ++ lc := by
      unfold lastDone
      rw [hlt]
      unfold blocksDone
      rw [hbt]
    have hl2 : LastEnd (length % DEFAULT_BLOCK_SIZE)
        (lastDone flt fs trace source destination offset length).1 lc := hl
    by_cases h2 : (lastDone flt fs trace source destination offset length).1 = false
    · rw [if_pos h2]
      rw [h2] at hl2
      exact ⟨_, .last lc hl2, by simp [hlt2, releaseAll]⟩
    · rw [if_neg h2]
      have h2t : (lastDone flt fs trace source destination offset length).1 = true := by
        simpa using h2
      rw [h2t] at hl2
      have hlc := lastEnd_true hl2
      subst hlc
      exact ⟨_, .done, by simp [hlt2, releaseAll]⟩

/-! ## Runs that reach the copy phase -/

/-- A record without failed transfers, from what its reads and writes
returned. -/
theorem no_failedTransfer {trace : List Event}
    (hread : ∀ size ret, Event.fread size ret ∈ trace → ret = 1)
    (hwrite : ∀ size ret, Event.fwrite size ret ∈ trace → ret = 1) :
    ∀ e ∈ trace, e.failedTransfer = false := by
  intro e he
  cases e with
  | fread size ret => simpa [Event.failedTransfer] using hread size ret he
  | fwrite size ret => simpa [Event.failedTransfer] using hwrite size ret he
  | _ => rfl

/-- A run is in the copy phase when no call before it fails and the range is
accepted. -/
theorem main_reaches_copy {prog source offsetArg lengthArg destination : String}
    {rest : List String} {fs : FileSystem} {flt : Faults}
    (h0 : ¬ (flt.fopen_rb = true ∨ fs source = none)) (h1 : ¬ flt.fseek_end = true)
    (h2 : ¬ (flt.ftell = true ∨ fs.size source > LONG_MAX)) (h3 : ¬ flt.fseek_set = true)
    (hv : validate (parseOffset offsetArg)
      (resolveLength lengthArg (parseOffset offsetArg) (fs.size source)) (fs.size source)
      = .accepted)
    (h4 : ¬ flt.calloc = true) (h5 : ¬ flt.fseek_offset = true) (h6 : ¬ flt.fopen_wb = true) :
    main (prog :: source :: offsetArg :: lengthArg :: destination :: rest) fs flt
      = copyPhase flt fs (probeCalls source (fs.size source)) source destination
          (parseOffset offsetArg)
          (resolveLength lengthArg (parseOffset offsetArg) (fs.size source)) := by
  rw [main_eq, if_neg h0, if_neg h1, if_neg h2, if_neg h3, hv]
  simp only
  rw [carve_eq, if_neg h4, if_neg h5, if_neg h6]

/-- A run that opened the destination is in the copy phase: no call before it
failed and the range was accepted. -/
theorem main_of_opened {prog source offsetArg lengthArg destination : String}
    {rest : List String} {fs : FileSystem} {flt : Faults}
    (hopen : Event.fopen_wb destination true
      ∈ (main (prog :: source :: offsetArg :: lengthArg :: destination :: rest) fs flt).trace) :
    validate (parseOffset offsetArg)
      (resolveLength lengthArg (parseOffset offsetArg) (fs.size source)) (fs.size source)
      = .accepted ∧
    main (prog :: source :: offsetArg :: lengthArg :: destination :: rest) fs flt
      = copyPhase flt fs (probeCalls source (fs.size source)) source destination
          (parseOffset offsetArg)
          (resolveLength lengthArg (parseOffset offsetArg) (fs.size source)) := by
  by_cases h0 : flt.fopen_rb = true ∨ fs source = none
  · rw [main_eq, if_pos h0] at hopen; simp at hopen
  by_cases h1 : flt.fseek_end = true
  · rw [main_eq, if_neg h0, if_pos h1] at hopen; simp at hopen
  by_cases h2 : flt.ftell = true ∨ fs.size source > LONG_MAX
  · rw [main_eq, if_neg h0, if_neg h1, if_pos h2] at hopen; simp at hopen
  by_cases h3 : flt.fseek_set = true
  · rw [main_eq, if_neg h0, if_neg h1, if_neg h2, if_pos h3] at hopen; simp at hopen
  rw [main_eq, if_neg h0, if_neg h1, if_neg h2, if_neg h3] at hopen
  cases hv : validate (parseOffset offsetArg)
      (resolveLength lengthArg (parseOffset offsetArg) (fs.size source)) (fs.size source) with
  | lengthZero => rw [hv] at hopen; simp [probeCalls] at hopen
  | offsetLarger => rw [hv] at hopen; simp [probeCalls] at hopen
  | rangeGreater => rw [hv] at hopen; simp [probeCalls] at hopen
  | accepted =>
    rw [hv] at hopen
    simp only at hopen
    by_cases h4 : flt.calloc = true
    · rw [carve_eq, if_pos h4] at hopen; simp [probeCalls] at hopen
    by_cases h5 : flt.fseek_offset = true
    · rw [carve_eq, if_neg h4, if_pos h5] at hopen; simp [probeCalls] at hopen
    by_cases h6 : flt.fopen_wb = true
    · rw [carve_eq, if_neg h4, if_neg h5, if_pos h6] at hopen; simp [probeCalls] at hopen
    exact ⟨rfl, main_reaches_copy h0 h1 h2 h3 hv h4 h5 h6⟩

/-! ## The events of the copy phase -/

theorem blockCalls_ofCopy {n : Nat} {e : Event} (h : e ∈ blockCalls n) : e.ofCopy = true := by
  rcases mem_blockCalls h with h | h <;> rw [h] <;> rfl

theorem lastCalls_ofCopy {size : Nat} {e : Event} (h : e ∈ lastCalls size) :
    e.ofCopy = true := by
  unfold lastCalls at h
  split at h
  · simp only [List.mem_cons, List.mem_singleton, List.not_mem_nil, or_false] at h
    rcases h with h | h <;> rw [h] <;> rfl
  · simp at h

theorem blocksEnd_ofCopy {n count : Nat} {b : Bool} {calls : List Event}
    (h : BlocksEnd n count b calls) {e : Event} (he : e ∈ calls) : e.ofCopy = true := by
  cases h with
  | done => exact blockCalls_ofCopy he
  | readFailed k hk =>
    rcases List.mem_append.1 he with h1 | h1
    · exact blockCalls_ofCopy h1
    · simp only [List.mem_cons, List.mem_singleton, List.not_mem_nil, or_false] at h1
      rcases h1 with h | h <;> rw [h] <;> rfl
  | writeFailed k hk =>
    rcases List.mem_append.1 he with h1 | h1
    · exact blockCalls_ofCopy h1
    · simp only [List.mem_cons, List.mem_singleton, List.not_mem_nil, or_false] at h1
      rcases h1 with h | h | h <;> rw [h] <;> rfl

theorem lastEnd_ofCopy {size : Nat} {b : Bool} {calls : List Event}
    (h : LastEnd size b calls) {e : Event} (he : e ∈ calls) : e.ofCopy = true := by
  cases h with
  | done => exact lastCalls_ofCopy he
  | readFailed hs =>
    simp only [List.mem_cons, List.mem_singleton, List.not_mem_nil, or_false] at he
    rcases he with h | h <;> rw [h] <;> rfl
  | writeFailed hs =>
    simp only [List.mem_cons, List.mem_singleton, List.not_mem_nil, or_false] at he
    rcases he with h | h | h <;> rw [h] <;> rfl

theorem releaseAll_ofCopy {e : Event} (h : e ∈ releaseAll) : e.ofCopy = true := by
  simp only [releaseAll, List.mem_cons, List.mem_singleton, List.not_mem_nil, or_false] at h
  rcases h with h | h | h <;> rw [h] <;> rfl

theorem copyEnd_ofCopy {source destination : String} {offset length : Nat} {r : Int}
    {calls : List Event} (h : CopyEnd source destination offset length r calls) {e : Event}
    (he : e ∈ calls) : e.ofCopy = true := by
  cases h with
  | blocks bc hb =>
    rcases List.mem_append.1 he with h1 | h1
    · exact blocksEnd_ofCopy hb h1
    · exact releaseAll_ofCopy h1
  | last lc hl =>
    rcases List.mem_append.1 he with h1 | h1
    · rcases List.mem_append.1 h1 with h2 | h2
      · exact blockCalls_ofCopy h2
      · exact lastEnd_ofCopy hl h2
    · exact releaseAll_ofCopy h1
  | done =>
    rcases List.mem_append.1 he with h1 | h1
    · rcases List.mem_append.1 h1 with h2 | h2
      · rcases List.mem_append.1 h2 with h3 | h3
        · exact blockCalls_ofCopy h3
        · exact lastCalls_ofCopy h3
      · rw [List.mem_singleton.1 h2]; rfl
    · exact releaseAll_ofCopy h1

/-! ## The argument count -/

/-- With fewer than four arguments after the program name, `main` prints the
usage and returns 0. -/
theorem main_usage {argv : List String} (h : argv.length < 5) (fs : FileSystem) (flt : Faults) :
    main argv fs flt = ⟨0, fs, [.printf .usage]⟩ := by
  match argv, h with
  | [], _ => rfl
  | [_], _ => rfl
  | [_, _], _ => rfl
  | [_, _, _], _ => rfl
  | [_, _, _, _], _ => rfl
  | _ :: _ :: _ :: _ :: _ :: _, h => simp only [List.length_cons] at h; omega

theorem argv_of_length {argv : List String} (h : ¬ argv.length < 5) :
    ∃ prog source offsetArg lengthArg destination rest,
      argv = prog :: source :: offsetArg :: lengthArg :: destination :: rest := by
  match argv, h with
  | [], h => simp at h
  | [_], h => simp at h
  | [_, _], h => simp at h
  | [_, _, _], h => simp at h
  | [_, _, _, _], h => simp at h
  | a :: b :: c :: d :: e :: r, _ => exact ⟨a, b, c, d, e, r, rfl⟩

theorem rejection_not_ofCopy {m : Msg} (h : m.isRejection = true) :
    (Event.printf m).ofCopy = false := by
  cases m <;> first | rfl | simp [Msg.isRejection] at h

/-! ## Runs that determine the size of the source -/

/-- The run of `main` once the source was opened and its size determined. -/
theorem main_probed {prog source offsetArg lengthArg destination : String}
    {rest : List String} {fs : FileSystem} {flt : Faults} (hp : Probed flt fs source) :
    main (prog :: source :: offsetArg :: lengthArg :: destination :: rest) fs flt =
      match validate (parseOffset offsetArg)
        (resolveLength lengthArg (parseOffset offsetArg) (fs.size source)) (fs.size source) with
      | .lengthZero =>
        ⟨-1, fs, probeCalls source (fs.size source) ++ [.printf .lengthZero, .fclose .inputfile]⟩
      | .offsetLarger =>
        ⟨-1, fs, probeCalls source (fs.size source) ++
          [.printf (.offsetLarger (parseOffset offsetArg) source (fs.size source)),
           .fclose .inputfile]⟩
      | .rangeGreater =>
        ⟨-1, fs, probeCalls source (fs.size source) ++
          [.printf (.rangeGreater (parseOffset offsetArg)
            (resolveLength lengthArg (parseOffset offsetArg) (fs.size source)) source
            (fs.size source)), .fclose .inputfile]⟩
      | .accepted =>
        carve flt fs (probeCalls source (fs.size source)) ⟨source, 0⟩ source destination
          (parseOffset offsetArg)
          (resolveLength lengthArg (parseOffset offsetArg) (fs.size source)) := by
  obtain ⟨h0, h1, h2, h3, h4, h5⟩ := hp
  rw [main_eq, if_neg (by simp [h0, h1]), if_neg (by simp [h2]),
    if_neg (by simp only [h3, Bool.false_eq_true, false_or, not_lt]; exact h4),
    if_neg (by simp [h5])]

/-! ## The checks on the range -/

/-- The checks report the first one that fails, in the order zero length,
offset, range, where the range check compares the true sum as long as that sum
fits a `size_t`. -/
theorem validate_first_failing (offset length inputsize : Nat)
    (hfit : offset + length < SIZE_MOD) :
    validate offset length inputsize =
      if length = 0 then .lengthZero
      else if offset > inputsize then .offsetLarger
      else if offset + length > inputsize then .rangeGreater
      else .accepted := by
  unfold validate
  rw [Nat.mod_eq_of_lt hfit]

/-- What the checks accept: a length other than 0, an offset inside the file
or at its end, and a `size_t` sum that does not exceed the size. -/
theorem validate_accepted_iff (offset length inputsize : Nat) :
    validate offset length inputsize = .accepted ↔
      length ≠ 0 ∧ offset ≤ inputsize ∧ (offset + length) % SIZE_MOD ≤ inputsize := by
  unfold validate
  split
  · simp [*]
  · split
    · simp only [false_iff, reduceCtorEq]
      omega
    · split
      · simp only [false_iff, reduceCtorEq]
        omega
      · simp only [true_iff]
        omega

/-! ## Runs without faults -/

/-- The files after a copy phase in which both parts ran to their end, to a
destination other than the source: the range lies in the source, the source
is as it was, and the destination holds the leading bytes of the range that
reached the file, which are all of them when the `fclose` of the output
stream does not fail. -/
theorem copyPhase_files {flt : Faults} {fs : FileSystem} {trace : List Event}
    {source destination : String} {offset length : Nat} {src : List Byte}
    (hd : source ≠ destination) (hsrc : fs source = some src) (ho : offset ≤ src.length)
    (hb : (blocksDone flt fs trace source destination offset length).1 = true)
    (hl : (lastDone flt fs trace source destination offset length).1 = true) :
    offset + length ≤ src.length ∧
    (copyPhase flt fs trace source destination offset length).fs source = some src ∧
    ∃ n, n ≤ length ∧
      (copyPhase flt fs trace source destination offset length).fs destination
        = some ((src.drop offset).take n) ∧
      (flt.fclose = none → n = length) := by
  have hfs : (copyPhase flt fs trace source destination offset length).fs
      = closed flt (lastDone flt fs trace source destination offset length).2 := by
    unfold copyPhase
    rw [if_neg (by rw [hb]; decide), if_neg (by rw [hl]; decide)]
  have inv := (copy_complete hd hsrc ho hb hl).1
  obtain ⟨n, _, hn, hdest, hfull, hsource, _⟩ := @closed_files flt _ _ _ _ _ _ inv
  rw [hfs]
  exact ⟨inv.bound, hsource, n, hn, hdest, hfull⟩

/-- A run in which no library call fails, however the streams buffer, on a
source whose size fits a `long`, with a range accepted by the checks, in a
destination other than the source, and with the range inside the source: it
returns 0, the destination holds the range and the source is as it was. -/
theorem main_runs {prog source offsetArg lengthArg destination : String}
    {rest : List String} {fs : FileSystem} {flt : Faults} {src : List Byte}
    (hn : flt.noFault)
    (hsrc : fs source = some src) (hsize : src.length ≤ LONG_MAX) (hd : source ≠ destination)
    (hv : validate (parseOffset offsetArg)
      (resolveLength lengthArg (parseOffset offsetArg) src.length) src.length = .accepted)
    (hsum : parseOffset offsetArg + resolveLength lengthArg (parseOffset offsetArg) src.length
      ≤ src.length) :
    (main (prog :: source :: offsetArg :: lengthArg :: destination :: rest) fs flt).retVal = 0 ∧
    (main (prog :: source :: offsetArg :: lengthArg :: destination :: rest) fs flt).fs
      destination = some ((src.drop (parseOffset offsetArg)).take
        (resolveLength lengthArg (parseOffset offsetArg) src.length)) ∧
    (main (prog :: source :: offsetArg :: lengthArg :: destination :: rest) fs flt).fs source
      = some src := by
  obtain ⟨f1, f2, f3, f4, f5, f6, f7, hrf, hwf, hcl⟩ := hn
  have hsz : fs.size source = src.length := by simp [FileSystem.size, hsrc]
  have hmain : main (prog :: source :: offsetArg :: lengthArg :: destination :: rest) fs
      flt = copyPhase flt fs (probeCalls source (fs.size source)) source
        destination (parseOffset offsetArg)
        (resolveLength lengthArg (parseOffset offsetArg) (fs.size source)) := by
    refine main_reaches_copy ?_ ?_ ?_ ?_ ?_ ?_ ?_ ?_
    · simp [f1, hsrc]
    · simp [f2]
    · simp only [f3, Bool.false_eq_true, false_or, not_lt, hsz]; exact hsize
    · simp [f4]
    · rw [hsz]; exact hv
    · simp [f5]
    · simp [f6]
    · simp [f7]
  rw [hmain, hsz]
  have hbl : (blocksDone flt fs (probeCalls source src.length) source destination
        (parseOffset offsetArg)
        (resolveLength lengthArg (parseOffset offsetArg) src.length)).1 = true ∧
      (lastDone flt fs (probeCalls source src.length) source destination
        (parseOffset offsetArg)
        (resolveLength lengthArg (parseOffset offsetArg) src.length)).1 = true :=
    copy_runs hrf hwf hd hsrc hsum
  obtain ⟨hb, hl⟩ := hbl
  obtain ⟨_, hsource, n, _, hdest, hfull⟩ := copyPhase_files hd hsrc (by omega) hb hl
  refine ⟨?_, ?_, hsource⟩
  · rw [copyPhase_retVal, if_pos ⟨hb, hl⟩]
  · rw [hdest, hfull hcl]

/-- The environment in which nothing fails and no stream buffers is one in
which no library call fails. -/
theorem noFault_none : Faults.none.noFault :=
  ⟨rfl, rfl, rfl, rfl, rfl, rfl, rfl, fun _ => rfl, fun _ => rfl, rfl⟩

/-- A run in the environment without faults and without buffering, on a
source whose size fits a `long`, with a range accepted by the checks, in a
destination other than the source, and with the range inside the source: it
returns 0 and the destination holds the range. -/
theorem main_succeeds {prog source offsetArg lengthArg destination : String}
    {rest : List String} {fs : FileSystem} {src : List Byte}
    (hsrc : fs source = some src) (hsize : src.length ≤ LONG_MAX) (hd : source ≠ destination)
    (hv : validate (parseOffset offsetArg)
      (resolveLength lengthArg (parseOffset offsetArg) src.length) src.length = .accepted)
    (hsum : parseOffset offsetArg + resolveLength lengthArg (parseOffset offsetArg) src.length
      ≤ src.length) :
    (main (prog :: source :: offsetArg :: lengthArg :: destination :: rest) fs Faults.none).retVal
      = 0 ∧
    (main (prog :: source :: offsetArg :: lengthArg :: destination :: rest) fs Faults.none).fs
      destination = some ((src.drop (parseOffset offsetArg)).take
        (resolveLength lengthArg (parseOffset offsetArg) src.length)) :=
  ⟨(main_runs noFault_none hsrc hsize hd hv hsum).1,
   (main_runs noFault_none hsrc hsize hd hv hsum).2.1⟩

/-! ## The function `strtoul` on digit strings -/

theorem hexDigit_facts : ∀ c ∈ hexDigitChars,
    isspace c = false ∧ c ≠ '-' ∧ c ≠ '+' ∧ isDigitIn 16 c = true
      ∧ digitValue c = some (digitOf c) := by
  decide

theorem decDigit_facts : ∀ c ∈ decDigitChars,
    isspace c = false ∧ c ≠ '-' ∧ c ≠ '+' ∧ c ≠ 'x' ∧ isDigitIn 10 c = true
      ∧ digitValue c = some (digitOf c) := by
  decide

/-- The conversion loop of `strtoul` on a string of digits computes the number
the string denotes. -/
theorem foldl_digits (base : Nat) (ds : List Char)
    (h : ∀ c ∈ ds, digitValue c = some (digitOf c)) :
    ds.foldl (fun a c => a * base + (digitValue c).getD 0) 0 = numeral base ds := by
  unfold numeral
  induction ds using List.reverseRecOn with
  | nil => rfl
  | append_singleton l a ih =>
    rw [List.foldl_append, List.reverse_append]
    simp only [List.foldl_cons, List.foldl_nil, List.reverse_cons, List.reverse_nil,
      List.nil_append, List.singleton_append, List.map_cons, Nat.ofDigits_cons]
    rw [ih (fun c hc => h c (List.mem_append_left _ hc)),
      h a (List.mem_append_right _ (List.mem_singleton.2 rfl))]
    simp only [Option.getD_some]
    ring

theorem takeWhile_all {p : Char → Bool} {ds : List Char} (h : ∀ c ∈ ds, p c = true) :
    ds.takeWhile p = ds := by
  induction ds with
  | nil => rfl
  | cons c t ih =>
    rw [List.takeWhile_cons, h c (List.mem_cons_self _ _)]
    simp only [if_true]
    rw [ih (fun d hd => h d (List.mem_cons_of_mem _ hd))]

theorem skipSign_of_ne {s : List Char}
    (h : ∀ c, s.head? = some c → c ≠ '-' ∧ c ≠ '+') : skipSign s = s := by
  unfold skipSign
  split
  · exact absurd rfl (h '-' rfl).1
  · exact absurd rfl (h '+' rfl).2
  · rfl

/-- The value of `strtoul` on a string that starts with neither white space
nor a sign, in terms of its conversion loop. -/
theorem strtoul_plain (s : List Char) (base : Nat)
    (h : ∀ c, s.head? = some c → isspace c = false ∧ c ≠ '-' ∧ c ≠ '+') :
    strtoul s base =
      if ((if base = 16 then skipHexMark s else s).takeWhile (isDigitIn base)).foldl
          (fun a c => a * base + (digitValue c).getD 0) 0 > ULONG_MAX then ULONG_MAX
      else ((if base = 16 then skipHexMark s else s).takeWhile (isDigitIn base)).foldl
          (fun a c => a * base + (digitValue c).getD 0) 0 := by
  have hd : s.dropWhile isspace = s := by
    cases s with
    | nil => rfl
    | cons c t => rw [List.dropWhile_cons, (h c rfl).1]; rfl
  have hn : decide (s.head? = some '-') = false := by
    rw [decide_eq_false_iff_not]
    intro hc
    exact (h '-' hc).2.1 rfl
  unfold strtoul
  simp only [hd, hn, skipSign_of_ne (fun c hc => (h c hc).2), Bool.false_eq_true, if_false]

/-- On digits of the base alone, with a value that fits, the conversion loop
of `strtoul` returns the number they denote. -/
theorem convert_digits {base : Nat} {ds : List Char}
    (h : ∀ c ∈ ds, isDigitIn base c = true ∧ digitValue c = some (digitOf c))
    (hfit : numeral base ds < 2 ^ 64) :
    (if (ds.takeWhile (isDigitIn base)).foldl
          (fun a c => a * base + (digitValue c).getD 0) 0 > ULONG_MAX then ULONG_MAX
      else (ds.takeWhile (isDigitIn base)).foldl
          (fun a c => a * base + (digitValue c).getD 0) 0) = numeral base ds := by
  rw [takeWhile_all (fun c hc => (h c hc).1), foldl_digits base ds (fun c hc => (h c hc).2),
    if_neg]
  unfold ULONG_MAX
  omega

/-- The value of `strtoul` in base 10 on decimal digits. -/
theorem strtoul_dec {ds : List Char} (h : ∀ c ∈ ds, c ∈ decDigitChars)
    (hfit : numeral 10 ds < 2 ^ 64) : strtoul ds 10 = numeral 10 ds := by
  rw [strtoul_plain]
  · rw [if_neg (show ¬ (10 : Nat) = 16 by decide)]
    exact convert_digits (fun c hc => ⟨(decDigit_facts c (h c hc)).2.2.2.2.1,
      (decDigit_facts c (h c hc)).2.2.2.2.2⟩) hfit
  · intro c hc
    have hm : c ∈ ds := List.mem_of_mem_head? hc
    exact ⟨(decDigit_facts c (h c hm)).1, (decDigit_facts c (h c hm)).2.1,
      (decDigit_facts c (h c hm)).2.2.1⟩

/-- The value of `strtoul` in base 16 on `0x` followed by hexadecimal
digits. -/
theorem strtoul_hex {ds : List Char} (h : ∀ c ∈ ds, c ∈ hexDigitChars)
    (hfit : numeral 16 ds < 2 ^ 64) : strtoul ('0' :: 'x' :: ds) 16 = numeral 16 ds := by
  rw [strtoul_plain]
  · rw [if_pos (show (16 : Nat) = 16 from rfl)]
    cases ds with
    | nil => decide
    | cons d t =>
      have hs : skipHexMark ('0' :: 'x' :: d :: t) = d :: t := by
        simp [skipHexMark, (hexDigit_facts d (h d (List.mem_cons_self _ _))).2.2.2.1]
      rw [hs]
      exact convert_digits (fun c hc => ⟨(hexDigit_facts c (h c hc)).2.2.2.1,
        (hexDigit_facts c (h c hc)).2.2.2.2⟩) hfit
  · intro c hc
    simp only [List.head?_cons, Option.some.injEq] at hc
    subst hc
    decide

theorem hasHexMark_hex (ds : List Char) : hasHexMark ⟨'0' :: 'x' :: ds⟩ = true := by
  simp [hasHexMark]

theorem hasHexMark_dec {ds : List Char} (h : ∀ c ∈ ds, c ∈ decDigitChars) :
    hasHexMark ⟨ds⟩ = false := by
  unfold hasHexMark
  match ds, h with
  | [], _ => rfl
  | [_], _ => rfl
  | a :: b :: t, h =>
    have hb : b ≠ 'x' := (decDigit_facts b (h b (by simp))).2.2.2.1
    simp [hb]

theorem not_dash_dec {ds : List Char} (h : ∀ c ∈ ds, c ∈ decDigitChars) :
    ¬ ((⟨ds⟩ : String).data[0]? = some '-') := by
  intro hc
  cases ds with
  | nil => simp at hc
  | cons c t =>
    simp only [List.getElem?_cons_zero, Option.some.injEq] at hc
    exact (decDigit_facts c (h c (List.mem_cons_self _ _))).2.1 hc

/-! ## The exit status of the copy phase -/

theorem copyEnd_retVal {source destination : String} {offset length : Nat} {r : Int}
    {calls : List Event} (h : CopyEnd source destination offset length r calls) :
    r = 0 ∨ r = -1 := by
  cases h with
  | blocks => right; rfl
  | last => right; rfl
  | done => left; rfl

theorem blocksEnd_false_error {n count : Nat} {b : Bool} {calls : List Event}
    (h : BlocksEnd n count b calls) (hb : b = false) :
    (∃ m, m.isError = true ∧ Event.printf m ∈ calls) ∧ ∀ e ∈ calls, e.ofFailedCopy = true := by
  cases h with
  | done => exact absurd hb (by decide)
  | readFailed k hk =>
    refine ⟨⟨.unableToReadBlock (count + k), rfl, by simp⟩, fun e he => ?_⟩
    rcases List.mem_append.1 he with h1 | h1
    · rcases mem_blockCalls h1 with h | h <;> rw [h] <;> rfl
    · simp only [List.mem_cons, List.mem_singleton, List.not_mem_nil, or_false] at h1
      rcases h1 with h | h <;> rw [h] <;> rfl
  | writeFailed k hk =>
    refine ⟨⟨.unableToWriteBlock (count + k), rfl, by simp⟩, fun e he => ?_⟩
    rcases List.mem_append.1 he with h1 | h1
    · rcases mem_blockCalls h1 with h | h <;> rw [h] <;> rfl
    · simp only [List.mem_cons, List.mem_singleton, List.not_mem_nil, or_false] at h1
      rcases h1 with h | h | h <;> rw [h] <;> rfl

theorem lastEnd_false_error {size : Nat} {b : Bool} {calls : List Event}
    (h : LastEnd size b calls) (hb : b = false) :
    (∃ m, m.isError = true ∧ Event.printf m ∈ calls) ∧ ∀ e ∈ calls, e.ofFailedCopy = true := by
  cases h with
  | done => exact absurd hb (by decide)
  | readFailed hs =>
    refine ⟨⟨.unableToReadLastBlock, rfl, by simp⟩, fun e he => ?_⟩
    simp only [List.mem_cons, List.mem_singleton, List.not_mem_nil, or_false] at he
    rcases he with h | h <;> rw [h] <;> rfl
  | writeFailed hs =>
    refine ⟨⟨.unableToReadLastBlock, rfl, by simp⟩, fun e he => ?_⟩
    simp only [List.mem_cons, List.mem_singleton, List.not_mem_nil, or_false] at he
    rcases he with h | h | h <;> rw [h] <;> rfl

theorem releaseAll_ofFailedCopy {e : Event} (h : e ∈ releaseAll) : e.ofFailedCopy = true := by
  simp only [releaseAll, List.mem_cons, List.mem_singleton, List.not_mem_nil, or_false] at h
  rcases h with h | h | h <;> rw [h] <;> rfl

theorem releaseAll_ofDoneCopy {e : Event} (h : e ∈ releaseAll) : e.ofDoneCopy = true := by
  simp only [releaseAll, List.mem_cons, List.mem_singleton, List.not_mem_nil, or_false] at h
  rcases h with h | h | h <;> rw [h] <;> rfl

theorem blockCalls_ofDoneCopy {n : Nat} {e : Event} (h : e ∈ blockCalls n) :
    e.ofDoneCopy = true := by
  rcases mem_blockCalls h with h | h <;> rw [h] <;> rfl

theorem lastCalls_ofDoneCopy {size : Nat} {e : Event} (h : e ∈ lastCalls size) :
    e.ofDoneCopy = true := by
  unfold lastCalls at h
  split at h
  · simp only [List.mem_cons, List.mem_singleton, List.not_mem_nil, or_false] at h
    rcases h with h | h <;> rw [h] <;> simp [Event.ofDoneCopy]
  · simp at h

/-- A copy phase that ends with a status other than 0 printed an error
message, and made nothing but transfers, error messages and releases. -/
theorem copyEnd_failed {source destination : String} {offset length : Nat} {r : Int}
    {calls : List Event} (h : CopyEnd source destination offset length r calls) (hr : r ≠ 0) :
    (∃ m, m.isError = true ∧ Event.printf m ∈ calls) ∧ ∀ e ∈ calls, e.ofFailedCopy = true := by
  cases h with
  | blocks bc hb =>
    obtain ⟨⟨m, hm, hmem⟩, hall⟩ := blocksEnd_false_error hb rfl
    refine ⟨⟨m, hm, List.mem_append_left _ hmem⟩, fun e he => ?_⟩
    rcases List.mem_append.1 he with h1 | h1
    · exact hall e h1
    · exact releaseAll_ofFailedCopy h1
  | last lc hl =>
    obtain ⟨⟨m, hm, hmem⟩, hall⟩ := lastEnd_false_error hl rfl
    refine ⟨⟨m, hm, List.mem_append_left _ (List.mem_append_right _ hmem)⟩, fun e he => ?_⟩
    rcases List.mem_append.1 he with h1 | h1
    · rcases List.mem_append.1 h1 with h2 | h2
      · rcases mem_blockCalls h2 with h | h <;> rw [h] <;> rfl
      · exact hall e h2
    · exact releaseAll_ofFailedCopy h1
  | done => exact absurd rfl hr

/-- A copy phase that ends with status 0 printed the summary, and made
nothing but transfers that returned 1, the summary and releases. -/
theorem copyEnd_done {source destination : String} {offset length : Nat} {r : Int}
    {calls : List Event} (h : CopyEnd source destination offset length r calls) (hr : r = 0) :
    (∃ m, m.isCarved = true ∧ Event.printf m ∈ calls) ∧ ∀ e ∈ calls, e.ofDoneCopy = true := by
  cases h with
  | blocks bc hb => exact absurd hr (by decide)
  | last lc hl => exact absurd hr (by decide)
  | done =>
    refine ⟨⟨.carved length
      (if length / DEFAULT_BLOCK_SIZE = 0 then 1 else length / DEFAULT_BLOCK_SIZE) offset source
      destination, rfl, by simp⟩, fun e he => ?_⟩
    rcases List.mem_append.1 he with h1 | h1
    · rcases List.mem_append.1 h1 with h2 | h2
      · rcases List.mem_append.1 h2 with h3 | h3
        · exact blockCalls_ofDoneCopy h3
        · exact lastCalls_ofDoneCopy h3
      · rw [List.mem_singleton.1 h2]; rfl
    · exact releaseAll_ofDoneCopy h1

theorem ofDoneCopy_not_error {m : Msg} (h : (Event.printf m).ofDoneCopy = true) :
    m.isError = false := by
  cases m <;> first | rfl | simp [Event.ofDoneCopy] at h

theorem ofFailedCopy_not_carved {m : Msg} (h : (Event.printf m).ofFailedCopy = true) :
    m.isCarved = false := by
  cases m <;> first | rfl | simp [Event.ofFailedCopy] at h

theorem plain_not_carved {m : Msg} (h : (Event.printf m).plain = true) : m.isCarved = false := by
  cases m <;> first | rfl | simp [Event.plain] at h

theorem plain_not_failed {e : Event} (h : e.plain = true) : e.failedTransfer = false := by
  cases e <;> first | rfl | simp [Event.plain] at h

theorem probeCalls_plain (source : String) (inputsize : Nat) :
    ∀ e ∈ probeCalls source inputsize, e.plain = true := by
  simp [probeCalls, Event.plain]

theorem setupCalls_plain (destination : String) (offset : Nat) :
    ∀ e ∈ setupCalls destination offset, e.plain = true := by
  simp [setupCalls, Event.plain]

theorem prefix_message {source destination : String} {inputsize offset : Nat} {m : Msg}
    (h : Event.printf m ∈ probeCalls source inputsize ++ setupCalls destination offset) :
    m = .inputSize source inputsize := by
  simpa [probeCalls, setupCalls] using h

/-- The exit status of a run that ends before the copy with an error
message. -/
theorem early_exit_status (fs : FileSystem) {t : List Event} (m : Msg) (hm : m.isError = true)
    (hmem : Event.printf m ∈ t) (hplain : ∀ e ∈ t, e.plain = true) :
    ((Result.mk (-1) fs t).retVal = 0 ∨ (Result.mk (-1) fs t).retVal = -1) ∧
    ((Result.mk (-1) fs t).retVal = 0 ↔
      ∃ m, m.isCarved = true ∧ Event.printf m ∈ (Result.mk (-1) fs t).trace) ∧
    ((Result.mk (-1) fs t).retVal ≠ 0 ↔
      ∃ m, m.isError = true ∧ Event.printf m ∈ (Result.mk (-1) fs t).trace) ∧
    ((∃ e ∈ (Result.mk (-1) fs t).trace, e.failedTransfer = true) →
      (Result.mk (-1) fs t).retVal ≠ 0) := by
  have hne : ¬ ((-1 : Int) = 0) := by decide
  refine ⟨Or.inr rfl, ⟨fun h => absurd h hne, ?_⟩,
    ⟨fun _ => ⟨m, hm, hmem⟩, fun _ => hne⟩, fun _ => hne⟩
  rintro ⟨m2, hm2, hmem2⟩
  rw [plain_not_carved (hplain _ hmem2)] at hm2
  exact absurd hm2 (by decide)

/-! ## The record of a run that returns 0 -/

theorem copyEnd_zero {source destination : String} {offset length : Nat} {r : Int}
    {calls : List Event} (h : CopyEnd source destination offset length r calls) (hr : r = 0) :
    calls = blockCalls (length / DEFAULT_BLOCK_SIZE) ++ lastCalls (length % DEFAULT_BLOCK_SIZE)
      ++ [.printf (.carved length
            (if length / DEFAULT_BLOCK_SIZE = 0 then 1 else length / DEFAULT_BLOCK_SIZE)
            offset source destination)]
      ++ releaseAll := by
  cases h with
  | blocks bc hb => exact absurd hr (by decide)
  | last lc hl => exact absurd hr (by decide)
  | done => rfl

/-- The record of a run that returns 0 after the check of the argument
count: the calls that determine the size, those that set the copy up, the
whole-block transfers, the transfer of the last block, the summary and the
releases. -/
theorem main_done_trace {prog source offsetArg lengthArg destination : String}
    {rest : List String} {fs : FileSystem} {flt : Faults}
    (hret : (main (prog :: source :: offsetArg :: lengthArg :: destination :: rest) fs
      flt).retVal = 0) :
    (main (prog :: source :: offsetArg :: lengthArg :: destination :: rest) fs flt).trace
      = probeCalls source (fs.size source) ++ setupCalls destination (parseOffset offsetArg)
        ++ (blockCalls (resolveLength lengthArg (parseOffset offsetArg) (fs.size source)
              / DEFAULT_BLOCK_SIZE)
          ++ lastCalls (resolveLength lengthArg (parseOffset offsetArg) (fs.size source)
              % DEFAULT_BLOCK_SIZE)
          ++ [.printf (.carved (resolveLength lengthArg (parseOffset offsetArg) (fs.size source))
                (if resolveLength lengthArg (parseOffset offsetArg) (fs.size source)
                    / DEFAULT_BLOCK_SIZE = 0 then 1
                  else resolveLength lengthArg (parseOffset offsetArg) (fs.size source)
                    / DEFAULT_BLOCK_SIZE)
                (parseOffset offsetArg) source destination)]
          ++ releaseAll) := by
  have hne : ¬ ((-1 : Int) = 0) := by decide
  by_cases h0 : flt.fopen_rb = true ∨ fs source = none
  · rw [main_eq, if_pos h0] at hret; exact absurd hret hne
  by_cases h1 : flt.fseek_end = true
  · rw [main_eq, if_neg h0, if_pos h1] at hret; exact absurd hret hne
  by_cases h2 : flt.ftell = true ∨ fs.size source > LONG_MAX
  · rw [main_eq, if_neg h0, if_neg h1, if_pos h2] at hret; exact absurd hret hne
  by_cases h3 : flt.fseek_set = true
  · rw [main_eq, if_neg h0, if_neg h1, if_neg h2, if_pos h3] at hret; exact absurd hret hne
  rw [main_eq, if_neg h0, if_neg h1, if_neg h2, if_neg h3] at hret
  cases hv : validate (parseOffset offsetArg)
      (resolveLength lengthArg (parseOffset offsetArg) (fs.size source)) (fs.size source) with
  | lengthZero => rw [hv] at hret; exact absurd hret hne
  | offsetLarger => rw [hv] at hret; exact absurd hret hne
  | rangeGreater => rw [hv] at hret; exact absurd hret hne
  | accepted =>
    rw [hv] at hret
    simp only at hret
    by_cases h4 : flt.calloc = true
    · rw [carve_eq, if_pos h4] at hret; exact absurd hret hne
    by_cases h5 : flt.fseek_offset = true
    · rw [carve_eq, if_neg h4, if_pos h5] at hret; exact absurd hret hne
    by_cases h6 : flt.fopen_wb = true
    · rw [carve_eq, if_neg h4, if_neg h5, if_pos h6] at hret; exact absurd hret hne
    rw [carve_eq, if_neg h4, if_neg h5, if_neg h6] at hret
    rw [main_reaches_copy h0 h1 h2 h3 hv h4 h5 h6]
    obtain ⟨calls, hend, ht⟩ := copyPhase_trace flt fs
      (probeCalls source (fs.size source)) source destination
      (parseOffset offsetArg)
      (resolveLength lengthArg (parseOffset offsetArg) (fs.size source))
    rw [ht, copyEnd_zero hend hret]

theorem filter_blockCalls (n : Nat) : (blockCalls n).filter Event.isTransfer = blockCalls n := by
  rw [List.filter_eq_self]
  intro e he
  rcases mem_blockCalls he with h | h <;> rw [h] <;> rfl

theorem filter_lastCalls (size : Nat) :
    (lastCalls size).filter Event.isTransfer = lastCalls size := by
  unfold lastCalls
  split <;> rfl

theorem writeSizes_blockCalls (n : Nat) :
    (writeSizes (blockCalls n)).sum = n * DEFAULT_BLOCK_SIZE := by
  induction n with
  | zero => simp [blockCalls, writeSizes]
  | succ k ih =>
    rw [blockCalls_succ]
    unfold writeSizes at ih ⊢
    rw [List.filterMap_append, List.sum_append, ih]
    simp [Event.written]
    ring

theorem writeSizes_lastCalls (size : Nat) : (writeSizes (lastCalls size)).sum = size := by
  unfold lastCalls writeSizes
  split
  · simp [Event.written]
  · simp; omega

/-- A run that returns 0 after the check of the argument count opened the
destination, and each of its reads and writes returned 1. -/
theorem main_done_transfers {prog source offsetArg lengthArg destination : String}
    {rest : List String} {fs : FileSystem} {flt : Faults}
    (hret : (main (prog :: source :: offsetArg :: lengthArg :: destination :: rest) fs
      flt).retVal = 0) :
    Event.fopen_wb destination true
      ∈ (main (prog :: source :: offsetArg :: lengthArg :: destination :: rest) fs flt).trace ∧
    (∀ size ret, Event.fread size ret
      ∈ (main (prog :: source :: offsetArg :: lengthArg :: destination :: rest) fs flt).trace
      → ret = 1) ∧
    (∀ size ret, Event.fwrite size ret
      ∈ (main (prog :: source :: offsetArg :: lengthArg :: destination :: rest) fs flt).trace
      → ret = 1) := by
  rw [main_done_trace hret]
  have hall : ∀ e ∈ probeCalls source (fs.size source)
      ++ setupCalls destination (parseOffset offsetArg)
      ++ (blockCalls (resolveLength lengthArg (parseOffset offsetArg) (fs.size source)
            / DEFAULT_BLOCK_SIZE)
        ++ lastCalls (resolveLength lengthArg (parseOffset offsetArg) (fs.size source)
            % DEFAULT_BLOCK_SIZE)
        ++ [.printf (.carved (resolveLength lengthArg (parseOffset offsetArg) (fs.size source))
              (if resolveLength lengthArg (parseOffset offsetArg) (fs.size source)
                  / DEFAULT_BLOCK_SIZE = 0 then 1
                else resolveLength lengthArg (parseOffset offsetArg) (fs.size source)
                  / DEFAULT_BLOCK_SIZE)
              (parseOffset offsetArg) source destination)]
        ++ releaseAll), e.failedTransfer = false := by
    intro e he
    rcases List.mem_append.1 he with h | h
    · rcases List.mem_append.1 h with h1 | h1
      · exact plain_not_failed (probeCalls_plain _ _ e h1)
      · exact plain_not_failed (setupCalls_plain _ _ e h1)
    · rcases List.mem_append.1 h with h1 | h1
      · rcases List.mem_append.1 h1 with h2 | h2
        · rcases List.mem_append.1 h2 with h3 | h3
          · rcases mem_blockCalls h3 with h4 | h4 <;> rw [h4] <;> rfl
          · unfold lastCalls at h3
            split at h3
            · simp only [List.mem_cons, List.mem_singleton, List.not_mem_nil, or_false] at h3
              rcases h3 with h4 | h4 <;> rw [h4] <;> rfl
            · simp at h3
        · rw [List.mem_singleton.1 h2]; rfl
      · simp only [releaseAll, List.mem_cons, List.mem_singleton, List.not_mem_nil,
          or_false] at h1
        rcases h1 with h4 | h4 | h4 <;> rw [h4] <;> rfl
  refine ⟨by simp [setupCalls], fun size ret h => ?_, fun size ret h => ?_⟩
  · simpa [Event.failedTransfer] using hall _ h
  · simpa [Event.failedTransfer] using hall _ h

/-! ## Runs that return 0: the files they leave -/

/-- A run that returns 0 after the check of the argument count went through
the copy phase, and both parts of the copy ran to their end. -/
theorem main_of_done {prog source offsetArg lengthArg destination : String}
    {rest : List String} {fs : FileSystem} {flt : Faults}
    (hret : (main (prog :: source :: offsetArg :: lengthArg :: destination :: rest) fs
      flt).retVal = 0) :
    main (prog :: source :: offsetArg :: lengthArg :: destination :: rest) fs flt
      = copyPhase flt fs (probeCalls source (fs.size source)) source destination
          (parseOffset offsetArg)
          (resolveLength lengthArg (parseOffset offsetArg) (fs.size source)) ∧
    validate (parseOffset offsetArg)
      (resolveLength lengthArg (parseOffset offsetArg) (fs.size source)) (fs.size source)
      = .accepted ∧
    (blocksDone flt fs (probeCalls source (fs.size source)) source destination
      (parseOffset offsetArg)
      (resolveLength lengthArg (parseOffset offsetArg) (fs.size source))).1 = true ∧
    (lastDone flt fs (probeCalls source (fs.size source)) source destination
      (parseOffset offsetArg)
      (resolveLength lengthArg (parseOffset offsetArg) (fs.size source))).1 = true := by
  obtain ⟨hv, hmain⟩ := main_of_opened (main_done_transfers hret).1
  rw [hmain, copyPhase_retVal] at hret
  have hbl : (blocksDone flt fs (probeCalls source (fs.size source)) source destination
        (parseOffset offsetArg)
        (resolveLength lengthArg (parseOffset offsetArg) (fs.size source))).1 = true ∧
      (lastDone flt fs (probeCalls source (fs.size source)) source destination
        (parseOffset offsetArg)
        (resolveLength lengthArg (parseOffset offsetArg) (fs.size source))).1 = true := by
    by_contra hne
    rw [if_neg hne] at hret
    exact absurd hret (by decide)
  exact ⟨hmain, hv, hbl.1, hbl.2⟩

/-- A run that returns 0, with a destination other than the source: the range
that the arguments and the size of the source determine lies in the source,
the source is as it was, and the destination holds the leading bytes of the
range that reached the file, which are all of them when the `fclose` of the
output stream does not fail. -/
theorem main_done_files {prog source offsetArg lengthArg destination : String}
    {rest : List String} {fs : FileSystem} {flt : Faults} {src : List Byte}
    (hd : source ≠ destination) (hsrc : fs source = some src)
    (hret : (main (prog :: source :: offsetArg :: lengthArg :: destination :: rest) fs
      flt).retVal = 0) :
    parseOffset offsetArg + resolveLength lengthArg (parseOffset offsetArg) src.length
      ≤ src.length ∧
    (main (prog :: source :: offsetArg :: lengthArg :: destination :: rest) fs flt).fs source
      = some src ∧
    ∃ n, n ≤ resolveLength lengthArg (parseOffset offsetArg) src.length ∧
      (main (prog :: source :: offsetArg :: lengthArg :: destination :: rest) fs flt).fs
        destination = some ((src.drop (parseOffset offsetArg)).take n) ∧
      (flt.fclose = none →
        n = resolveLength lengthArg (parseOffset offsetArg) src.length) := by
  have hsz : fs.size source = src.length := by simp [FileSystem.size, hsrc]
  obtain ⟨hmain, hv, hb, hl⟩ := main_of_done hret
  rw [hsz] at hmain hv hb hl
  rw [hmain]
  have ho : parseOffset offsetArg ≤ src.length := ((validate_accepted_iff _ _ _).1 hv).2.1
  exact copyPhase_files hd hsrc ho hb hl

/-! ## Acquisitions and releases -/

theorem neutral_not_acquires {e : Event} (h : e.neutral = true) (r : Resource) :
    e.acquires r = false ∧ e.releases r = false := by
  cases e <;> cases r <;> first | exact ⟨rfl, rfl⟩ | simp [Event.neutral] at h

theorem countP_eq_zero_of_neutral {l : List Event} (h : ∀ e ∈ l, e.neutral = true)
    (r : Resource) :
    l.countP (Event.acquires r) = 0 ∧ l.countP (Event.releases r) = 0 := by
  constructor
  · rw [List.countP_eq_zero]
    intro e he
    rw [(neutral_not_acquires (h e he) r).1]
    decide
  · rw [List.countP_eq_zero]
    intro e he
    rw [(neutral_not_acquires (h e he) r).2]
    decide

theorem blockCalls_neutral {n : Nat} : ∀ e ∈ blockCalls n, e.neutral = true := by
  intro e he
  rcases mem_blockCalls he with h | h <;> rw [h] <;> rfl

theorem lastCalls_neutral {size : Nat} : ∀ e ∈ lastCalls size, e.neutral = true := by
  intro e he
  unfold lastCalls at he
  split at he
  · simp only [List.mem_cons, List.mem_singleton, List.not_mem_nil, or_false] at he
    rcases he with h | h <;> rw [h] <;> rfl
  · simp at he

theorem blocksEnd_neutral {n count : Nat} {b : Bool} {calls : List Event}
    (h : BlocksEnd n count b calls) : ∀ e ∈ calls, e.neutral = true := by
  intro e he
  cases h with
  | done => exact blockCalls_neutral e he
  | readFailed k hk =>
    rcases List.mem_append.1 he with h1 | h1
    · exact blockCalls_neutral e h1
    · simp only [List.mem_cons, List.mem_singleton, List.not_mem_nil, or_false] at h1
      rcases h1 with h | h <;> rw [h] <;> rfl
  | writeFailed k hk =>
    rcases List.mem_append.1 he with h1 | h1
    · exact blockCalls_neutral e h1
    · simp only [List.mem_cons, List.mem_singleton, List.not_mem_nil, or_false] at h1
      rcases h1 with h | h | h <;> rw [h] <;> rfl

theorem lastEnd_neutral {size : Nat} {b : Bool} {calls : List Event}
    (h : LastEnd size b calls) : ∀ e ∈ calls, e.neutral = true := by
  intro e he
  cases h with
  | done => exact lastCalls_neutral e he
  | readFailed hs =>
    simp only [List.mem_cons, List.mem_singleton, List.not_mem_nil, or_false] at he
    rcases he with h | h <;> rw [h] <;> rfl
  | writeFailed hs =>
    simp only [List.mem_cons, List.mem_singleton, List.not_mem_nil, or_false] at he
    rcases he with h | h | h <;> rw [h] <;> rfl

/-- However the copy phase ends, its calls are transfers and messages
followed by the release of the buffer and of both streams. -/
theorem copyEnd_body {source destination : String} {offset length : Nat} {r : Int}
    {calls : List Event} (h : CopyEnd source destination offset length r calls) :
    ∃ body, calls = body ++ releaseAll ∧ ∀ e ∈ body, e.neutral = true := by
  cases h with
  | blocks bc hb => exact ⟨bc, rfl, blocksEnd_neutral hb⟩
  | last lc hl =>
    refine ⟨_, rfl, fun e he => ?_⟩
    rcases List.mem_append.1 he with h1 | h1
    · exact blockCalls_neutral e h1
    · exact lastEnd_neutral hl e h1
  | done =>
    refine ⟨_, rfl, fun e he => ?_⟩
    rcases List.mem_append.1 he with h1 | h1
    · rcases List.mem_append.1 h1 with h2 | h2
      · exact blockCalls_neutral e h2
      · exact lastCalls_neutral e h2
    · rw [List.mem_singleton.1 h1]; rfl

/-- For a run on explicit inputs: carving 10 bytes at offset 50 of the 100-byte
source, the input stream, the output stream and the buffer are each acquired
once and released once. -/
theorem run_releases_each_once :
    ∀ r, (main ["carve", "in", "50", "10", "out"] fs100 Faults.none).trace.countP
        (Event.acquires r) = 1 ∧
      (main ["carve", "in", "50", "10", "out"] fs100 Faults.none).trace.countP
        (Event.releases r) = 1 := by
  intro r
  cases r <;> decide

/-! ## The sizes of the transfers -/

theorem blockCalls_sizeIn {n last : Nat} : ∀ e ∈ blockCalls n, e.sizeIn last = true := by
  intro e he
  rcases mem_blockCalls he with h | h <;> rw [h] <;> simp [Event.sizeIn]

theorem blocksEnd_sizeIn {n count last : Nat} {b : Bool} {calls : List Event}
    (h : BlocksEnd n count b calls) : ∀ e ∈ calls, e.sizeIn last = true := by
  intro e he
  cases h with
  | done => exact blockCalls_sizeIn e he
  | readFailed k hk =>
    rcases List.mem_append.1 he with h1 | h1
    · exact blockCalls_sizeIn e h1
    · simp only [List.mem_cons, List.mem_singleton, List.not_mem_nil, or_false] at h1
      rcases h1 with h | h <;> rw [h] <;> simp [Event.sizeIn]
  | writeFailed k hk =>
    rcases List.mem_append.1 he with h1 | h1
    · exact blockCalls_sizeIn e h1
    · simp only [List.mem_cons, List.mem_singleton, List.not_mem_nil, or_false] at h1
      rcases h1 with h | h | h <;> rw [h] <;> simp [Event.sizeIn]

theorem lastCalls_sizeIn {size : Nat} : ∀ e ∈ lastCalls size, e.sizeIn size = true := by
  intro e he
  unfold lastCalls at he
  split at he
  · simp only [List.mem_cons, List.mem_singleton, List.not_mem_nil, or_false] at he
    rcases he with h | h <;> rw [h] <;> simp [Event.sizeIn]
  · simp at he

theorem lastEnd_sizeIn {size : Nat} {b : Bool} {calls : List Event}
    (h : LastEnd size b calls) : ∀ e ∈ calls, e.sizeIn size = true := by
  intro e he
  cases h with
  | done => exact lastCalls_sizeIn e he
  | readFailed hs =>
    simp only [List.mem_cons, List.mem_singleton, List.not_mem_nil, or_false] at he
    rcases he with h | h <;> rw [h] <;> simp [Event.sizeIn]
  | writeFailed hs =>
    simp only [List.mem_cons, List.mem_singleton, List.not_mem_nil, or_false] at he
    rcases he with h | h | h <;> rw [h] <;> simp [Event.sizeIn]

/-- However the copy phase ends, each of its reads and writes has the size of
a whole block or that of the last block. -/
theorem copyEnd_sizeIn {source destination : String} {offset length : Nat} {r : Int}
    {calls : List Event} (h : CopyEnd source destination offset length r calls) :
    ∀ e ∈ calls, e.sizeIn (length % DEFAULT_BLOCK_SIZE) = true := by
  intro e he
  have hrel : ∀ e ∈ releaseAll, e.sizeIn (length % DEFAULT_BLOCK_SIZE) = true := by
    simp [releaseAll, Event.sizeIn]
  cases h with
  | blocks bc hb =>
    rcases List.mem_append.1 he with h1 | h1
    · exact blocksEnd_sizeIn hb e h1
    · exact hrel e h1
  | last lc hl =>
    rcases List.mem_append.1 he with h1 | h1
    · rcases List.mem_append.1 h1 with h2 | h2
      · exact blockCalls_sizeIn e h2
      · exact lastEnd_sizeIn hl e h2
    · exact hrel e h1
  | done =>
    rcases List.mem_append.1 he with h1 | h1
    · rcases List.mem_append.1 h1 with h2 | h2
      · rcases List.mem_append.1 h2 with h3 | h3
        · exact blockCalls_sizeIn e h3
        · exact lastCalls_sizeIn e h3
      · rw [List.mem_singleton.1 h2]; rfl
    · exact hrel e h1

/-- In every run, each read and each write has the size of a whole block or
that of the last block. -/
theorem main_sizeIn (prog source offsetArg lengthArg destination : String)
    (rest : List String) (fs : FileSystem) (flt : Faults) :
    ∀ e ∈ (main (prog :: source :: offsetArg :: lengthArg :: destination :: rest) fs flt).trace,
      e.sizeIn (resolveLength lengthArg (parseOffset offsetArg) (fs.size source)
        % DEFAULT_BLOCK_SIZE) = true := by
  rw [main_eq]
  split
  · simp [Event.sizeIn]
  · split
    · simp [Event.sizeIn]
    · split
      · simp [Event.sizeIn]
      · split
        · simp [Event.sizeIn]
        · split
          · simp [probeCalls, Event.sizeIn]
          · simp [probeCalls, Event.sizeIn]
          · simp [probeCalls, Event.sizeIn]
          · rw [carve_eq]
            split
            · simp [probeCalls, Event.sizeIn]
            · split
              · simp [probeCalls, Event.sizeIn]
              · split
                · simp [probeCalls, Event.sizeIn]
                · obtain ⟨calls, hend, ht⟩ := copyPhase_trace flt fs
                    (probeCalls source (fs.size source)) source destination
                    (parseOffset offsetArg)
                    (resolveLength lengthArg (parseOffset offsetArg) (fs.size source))
                  rw [ht]
                  have hpre : ∀ e ∈ probeCalls source (fs.size source)
                      ++ setupCalls destination (parseOffset offsetArg),
                      e.sizeIn (resolveLength lengthArg (parseOffset offsetArg) (fs.size source)
                        % DEFAULT_BLOCK_SIZE) = true := by
                    simp [probeCalls, setupCalls, Event.sizeIn]
                  intro e he
                  rcases List.mem_append.1 he with h1 | h1
                  · exact hpre e h1
                  · exact copyEnd_sizeIn hend e h1

/-- The loop over the whole blocks leaves the buffer with the length it
had, when that is a block or more. -/
theorem copyBlocks_buf (flt : Faults) :
    ∀ (remaining count : Nat) (st : Copy), DEFAULT_BLOCK_SIZE ≤ st.transferBuf.length →
      (copyBlocks flt remaining count st).2.transferBuf.length = st.transferBuf.length := by
  intro remaining
  induction remaining with
  | zero => intro count st _; rfl
  | succ n ih =>
    intro count st hb
    have hr : (fread (flt.fread count) (flt.readahead count) DEFAULT_BLOCK_SIZE st).2.transferBuf.length
        = st.transferBuf.length := fread_buf_length hb
    rw [copyBlocks]
    simp only
    split
    · exact hr
    · split
      · exact hr
      · rw [ih _ _ (by rw [fwrite_buf, hr]; exact hb), fwrite_buf, hr]

theorem copyLast_buf (flt : Faults) (block_count size : Nat) (st : Copy)
    (hb : size ≤ st.transferBuf.length) :
    (copyLast flt block_count size st).2.transferBuf.length = st.transferBuf.length := by
  have hr : (fread (flt.fread block_count) (flt.readahead block_count) size st).2.transferBuf.length
      = st.transferBuf.length := fread_buf_length hb
  unfold copyLast
  split
  · simp only
    split
    · exact hr
    · split
      · exact hr
      · exact hr
  · rfl

/-- The loop over `a + b` whole blocks is the loop over `a` blocks followed,
when that ran to its end, by the loop over `b` blocks from the state it
reached. -/
theorem copyBlocks_add (flt : Faults) :
    ∀ (a b count : Nat) (st : Copy), (copyBlocks flt a count st).1 = true →
      copyBlocks flt (a + b) count st
        = copyBlocks flt b (count + a) (copyBlocks flt a count st).2 := by
  intro a
  induction a with
  | zero =>
    intro b count st _
    rw [Nat.zero_add]
    rfl
  | succ n ih =>
    intro b count st h
    rw [show n + 1 + b = (n + b) + 1 by omega]
    rw [copyBlocks] at h ⊢
    simp only at h ⊢
    by_cases hr : (fread (flt.fread count) (flt.readahead count) DEFAULT_BLOCK_SIZE st).1 = 1
    · rw [if_neg (not_not.2 hr)] at h ⊢
      by_cases hw : (fwrite (flt.fwrite count) (flt.held count) DEFAULT_BLOCK_SIZE
          (fread (flt.fread count) (flt.readahead count) DEFAULT_BLOCK_SIZE st).2).1 = 1
      · rw [if_neg (not_not.2 hw)] at h ⊢
        rw [ih b (count + 1) _ h, show count + 1 + n = count + (n + 1) by omega]
        conv_rhs => rw [copyBlocks]
        simp only
        rw [if_neg (not_not.2 hr), if_neg (not_not.2 hw)]
      · rw [if_pos hw] at h
        exact absurd h (by simp)
    · rw [if_pos hr] at h
      exact absurd h (by simp)

/-- When the loop over `a + b` whole blocks runs to its end, so does the loop
over the first `a` of them. -/
theorem copyBlocks_true_left (flt : Faults) :
    ∀ (a b count : Nat) (st : Copy), (copyBlocks flt (a + b) count st).1 = true →
      (copyBlocks flt a count st).1 = true := by
  intro a
  induction a with
  | zero => intro b count st _; rfl
  | succ n ih =>
    intro b count st h
    rw [show n + 1 + b = (n + b) + 1 by omega] at h
    rw [copyBlocks] at h ⊢
    simp only at h ⊢
    by_cases hr : (fread (flt.fread count) (flt.readahead count) DEFAULT_BLOCK_SIZE st).1 = 1
    · rw [if_neg (not_not.2 hr)] at h ⊢
      by_cases hw : (fwrite (flt.fwrite count) (flt.held count) DEFAULT_BLOCK_SIZE
          (fread (flt.fread count) (flt.readahead count) DEFAULT_BLOCK_SIZE st).2).1 = 1
      · rw [if_neg (not_not.2 hw)] at h ⊢
        exact ih b (count + 1) _ h
      · rw [if_pos hw] at h
        exact absurd h (by simp)
    · rw [if_pos hr] at h
      exact absurd h (by simp)

/-- In a copy that has made `done` bytes of progress, the output stream has
accepted the first `done` bytes of the range. -/
theorem accepted_of_copying {source destination : String} {src : List Byte}
    {offset done : Nat} {st : Copy} (inv : Copying source destination src offset done st) :
    st.accepted = (src.drop offset).take done := by
  unfold Copy.accepted
  rw [inv.outpath, inv.dest, Option.getD_some, inv.pending, List.take_take, Nat.min_self]
  have h : (src.drop offset).take st.outputfile.pos
      = ((src.drop offset).take done).take st.outputfile.pos := by
    rw [List.take_take, Nat.min_eq_left inv.passed]
  rw [h, List.take_append_drop]

/-- The transfer buffer after one more whole block went through: its front
holds the block that was read. -/
theorem copyBlocks_one_buf {flt : Faults} {source destination : String} {src : List Byte}
    {offset done count : Nat} {st : Copy} (inv : Copying source destination src offset done st)
    (h : (copyBlocks flt 1 count st).1 = true) :
    (copyBlocks flt 1 count st).2.transferBuf.take DEFAULT_BLOCK_SIZE
      = (src.drop (offset + done)).take DEFAULT_BLOCK_SIZE ∧
    ((src.drop (offset + done)).take DEFAULT_BLOCK_SIZE).length = DEFAULT_BLOCK_SIZE := by
  have hsrc : st.fs st.inputfile.path = some src := by rw [inv.inpath]; exact inv.intact
  have hcoh : ∃ n, st.inbuf = (src.drop st.inputfile.pos).take n := by
    rw [inv.inpos]; exact inv.ahead
  rw [copyBlocks] at h ⊢
  simp only at h ⊢
  by_cases hr : (fread (flt.fread count) (flt.readahead count) DEFAULT_BLOCK_SIZE st).1 = 1
  · rw [if_neg (not_not.2 hr)] at h ⊢
    by_cases hw : (fwrite (flt.fwrite count) (flt.held count) DEFAULT_BLOCK_SIZE
        (fread (flt.fread count) (flt.readahead count) DEFAULT_BLOCK_SIZE st).2).1 = 1
    · rw [if_neg (not_not.2 hw)]
      obtain ⟨_, _, hb, hbuf, _⟩ := fread_one hsrc hcoh hr
      rw [inv.inpos] at hb hbuf
      have hl : ((src.drop (offset + done)).take DEFAULT_BLOCK_SIZE).length
          = DEFAULT_BLOCK_SIZE := (length_take_drop_eq_iff _ _ _).2 (Or.inl hb)
      refine ⟨?_, hl⟩
      simp only [copyBlocks]
      rw [fwrite_buf, hbuf, List.take_append_of_le_length (by omega),
        List.take_of_length_le (by omega)]
    · rw [if_pos hw] at h
      exact absurd h (by simp)
  · rw [if_pos hr] at h
    exact absurd h (by simp)

/-- The buffer as staging area, for the whole blocks: when the loop has
carried `k + 1` blocks, the front of the transfer buffer holds block `k` of
the range as it was read from the source, and what the output stream has
accepted is what it had accepted after `k` blocks followed by these bytes. -/
theorem block_staged {flt : Faults} {source destination : String} {src : List Byte}
    {offset : Nat} {start : Copy} (inv : Copying source destination src offset 0 start)
    (k : Nat) (h : (copyBlocks flt (k + 1) 0 start).1 = true) :
    (copyBlocks flt (k + 1) 0 start).2.transferBuf.take DEFAULT_BLOCK_SIZE
      = (src.drop (offset + k * DEFAULT_BLOCK_SIZE)).take DEFAULT_BLOCK_SIZE ∧
    ((src.drop (offset + k * DEFAULT_BLOCK_SIZE)).take DEFAULT_BLOCK_SIZE).length
      = DEFAULT_BLOCK_SIZE ∧
    (copyBlocks flt (k + 1) 0 start).2.accepted
      = (copyBlocks flt k 0 start).2.accepted
        ++ (copyBlocks flt (k + 1) 0 start).2.transferBuf.take DEFAULT_BLOCK_SIZE := by
  have hk : (copyBlocks flt k 0 start).1 = true := copyBlocks_true_left flt k 1 0 start h
  obtain ⟨invk, _⟩ := copyBlocks_true k 0 0 start inv hk
  obtain ⟨invk1, _⟩ := copyBlocks_true (k + 1) 0 0 start inv h
  have hadd := copyBlocks_add flt k 1 0 start hk
  rw [Nat.zero_add] at invk invk1 hadd
  have h1 : (copyBlocks flt 1 k (copyBlocks flt k 0 start).2).1 = true := by
    rw [← hadd]; exact h
  obtain ⟨hbuf, hl⟩ := copyBlocks_one_buf invk h1
  rw [← hadd] at hbuf
  refine ⟨hbuf, hl, ?_⟩
  rw [accepted_of_copying invk, accepted_of_copying invk1, hbuf,
    show (k + 1) * DEFAULT_BLOCK_SIZE = k * DEFAULT_BLOCK_SIZE + DEFAULT_BLOCK_SIZE by ring,
    List.take_add, List.drop_drop]

/-- The buffer as staging area, for the last block: when it went through,
the front of the transfer buffer holds the last block of the range as it was
read from the source, and what the output stream has accepted is what it had
accepted before followed by these bytes. -/
theorem last_staged {flt : Faults} {source destination : String} {src : List Byte}
    {offset done block_count size : Nat} {st : Copy}
    (inv : Copying source destination src offset done st) (hs : 0 < size)
    (h : (copyLast flt block_count size st).1 = true) :
    (copyLast flt block_count size st).2.transferBuf.take size
      = (src.drop (offset + done)).take size ∧
    ((src.drop (offset + done)).take size).length = size ∧
    (copyLast flt block_count size st).2.accepted
      = st.accepted ++ (copyLast flt block_count size st).2.transferBuf.take size := by
  have hsrc : st.fs st.inputfile.path = some src := by rw [inv.inpath]; exact inv.intact
  have hcoh : ∃ n, st.inbuf = (src.drop st.inputfile.pos).take n := by
    rw [inv.inpos]; exact inv.ahead
  obtain ⟨inv2, _⟩ := copyLast_true inv h
  have hbuf : (copyLast flt block_count size st).2.transferBuf.take size
      = (src.drop (offset + done)).take size ∧
      ((src.drop (offset + done)).take size).length = size := by
    unfold copyLast at h ⊢
    rw [if_pos hs] at h ⊢
    simp only at h ⊢
    by_cases hr : (fread (flt.fread block_count) (flt.readahead block_count) size st).1 = 1
    · rw [if_neg (not_not.2 hr)] at h ⊢
      by_cases hw : (fwrite (flt.fwrite block_count) (flt.held block_count) size
          (fread (flt.fread block_count) (flt.readahead block_count) size st).2).1 = 1
      · rw [if_neg (not_not.2 hw)]
        obtain ⟨_, _, hb, hbuf, _⟩ := fread_one hsrc hcoh hr
        rw [inv.inpos] at hb hbuf
        have hl : ((src.drop (offset + done)).take size).length = size :=
          (length_take_drop_eq_iff _ _ _).2 (Or.inl hb)
        refine ⟨?_, hl⟩
        rw [fwrite_buf, hbuf, List.take_append_of_le_length (by omega),
          List.take_of_length_le (by omega)]
      · rw [if_pos hw] at h
        exact absurd h (by simp)
    · rw [if_pos hr] at h
      exact absurd h (by simp)
  refine ⟨hbuf.1, hbuf.2, ?_⟩
  rw [accepted_of_copying inv, accepted_of_copying inv2, hbuf.1, List.take_add, List.drop_drop]

/-- For a run on explicit inputs: carving 10 bytes at offset 50 of the 100-byte
source makes one read and one write, of 10 bytes each. -/
theorem ten_byte_transfers :
    Event.fread 10 1 ∈ (main ["carve", "in", "50", "10", "out"] fs100 Faults.none).trace ∧
    Event.fwrite 10 1 ∈ (main ["carve", "in", "50", "10", "out"] fs100 Faults.none).trace ∧
    (lastDone Faults.none fs100 (probeCalls "in" 100) "in" "out" 50 10).2.transferBuf.take 10
      = (bytes100.drop 50).take 10 := by
  decide

/-! ## Reads without faults -/

/-- Without read faults, and with the remaining whole blocks inside the
source, the loop over the whole blocks adds no read error to the record,
whatever happens to its writes. -/
theorem copyBlocks_readOk {flt : Faults} {source destination : String} {src : List Byte}
    {offset : Nat} (hrf : ∀ k, flt.fread k = false) :
    ∀ (remaining count done : Nat) (st : Copy), Copying source destination src offset done st →
      offset + done + remaining * DEFAULT_BLOCK_SIZE ≤ src.length →
      ∀ e ∈ (copyBlocks flt remaining count st).2.trace, e ∈ st.trace ∨ e.readOk = true := by
  intro remaining
  induction remaining with
  | zero =>
    intro count done st _ _ e he
    exact Or.inl he
  | succ n ih =>
    intro count done st inv hle e he
    have hmul : (n + 1) * DEFAULT_BLOCK_SIZE = n * DEFAULT_BLOCK_SIZE + DEFAULT_BLOCK_SIZE := by
      ring
    have hr : (fread (flt.fread count) (flt.readahead count) DEFAULT_BLOCK_SIZE st).1 = 1 := by
      rw [hrf]
      refine fread_ok (by rw [inv.inpath]; exact inv.intact)
        (by rw [inv.inpos]; exact inv.ahead) (by decide) ?_
      rw [inv.inpos]
      omega
    rw [copyBlocks] at he
    simp only at he
    rw [if_neg (not_not.2 hr)] at he
    by_cases hw : (fwrite (flt.fwrite count) (flt.held count) DEFAULT_BLOCK_SIZE
        (fread (flt.fread count) (flt.readahead count) DEFAULT_BLOCK_SIZE st).2).1 = 1
    · rw [if_neg (not_not.2 hw)] at he
      rcases ih (count + 1) (done + DEFAULT_BLOCK_SIZE) _ (transfer_step inv hr hw)
        (by omega) e he with h | h
      · rw [fwrite_trace, fread_trace, hr, hw] at h
        simp only [List.mem_append, List.mem_singleton] at h
        rcases h with (h | h) | h
        · exact Or.inl h
        · right; rw [h]; rfl
        · right; rw [h]; rfl
      · exact Or.inr h
    · rw [if_pos hw] at he
      simp only [fwrite_trace, fread_trace, hr, List.mem_append, List.mem_singleton] at he
      rcases he with ((h | h) | h) | h
      · exact Or.inl h
      · right; rw [h]; rfl
      · right; rw [h]; rfl
      · right; rw [h]; rfl

theorem copyLast_readOk {flt : Faults} {source destination : String} {src : List Byte}
    {offset done block_count size : Nat} {st : Copy} (hrf : ∀ k, flt.fread k = false)
    (inv : Copying source destination src offset done st)
    (hle : offset + done + size ≤ src.length) :
    ∀ e ∈ (copyLast flt block_count size st).2.trace, e ∈ st.trace ∨ e.readOk = true := by
  intro e he
  unfold copyLast at he
  by_cases hs : size > 0
  · rw [if_pos hs] at he
    have hr : (fread (flt.fread block_count) (flt.readahead block_count) size st).1 = 1 := by
      rw [hrf]
      refine fread_ok (by rw [inv.inpath]; exact inv.intact)
        (by rw [inv.inpos]; exact inv.ahead) hs ?_
      rw [inv.inpos]
      exact hle
    simp only at he
    rw [if_neg (not_not.2 hr)] at he
    by_cases hw : (fwrite (flt.fwrite block_count) (flt.held block_count) size
        (fread (flt.fread block_count) (flt.readahead block_count) size st).2).1 = 1
    · rw [if_neg (not_not.2 hw)] at he
      simp only [fwrite_trace, fread_trace, hr, List.mem_append, List.mem_singleton] at he
      rcases he with (h | h) | h
      · exact Or.inl h
      · right; rw [h]; rfl
      · right; rw [h]; rfl
    · rw [if_pos hw] at he
      simp only [fwrite_trace, fread_trace, hr, List.mem_append, List.mem_singleton] at he
      rcases he with ((h | h) | h) | h
      · exact Or.inl h
      · right; rw [h]; rfl
      · right; rw [h]; rfl
      · right; rw [h]; rfl
  · rw [if_neg hs] at he
    exact Or.inl he

/-- Without read faults, the copy of a range that lies in the source, to a
destination other than the source, has no read error in its record. -/
theorem copyPhase_readOk {flt : Faults} {fs : FileSystem} {trace : List Event}
    {source destination : String} {offset length : Nat} {src : List Byte}
    (hrf : ∀ k, flt.fread k = false) (hd : source ≠ destination) (hsrc : fs source = some src)
    (hsum : offset + length ≤ src.length) (htrace : ∀ e ∈ trace, e.readOk = true) :
    ∀ e ∈ (copyPhase flt fs trace source destination offset length).trace,
      e.readOk = true := by
  have hdm := Nat.div_add_mod length DEFAULT_BLOCK_SIZE
  have hstart : Copying source destination src offset 0
      (copyStart flt fs trace source destination offset) :=
    copyStart_copying hd hsrc (by omega)
  have hst : ∀ e ∈ (copyStart flt fs trace source destination offset).trace, e.readOk = true := by
    intro e he
    simp only [copyStart, List.mem_append, List.mem_cons, List.mem_singleton,
      List.not_mem_nil, or_false] at he
    rcases he with h | h | h | h
    · exact htrace e h
    · rw [h]; rfl
    · rw [h]; rfl
    · rw [h]; rfl
  have hbl : ∀ e ∈ (blocksDone flt fs trace source destination offset length).2.trace,
      e.readOk = true := by
    intro e he
    rcases copyBlocks_readOk hrf (length / DEFAULT_BLOCK_SIZE) 0 0 _ hstart
      (by rw [Nat.mul_comm]; omega) e he with h | h
    · exact hst e h
    · exact h
  have hrel : ∀ e ∈ releaseAll, e.readOk = true := by
    simp [releaseAll, Event.readOk]
  unfold copyPhase
  by_cases hb : (blocksDone flt fs trace source destination offset length).1 = false
  · rw [if_pos hb]
    intro e he
    rcases List.mem_append.1 he with h | h
    · exact hbl e h
    · exact hrel e h
  · rw [if_neg hb]
    have hbt : (copyBlocks flt (length / DEFAULT_BLOCK_SIZE) 0
        (copyStart flt fs trace source destination offset)).1 = true := by
      simpa [blocksDone] using hb
    obtain ⟨inv1, _⟩ := copyBlocks_true _ 0 0 _ hstart hbt
    have hll : ∀ e ∈ (lastDone flt fs trace source destination offset length).2.trace,
        e.readOk = true := by
      intro e he
      unfold lastDone at he
      rcases copyLast_readOk hrf inv1 (by rw [Nat.mul_comm]; omega) e he with h | h
      · exact hbl e h
      · exact h
    by_cases hl : (lastDone flt fs trace source destination offset length).1 = false
    · rw [if_pos hl]
      intro e he
      rcases List.mem_append.1 he with h | h
      · exact hll e h
      · exact hrel e h
    · rw [if_neg hl]
      intro e he
      rcases List.mem_append.1 he with h | h
      · exact hll e h
      · simp only [List.mem_cons, List.mem_singleton, List.not_mem_nil, or_false] at h
        rcases h with h | h
        · rw [h]; rfl
        · exact hrel e (by simp [releaseAll, h])

/-! ## Transfers that fail -/

/-- A read leaves the output stream and the files as they are, so closing
the output stream after it gives what closing it before gives. -/
theorem closed_fread (flt : Faults) (fault : Bool) (ahead size : Nat) (st : Copy) :
    closed flt (fread fault ahead size st).2 = closed flt st := by
  unfold closed
  rw [fread_fs, fread_outputfile, fread_outbuf]

/-- A write that does not return 1, of `size > 0` bytes that the buffer
holds, is a faulty write. -/
theorem fwrite_faulty {fault : Option Nat} {held size : Nat} {st : Copy}
    (hl : size ≤ st.transferBuf.length) (hs : 0 < size)
    (h : (fwrite fault held size st).1 ≠ 1) : fault ≠ none := by
  intro hf
  rw [hf] at h
  exact h (fwrite_ok hs hl)

/-- The two ways the loop over the whole blocks leaves through `goto end`,
with the record it leaves and the destination after the output stream is
closed: after `k` blocks, either the read of the next block did not return 1,
or its write did not.  The destination holds leading bytes of the range: no
more than the `k` blocks in the first case, all of them when the `fclose`
does not fail; no more than `k + 1` blocks in the second. -/
theorem copyBlocks_failed {flt : Faults} {source destination : String} {src : List Byte}
    {offset : Nat} :
    ∀ (remaining count done : Nat) (st : Copy), Copying source destination src offset done st →
      DEFAULT_BLOCK_SIZE ≤ st.transferBuf.length →
      (copyBlocks flt remaining count st).1 = false →
      ∃ k, k < remaining ∧ offset + done + k * DEFAULT_BLOCK_SIZE ≤ src.length ∧
        (((copyBlocks flt remaining count st).2.trace
            = st.trace ++ blockCalls k
              ++ [.fread DEFAULT_BLOCK_SIZE 0, .printf (.unableToReadBlock (count + k))] ∧
          ∃ n, n ≤ done + k * DEFAULT_BLOCK_SIZE ∧
            closed flt (copyBlocks flt remaining count st).2 destination
              = some ((src.drop offset).take n) ∧
            (flt.fclose = none → n = done + k * DEFAULT_BLOCK_SIZE)) ∨
        ((copyBlocks flt remaining count st).2.trace
            = st.trace ++ blockCalls k
              ++ [.fread DEFAULT_BLOCK_SIZE 1, .fwrite DEFAULT_BLOCK_SIZE 0,
                  .printf (.unableToWriteBlock (count + k))] ∧
          offset + done + (k + 1) * DEFAULT_BLOCK_SIZE ≤ src.length ∧
          flt.fwrite (count + k) ≠ none ∧
          ∃ n, n ≤ done + (k + 1) * DEFAULT_BLOCK_SIZE ∧
            closed flt (copyBlocks flt remaining count st).2 destination
              = some ((src.drop offset).take n))) := by
  intro remaining
  induction remaining with
  | zero =>
    intro count done st _ _ h
    simp [copyBlocks] at h
  | succ n ih =>
    intro count done st inv hbuf h
    have hsrc : st.fs st.inputfile.path = some src := by rw [inv.inpath]; exact inv.intact
    have hcoh : ∃ n, st.inbuf = (src.drop st.inputfile.pos).take n := by
      rw [inv.inpos]; exact inv.ahead
    have hbound := inv.bound
    have hrl : (fread (flt.fread count) (flt.readahead count) DEFAULT_BLOCK_SIZE
        st).2.transferBuf.length = st.transferBuf.length := fread_buf_length hbuf
    rw [copyBlocks] at h ⊢
    simp only at h ⊢
    by_cases hr : (fread (flt.fread count) (flt.readahead count) DEFAULT_BLOCK_SIZE st).1 = 1
    · rw [if_neg (not_not.2 hr)] at h ⊢
      obtain ⟨_, _, hrb, _⟩ := fread_one hsrc hcoh hr
      rw [inv.inpos] at hrb
      by_cases hw : (fwrite (flt.fwrite count) (flt.held count) DEFAULT_BLOCK_SIZE
          (fread (flt.fread count) (flt.readahead count) DEFAULT_BLOCK_SIZE st).2).1 = 1
      · rw [if_neg (not_not.2 hw)] at h ⊢
        obtain ⟨k, hk, hkb, hcase⟩ := ih (count + 1) (done + DEFAULT_BLOCK_SIZE) _
          (transfer_step inv hr hw) (by rw [fwrite_buf, hrl]; exact hbuf) h
        have hc : count + 1 + k = count + (k + 1) := by omega
        have hd2 : done + DEFAULT_BLOCK_SIZE + k * DEFAULT_BLOCK_SIZE
            = done + (k + 1) * DEFAULT_BLOCK_SIZE := by ring
        have hd3 : done + DEFAULT_BLOCK_SIZE + (k + 1) * DEFAULT_BLOCK_SIZE
            = done + (k + 1 + 1) * DEFAULT_BLOCK_SIZE := by ring
        have hmul : (k + 1) * DEFAULT_BLOCK_SIZE = k * DEFAULT_BLOCK_SIZE + DEFAULT_BLOCK_SIZE := by
          ring
        have hmul2 : (k + 1 + 1) * DEFAULT_BLOCK_SIZE
            = k * DEFAULT_BLOCK_SIZE + DEFAULT_BLOCK_SIZE + DEFAULT_BLOCK_SIZE := by
          ring
        have ht : (fwrite (flt.fwrite count) (flt.held count) DEFAULT_BLOCK_SIZE
            (fread (flt.fread count) (flt.readahead count) DEFAULT_BLOCK_SIZE st).2).2.trace
              ++ blockCalls k
            = st.trace ++ blockCalls (k + 1) := by
          rw [fwrite_trace, fread_trace, hr, hw, blockCalls_succ]
          simp
        refine ⟨k + 1, by omega, by omega, ?_⟩
        rcases hcase with ⟨h1, n1, hn1, h2, h3⟩ | ⟨h1, hb2, hfault, n1, hn1, h2⟩
        · left
          rw [hc, ht] at h1
          rw [hd2] at hn1 h3
          exact ⟨h1, n1, hn1, h2, h3⟩
        · right
          rw [hc] at hfault
          rw [hc, ht] at h1
          rw [hd3] at hn1
          exact ⟨h1, by omega, hfault, n1, hn1, h2⟩
      · rw [if_pos hw]
        have inv2 : Copying source destination src offset (done + DEFAULT_BLOCK_SIZE)
            (fwrite (flt.fwrite count) (flt.held count) DEFAULT_BLOCK_SIZE
              (fread (flt.fread count) (flt.readahead count) DEFAULT_BLOCK_SIZE st).2).2 :=
          write_step inv hr
        obtain ⟨n1, _, hn1, hdest, _, _, _⟩ := @closed_files flt _ _ _ _ _ _ inv2
        refine ⟨0, by omega, by omega, Or.inr ⟨?_, by omega, ?_, n1, by omega, hdest⟩⟩
        · simp [fwrite_trace, fread_trace, hr, fwrite_ne_one hw, blockCalls]
        · simpa using fwrite_faulty (by rw [hrl]; exact hbuf) (by decide) hw
    · rw [if_pos hr]
      obtain ⟨n1, _, hn1, hdest, hfull, _, _⟩ := @closed_files flt _ _ _ _ _ _ inv
      refine ⟨0, by omega, by omega, Or.inl ⟨?_, n1, by omega, ?_, ?_⟩⟩
      · simp [fread_trace, fread_ne_one hr, blockCalls]
      · rw [← closed_fread flt (flt.fread count) (flt.readahead count) DEFAULT_BLOCK_SIZE st]
          at hdest
        exact hdest
      · intro hf
        rw [hfull hf]
        omega


/-- The two ways the loop over the whole blocks of a run fails, with the
record it leaves and the destination after the output stream is closed. -/
theorem blocks_failed {flt : Faults} {fs : FileSystem} {trace : List Event}
    {source destination : String} {offset length : Nat} {src : List Byte}
    (hd : source ≠ destination) (hsrc : fs source = some src) (ho : offset ≤ src.length)
    (hb : (blocksDone flt fs trace source destination offset length).1 = false) :
    ∃ k, k < length / DEFAULT_BLOCK_SIZE ∧ offset + k * DEFAULT_BLOCK_SIZE ≤ src.length ∧
      (((blocksDone flt fs trace source destination offset length).2.trace
          = (copyStart flt fs trace source destination offset).trace ++ blockCalls k
            ++ [.fread DEFAULT_BLOCK_SIZE 0, .printf (.unableToReadBlock k)] ∧
        ∃ n, n ≤ k * DEFAULT_BLOCK_SIZE ∧
          closed flt (blocksDone flt fs trace source destination offset length).2 destination
            = some ((src.drop offset).take n) ∧
          (flt.fclose = none → n = k * DEFAULT_BLOCK_SIZE)) ∨
      ((blocksDone flt fs trace source destination offset length).2.trace
          = (copyStart flt fs trace source destination offset).trace ++ blockCalls k
            ++ [.fread DEFAULT_BLOCK_SIZE 1, .fwrite DEFAULT_BLOCK_SIZE 0,
                .printf (.unableToWriteBlock k)] ∧
        offset + (k + 1) * DEFAULT_BLOCK_SIZE ≤ src.length ∧
        flt.fwrite k ≠ none ∧
        ∃ n, n ≤ (k + 1) * DEFAULT_BLOCK_SIZE ∧
          closed flt (blocksDone flt fs trace source destination offset length).2 destination
            = some ((src.drop offset).take n))) := by
  unfold blocksDone at hb ⊢
  obtain ⟨k, hk, hkb, hcase⟩ := copyBlocks_failed (length / DEFAULT_BLOCK_SIZE) 0 0 _
    (copyStart_copying hd hsrc ho) (by simp [copyStart]) hb
  simp only [Nat.zero_add, Nat.add_zero] at hkb hcase
  exact ⟨k, hk, hkb, hcase⟩

/-- A run with four arguments or more either ends before the destination is
opened, or goes through the copy phase with an accepted range. -/
theorem main_early_or_copy (prog source offsetArg lengthArg destination : String)
    (rest : List String) (fs : FileSystem) (flt : Faults) :
    (∀ e ∈ (main (prog :: source :: offsetArg :: lengthArg :: destination :: rest) fs
        flt).trace, e.early = true) ∨
    (validate (parseOffset offsetArg)
        (resolveLength lengthArg (parseOffset offsetArg) (fs.size source)) (fs.size source)
        = .accepted ∧
      main (prog :: source :: offsetArg :: lengthArg :: destination :: rest) fs flt
        = copyPhase flt fs (probeCalls source (fs.size source)) source destination
            (parseOffset offsetArg)
            (resolveLength lengthArg (parseOffset offsetArg) (fs.size source))) := by
  by_cases h0 : flt.fopen_rb = true ∨ fs source = none
  · left; rw [main_eq, if_pos h0]; simp [Event.early]
  by_cases h1 : flt.fseek_end = true
  · left; rw [main_eq, if_neg h0, if_pos h1]; simp [Event.early]
  by_cases h2 : flt.ftell = true ∨ fs.size source > LONG_MAX
  · left; rw [main_eq, if_neg h0, if_neg h1, if_pos h2]; simp [Event.early]
  by_cases h3 : flt.fseek_set = true
  · left; rw [main_eq, if_neg h0, if_neg h1, if_neg h2, if_pos h3]; simp [Event.early]
  cases hv : validate (parseOffset offsetArg)
      (resolveLength lengthArg (parseOffset offsetArg) (fs.size source)) (fs.size source) with
  | lengthZero =>
    left; rw [main_eq, if_neg h0, if_neg h1, if_neg h2, if_neg h3, hv]
    simp [probeCalls, Event.early]
  | offsetLarger =>
    left; rw [main_eq, if_neg h0, if_neg h1, if_neg h2, if_neg h3, hv]
    simp [probeCalls, Event.early]
  | rangeGreater =>
    left; rw [main_eq, if_neg h0, if_neg h1, if_neg h2, if_neg h3, hv]
    simp [probeCalls, Event.early]
  | accepted =>
    by_cases h4 : flt.calloc = true
    · left; rw [main_eq, if_neg h0, if_neg h1, if_neg h2, if_neg h3, hv]
      simp only
      rw [carve_eq, if_pos h4]; simp [probeCalls, Event.early]
    by_cases h5 : flt.fseek_offset = true
    · left; rw [main_eq, if_neg h0, if_neg h1, if_neg h2, if_neg h3, hv]
      simp only
      rw [carve_eq, if_neg h4, if_pos h5]; simp [probeCalls, Event.early]
    by_cases h6 : flt.fopen_wb = true
    · left; rw [main_eq, if_neg h0, if_neg h1, if_neg h2, if_neg h3, hv]
      simp only
      rw [carve_eq, if_neg h4, if_neg h5, if_pos h6]; simp [probeCalls, Event.early]
    right
    exact ⟨rfl, main_reaches_copy h0 h1 h2 h3 hv h4 h5 h6⟩

theorem blockCalls_not_blockMessage {n : Nat} :
    ∀ e ∈ blockCalls n, e.blockMessage = false := by
  intro e he
  rcases mem_blockCalls he with h | h <;> rw [h] <;> rfl

theorem lastEnd_not_blockMessage {size : Nat} {b : Bool} {calls : List Event}
    (h : LastEnd size b calls) : ∀ e ∈ calls, e.blockMessage = false := by
  intro e he
  cases h with
  | done =>
    unfold lastCalls at he
    split at he
    · simp only [List.mem_cons, List.mem_singleton, List.not_mem_nil, or_false] at he
      rcases he with h | h <;> rw [h] <;> rfl
    · simp at he
  | readFailed hs =>
    simp only [List.mem_cons, List.mem_singleton, List.not_mem_nil, or_false] at he
    rcases he with h | h <;> rw [h] <;> rfl
  | writeFailed hs =>
    simp only [List.mem_cons, List.mem_singleton, List.not_mem_nil, or_false] at he
    rcases he with h | h | h <;> rw [h] <;> rfl

theorem copyStart_not_blockMessage (flt : Faults) (fs : FileSystem)
    (source destination : String) (inputsize offset : Nat) :
    ∀ e ∈ (copyStart flt fs (probeCalls source inputsize) source destination offset).trace,
      e.blockMessage = false := by
  simp [copyStart, probeCalls, Event.blockMessage]

/-- When the loop over the whole blocks runs to its end, the record of the
copy phase holds no message about a whole block. -/
theorem copyPhase_not_blockMessage {flt : Faults} {fs : FileSystem}
    {source destination : String} {inputsize offset length : Nat}
    (hb : (blocksDone flt fs (probeCalls source inputsize) source destination offset
      length).1 = true) :
    ∀ e ∈ (copyPhase flt fs (probeCalls source inputsize) source destination offset
      length).trace, e.blockMessage = false := by
  obtain ⟨bc, hbe, hbt⟩ := copyBlocks_trace flt (length / DEFAULT_BLOCK_SIZE) 0
    (copyStart flt fs (probeCalls source inputsize) source destination offset)
  have hb2 : (copyBlocks flt (length / DEFAULT_BLOCK_SIZE) 0
      (copyStart flt fs (probeCalls source inputsize) source destination offset)).1 = true := hb
  rw [hb2] at hbe
  rw [blocksEnd_true hbe] at hbt
  obtain ⟨lc, hle, hlt⟩ := copyLast_trace flt (length / DEFAULT_BLOCK_SIZE)
    (length % DEFAULT_BLOCK_SIZE)
    (blocksDone flt fs (probeCalls source inputsize) source destination offset length).2
  have hl : ∀ e ∈ (lastDone flt fs (probeCalls source inputsize) source destination offset
      length).2.trace, e.blockMessage = false := by
    intro e he
    unfold lastDone at he
    rw [hlt] at he
    rcases List.mem_append.1 he with h | h
    · unfold blocksDone at h
      rw [hbt] at h
      rcases List.mem_append.1 h with h1 | h1
      · exact copyStart_not_blockMessage flt fs source destination inputsize offset e h1
      · exact blockCalls_not_blockMessage e h1
    · exact lastEnd_not_blockMessage hle e h
  have hrel : ∀ e ∈ releaseAll, e.blockMessage = false := by
    simp [releaseAll, Event.blockMessage]
  unfold copyPhase
  rw [if_neg (by rw [hb]; decide)]
  intro e he
  split at he
  · rcases List.mem_append.1 he with h | h
    · exact hl e h
    · exact hrel e h
  · rcases List.mem_append.1 he with h | h
    · exact hl e h
    · simp only [List.mem_cons, List.mem_singleton, List.not_mem_nil, or_false] at h
      rcases h with h | h
      · rw [h]; rfl
      · exact hrel e (by simp [releaseAll, h])

/-- In the record of a failed loop over the whole blocks, a message about a
whole block is among the calls of the block that failed. -/
theorem blockMessage_mem {pre tail : List Event} {k : Nat} {e : Event}
    (hpre : ∀ e ∈ pre, e.blockMessage = false) (he : e.blockMessage = true)
    (hmem : e ∈ pre ++ blockCalls k ++ tail ++ releaseAll) : e ∈ tail := by
  rcases List.mem_append.1 hmem with h | h
  · rcases List.mem_append.1 h with h1 | h1
    · rcases List.mem_append.1 h1 with h2 | h2
      · rw [hpre e h2] at he; exact absurd he (by decide)
      · rw [blockCalls_not_blockMessage e h2] at he; exact absurd he (by decide)
    · exact h1
  · have : e.blockMessage = false := by
      revert h
      simp only [releaseAll, List.mem_cons, List.mem_singleton, List.not_mem_nil, or_false]
      rintro (h | h | h) <;> rw [h] <;> rfl
    rw [this] at he; exact absurd he (by decide)

/-- A write of `size` bytes to a stream that holds nothing and keeps
nothing, when the environment lets only `m < size` bytes through: it returns
0 and the stream has passed `m` bytes to the file. -/
theorem fwrite_unbuffered {m size : Nat} {st : Copy} (hob : st.outbuf = [])
    (hl : (st.transferBuf.take size).length = size) (hm : m < size) :
    (fwrite (some m) 0 size st).1 = 0 ∧
    (fwrite (some m) 0 size st).2.outputfile.pos = st.outputfile.pos + m := by
  unfold fwrite
  simp only [hob, List.nil_append, Nat.sub_zero, List.take_length, List.length_take, hl]
  rw [List.length_take] at hl
  constructor
  · rw [if_neg]
    omega
  · omega

/-- A first block whose read returns 1 and whose write is faulty, on streams
that do not buffer, in an environment that lets `m < 4096` bytes of the write
and none of the `fclose` through: the loop leaves through `goto end`, and
after the output stream is closed the destination holds these `m` bytes
behind the ones it held. -/
theorem copyBlocks_write_short {flt : Faults} {source destination : String} {src : List Byte}
    {offset done count m n : Nat} {st : Copy}
    (inv : Copying source destination src offset done st)
    (hbuf : DEFAULT_BLOCK_SIZE ≤ st.transferBuf.length) (hob : st.outbuf = [])
    (hrf : flt.fread count = false) (hwf : flt.fwrite count = some m)
    (hheld : flt.held count = 0) (hcl : flt.fclose = some 0)
    (hm : m < DEFAULT_BLOCK_SIZE) (hle : offset + done + DEFAULT_BLOCK_SIZE ≤ src.length) :
    (copyBlocks flt (n + 1) count st).1 = false ∧
    (copyBlocks flt (n + 1) count st).2.trace
      = st.trace ++ [.fread DEFAULT_BLOCK_SIZE 1, .fwrite DEFAULT_BLOCK_SIZE 0,
          .printf (.unableToWriteBlock count)] ∧
    closed flt (copyBlocks flt (n + 1) count st).2 destination
      = some ((src.drop offset).take (st.outputfile.pos + m)) := by
  have hsrc : st.fs st.inputfile.path = some src := by rw [inv.inpath]; exact inv.intact
  have hcoh : ∃ n, st.inbuf = (src.drop st.inputfile.pos).take n := by
    rw [inv.inpos]; exact inv.ahead
  have hr : (fread (flt.fread count) (flt.readahead count) DEFAULT_BLOCK_SIZE st).1 = 1 := by
    rw [hrf]
    refine fread_ok hsrc hcoh (by decide) ?_
    rw [inv.inpos]
    exact hle
  have hrl : (fread (flt.fread count) (flt.readahead count) DEFAULT_BLOCK_SIZE
      st).2.transferBuf.length = st.transferBuf.length := fread_buf_length hbuf
  have hdl : ((fread (flt.fread count) (flt.readahead count) DEFAULT_BLOCK_SIZE
      st).2.transferBuf.take DEFAULT_BLOCK_SIZE).length = DEFAULT_BLOCK_SIZE := by
    rw [List.length_take, hrl]
    omega
  obtain ⟨hw0, hpos⟩ := @fwrite_unbuffered m DEFAULT_BLOCK_SIZE
    (fread (flt.fread count) (flt.readahead count) DEFAULT_BLOCK_SIZE st).2
    (by rw [fread_outbuf]; exact hob) hdl hm
  rw [fread_outputfile] at hpos
  have hw : (fwrite (flt.fwrite count) (flt.held count) DEFAULT_BLOCK_SIZE
      (fread (flt.fread count) (flt.readahead count) DEFAULT_BLOCK_SIZE st).2).1 ≠ 1 := by
    rw [hwf, hheld, hw0]
    decide
  have inv2 : Copying source destination src offset (done + DEFAULT_BLOCK_SIZE)
      (fwrite (flt.fwrite count) (flt.held count) DEFAULT_BLOCK_SIZE
        (fread (flt.fread count) (flt.readahead count) DEFAULT_BLOCK_SIZE st).2).2 :=
    write_step inv hr
  obtain ⟨n1, _, _, hdest, _, _, hn1⟩ := @closed_files flt _ _ _ _ _ _ inv2
  have hn2 := hn1 0 hcl
  rw [hwf, hheld, hpos, Nat.zero_min, Nat.add_zero] at hn2
  rw [copyBlocks]
  simp only
  rw [if_neg (not_not.2 hr), if_pos hw]
  refine ⟨rfl, ?_, ?_⟩
  · simp [fwrite_trace, fread_trace, hr, fwrite_ne_one hw]
  · rw [← hn2]
    exact hdest

/-- A run on explicit inputs: carving all 10000 bytes of the source in an
environment whose first write puts only 5 bytes into the file.  The run
prints that it was unable to write block 0 and returns -1, and the
destination holds the first 5 bytes of the source. -/
theorem short_write_run :
    (main ["carve", "in", "0", "10000", "out"] fs10000 firstWriteShort).retVal = -1 ∧
    Event.printf (.unableToWriteBlock 0)
      ∈ (main ["carve", "in", "0", "10000", "out"] fs10000 firstWriteShort).trace ∧
    (main ["carve", "in", "0", "10000", "out"] fs10000 firstWriteShort).fs "out"
      = some (bytes10000.take 5) := by
  have hlen : bytes10000.length = 10000 := by simp [bytes10000]
  have hfs : fs10000 "in" = some bytes10000 := rfl
  have hsz : fs10000.size "in" = 10000 := by
    simp only [FileSystem.size, hfs, Option.getD_some, hlen]
  have hoff : parseOffset "0" = 0 := by decide
  have hres : resolveLength "10000" 0 10000 = 10000 := by decide
  have hmain : main ["carve", "in", "0", "10000", "out"] fs10000 firstWriteShort
      = copyPhase firstWriteShort fs10000 (probeCalls "in" (fs10000.size "in")) "in" "out"
          (parseOffset "0") (resolveLength "10000" (parseOffset "0") (fs10000.size "in")) := by
    refine main_reaches_copy ?_ ?_ ?_ ?_ ?_ ?_ ?_ ?_
    · rw [hfs]; simp [firstWriteShort]
    · simp [firstWriteShort]
    · rw [hsz]; decide
    · simp [firstWriteShort]
    · rw [hsz, hoff, hres]; decide
    · simp [firstWriteShort]
    · simp [firstWriteShort]
    · simp [firstWriteShort]
  rw [hmain, hsz, hoff, hres]
  have hstart : Copying "in" "out" bytes10000 0 0
      (copyStart firstWriteShort fs10000 (probeCalls "in" 10000) "in" "out" 0) :=
    copyStart_copying (by decide) hfs (by omega)
  have hstep := @copyBlocks_write_short firstWriteShort "in" "out" bytes10000 0 0 0 5 1
    (copyStart firstWriteShort fs10000 (probeCalls "in" 10000) "in" "out" 0) hstart
    (by simp [copyStart]) rfl rfl rfl rfl rfl (by decide) (by rw [hlen]; decide)
  have hn : (10000 : Nat) / DEFAULT_BLOCK_SIZE = 1 + 1 := by decide
  have hb : (blocksDone firstWriteShort fs10000 (probeCalls "in" 10000) "in" "out" 0
      10000).1 = false := by
    unfold blocksDone
    rw [hn]
    exact hstep.1
  unfold copyPhase
  rw [if_pos hb]
  refine ⟨rfl, ?_, ?_⟩
  · simp only
    unfold blocksDone
    rw [hn, hstep.2.1]
    simp
  · simp only
    unfold blocksDone
    rw [hn, hstep.2.2]
    simp [copyStart]

/-! ## The exit status and its causes -/

/-- The exit status of `main` and the messages it prints: the status is 0 or -1.  It is 0 exactly when the run
had fewer than four arguments after the program name, or printed the summary
of a copy that ran to completion; it is other than 0 exactly when the run
printed an error message, and a read or a write that did not return 1 is
always followed by such a status. -/
theorem status_and_messages (argv : List String) (fs : FileSystem) (flt : Faults) :
    ((main argv fs flt).retVal = 0 ∨ (main argv fs flt).retVal = -1) ∧
    ((main argv fs flt).retVal = 0 ↔
      argv.length < 5 ∨ ∃ m, m.isCarved = true ∧ Event.printf m ∈ (main argv fs flt).trace) ∧
    ((main argv fs flt).retVal ≠ 0 ↔
      ∃ m, m.isError = true ∧ Event.printf m ∈ (main argv fs flt).trace) ∧
    ((∃ e ∈ (main argv fs flt).trace, e.failedTransfer = true) →
      (main argv fs flt).retVal ≠ 0) := by
  by_cases hargc : argv.length < 5
  · rw [main_usage hargc]
    simp [hargc, Msg.isError, Event.failedTransfer]
  · obtain ⟨prog, source, offsetArg, lengthArg, destination, rest, rfl⟩ := argv_of_length hargc
    simp only [hargc, false_or]
    rw [main_eq]
    split
    · exact early_exit_status fs (.cannotOpen source) rfl (by simp) (by simp [Event.plain])
    · split
      · exact early_exit_status fs .cannotGetSize rfl (by simp) (by simp [Event.plain])
      · split
        · exact early_exit_status fs .cannotGetSize rfl (by simp) (by simp [Event.plain])
        · split
          · exact early_exit_status fs .cannotGetSize rfl (by simp) (by simp [Event.plain])
          · split
            · exact early_exit_status fs .lengthZero rfl (by simp)
                (by simp [probeCalls, Event.plain])
            · exact early_exit_status fs (.offsetLarger (parseOffset offsetArg) source (fs.size source)) rfl (by simp)
                (by simp [probeCalls, Event.plain])
            · exact early_exit_status fs (.rangeGreater (parseOffset offsetArg)
                (resolveLength lengthArg (parseOffset offsetArg) (fs.size source)) source
                (fs.size source)) rfl (by simp)
                (by simp [probeCalls, Event.plain])
            · rw [carve_eq]
              split
              · exact early_exit_status fs .cannotAllocate rfl (by simp)
                  (by simp [probeCalls, Event.plain])
              · split
                · exact early_exit_status fs (.cannotSeek (parseOffset offsetArg) source) rfl (by simp)
                    (by simp [probeCalls, Event.plain])
                · split
                  · exact early_exit_status fs (.cannotCreate destination) rfl (by simp)
                      (by simp [probeCalls, Event.plain])
                  · obtain ⟨calls, hend, ht⟩ := copyPhase_trace flt fs
                      (probeCalls source (fs.size source)) source destination
                      (parseOffset offsetArg)
                      (resolveLength lengthArg (parseOffset offsetArg) (fs.size source))
                    rw [ht]
                    have hpre : ∀ e ∈ probeCalls source (fs.size source)
                        ++ setupCalls destination (parseOffset offsetArg), e.plain = true := by
                      intro e he
                      rcases List.mem_append.1 he with h | h
                      · exact probeCalls_plain _ _ e h
                      · exact setupCalls_plain _ _ e h
                    generalize (copyPhase flt fs (probeCalls source (fs.size source)) source
                      destination (parseOffset offsetArg)
                      (resolveLength lengthArg (parseOffset offsetArg)
                        (fs.size source))).retVal = r at hend ⊢
                    by_cases hr : r = 0
                    · obtain ⟨⟨m, hm, hmem⟩, hall⟩ := copyEnd_done hend hr
                      refine ⟨Or.inl hr, ⟨fun _ => ⟨m, hm, List.mem_append_right _ hmem⟩,
                        fun _ => hr⟩, ⟨fun h => absurd hr h, ?_⟩, ?_⟩
                      · rintro ⟨m2, hm2, hmem2⟩
                        rcases List.mem_append.1 hmem2 with h1 | h1
                        · rw [prefix_message h1] at hm2
                          simp [Msg.isError] at hm2
                        · rw [ofDoneCopy_not_error (hall _ h1)] at hm2
                          exact absurd hm2 (by decide)
                      · rintro ⟨e, he, hf⟩
                        rcases List.mem_append.1 he with h1 | h1
                        · rw [plain_not_failed (hpre _ h1)] at hf
                          exact absurd hf (by decide)
                        · have hd := hall e h1
                          cases e <;> simp_all [Event.failedTransfer, Event.ofDoneCopy]
                    · obtain ⟨⟨m, hm, hmem⟩, hall⟩ := copyEnd_failed hend hr
                      refine ⟨(copyEnd_retVal hend), ⟨fun h => absurd h hr, ?_⟩,
                        ⟨fun _ => ⟨m, hm, List.mem_append_right _ hmem⟩, fun _ => hr⟩,
                        fun _ => hr⟩
                      rintro ⟨m2, hm2, hmem2⟩
                      rcases List.mem_append.1 hmem2 with h1 | h1
                      · rw [plain_not_carved (hpre _ h1)] at hm2
                        exact absurd hm2 (by decide)
                      · rw [ofFailedCopy_not_carved (hall _ h1)] at hm2
                        exact absurd hm2 (by decide)

/-- The exit status of a run with four arguments or more is 0 exactly when
the source was opened, its size determined, the range accepted, the buffer
allocated, the source positioned, the destination opened, and both parts of
the copy ran to their end. -/
theorem main_done_iff (prog source offsetArg lengthArg destination : String)
    (rest : List String) (fs : FileSystem) (flt : Faults) :
    (main (prog :: source :: offsetArg :: lengthArg :: destination :: rest) fs flt).retVal = 0 ↔
      ¬ (flt.fopen_rb = true ∨ fs source = none) ∧ ¬ flt.fseek_end = true ∧
      ¬ (flt.ftell = true ∨ fs.size source > LONG_MAX) ∧ ¬ flt.fseek_set = true ∧
      validate (parseOffset offsetArg)
        (resolveLength lengthArg (parseOffset offsetArg) (fs.size source)) (fs.size source)
        = .accepted ∧
      ¬ flt.calloc = true ∧ ¬ flt.fseek_offset = true ∧ ¬ flt.fopen_wb = true ∧
      (blocksDone flt fs (probeCalls source (fs.size source)) source destination
        (parseOffset offsetArg)
        (resolveLength lengthArg (parseOffset offsetArg) (fs.size source))).1 = true ∧
      (lastDone flt fs (probeCalls source (fs.size source)) source destination
        (parseOffset offsetArg)
        (resolveLength lengthArg (parseOffset offsetArg) (fs.size source))).1 = true := by
  have hm : ¬ ((-1 : Int) = 0) := by decide
  by_cases h0 : flt.fopen_rb = true ∨ fs source = none
  · rw [main_eq, if_pos h0]
    exact ⟨fun h => absurd h hm, fun h => absurd h0 h.1⟩
  by_cases h1 : flt.fseek_end = true
  · rw [main_eq, if_neg h0, if_pos h1]
    exact ⟨fun h => absurd h hm, fun h => absurd h1 h.2.1⟩
  by_cases h2 : flt.ftell = true ∨ fs.size source > LONG_MAX
  · rw [main_eq, if_neg h0, if_neg h1, if_pos h2]
    exact ⟨fun h => absurd h hm, fun h => absurd h2 h.2.2.1⟩
  by_cases h3 : flt.fseek_set = true
  · rw [main_eq, if_neg h0, if_neg h1, if_neg h2, if_pos h3]
    exact ⟨fun h => absurd h hm, fun h => absurd h3 h.2.2.2.1⟩
  rw [main_eq, if_neg h0, if_neg h1, if_neg h2, if_neg h3]
  cases hv : validate (parseOffset offsetArg)
      (resolveLength lengthArg (parseOffset offsetArg) (fs.size source)) (fs.size source) with
  | lengthZero =>
    exact ⟨fun h => absurd h hm, fun h => absurd h.2.2.2.2.1 (by simp)⟩
  | offsetLarger =>
    exact ⟨fun h => absurd h hm, fun h => absurd h.2.2.2.2.1 (by simp)⟩
  | rangeGreater =>
    exact ⟨fun h => absurd h hm, fun h => absurd h.2.2.2.2.1 (by simp)⟩
  | accepted =>
    simp only
    by_cases h4 : flt.calloc = true
    · rw [carve_eq, if_pos h4]
      exact ⟨fun h => absurd h hm, fun h => absurd h4 h.2.2.2.2.2.1⟩
    by_cases h5 : flt.fseek_offset = true
    · rw [carve_eq, if_neg h4, if_pos h5]
      exact ⟨fun h => absurd h hm, fun h => absurd h5 h.2.2.2.2.2.2.1⟩
    by_cases h6 : flt.fopen_wb = true
    · rw [carve_eq, if_neg h4, if_neg h5, if_pos h6]
      exact ⟨fun h => absurd h hm, fun h => absurd h6 h.2.2.2.2.2.2.2.1⟩
    rw [carve_eq, if_neg h4, if_neg h5, if_neg h6, copyPhase_retVal]
    constructor
    · intro h
      have hbl : (blocksDone flt fs (probeCalls source (fs.size source)) source destination
            (parseOffset offsetArg)
            (resolveLength lengthArg (parseOffset offsetArg) (fs.size source))).1 = true ∧
          (lastDone flt fs (probeCalls source (fs.size source)) source destination
            (parseOffset offsetArg)
            (resolveLength lengthArg (parseOffset offsetArg) (fs.size source))).1 = true := by
        by_contra hne
        rw [if_neg hne] at h
        exact absurd h (by decide)
      exact ⟨h0, h1, h2, h3, trivial, h4, h5, h6, hbl.1, hbl.2⟩
    · intro h
      rw [if_pos ⟨h.2.2.2.2.2.2.2.2.1, h.2.2.2.2.2.2.2.2.2⟩]

/-- The causes of a nonzero exit status: a run with four arguments or more
returns -1 when the source cannot be opened, when its size cannot be
determined, when the range is rejected, when the buffer cannot be allocated,
when the source cannot be positioned, when the destination cannot be opened,
and when a read or a write did not return 1; it never returns anything but 0
or -1. -/
theorem exit_status_causes (prog source offsetArg lengthArg destination : String)
    (rest : List String) (fs : FileSystem) (flt : Faults) :
    ((main (prog :: source :: offsetArg :: lengthArg :: destination :: rest) fs flt).retVal = 0 ∨
      (main (prog :: source :: offsetArg :: lengthArg :: destination :: rest) fs flt).retVal
        = -1) ∧
    ((flt.fopen_rb = true ∨ fs source = none ∨ flt.fseek_end = true ∨ flt.ftell = true ∨
        fs.size source > LONG_MAX ∨ flt.fseek_set = true ∨
        validate (parseOffset offsetArg)
          (resolveLength lengthArg (parseOffset offsetArg) (fs.size source)) (fs.size source)
          ≠ .accepted ∨
        flt.calloc = true ∨ flt.fseek_offset = true ∨ flt.fopen_wb = true ∨
        ∃ e ∈ (main (prog :: source :: offsetArg :: lengthArg :: destination :: rest) fs
          flt).trace, e.failedTransfer = true) →
      (main (prog :: source :: offsetArg :: lengthArg :: destination :: rest) fs flt).retVal
        = -1) := by
  have h01 := (status_and_messages (prog :: source :: offsetArg :: lengthArg :: destination :: rest)
    fs flt).1
  have hft := (status_and_messages (prog :: source :: offsetArg :: lengthArg :: destination :: rest)
    fs flt).2.2.2
  have hiff := main_done_iff prog source offsetArg lengthArg destination rest fs flt
  refine ⟨h01, fun hc => ?_⟩
  rcases h01 with h | h
  · exfalso
    obtain ⟨g0, g1, g2, g3, gv, g4, g5, g6, _, _⟩ := hiff.1 h
    rcases hc with hc | hc | hc | hc | hc | hc | hc | hc | hc | hc | hc
    · exact g0 (Or.inl hc)
    · exact g0 (Or.inr hc)
    · exact g1 hc
    · exact g2 (Or.inl hc)
    · exact g2 (Or.inr hc)
    · exact g3 hc
    · exact hc gv
    · exact g4 hc
    · exact g5 hc
    · exact g6 hc
    · exact hft hc h
  · exact h

/-! ## Bytes that stay in the buffer of the output stream -/

/-- A write that returns 1 on a stream that holds nothing and keeps nothing
passes its `size` bytes to the file. -/
theorem fwrite_through {fault : Option Nat} {size : Nat} {st : Copy} (hob : st.outbuf = [])
    (h : (fwrite fault 0 size st).1 = 1) :
    (fwrite fault 0 size st).2.outputfile.pos = st.outputfile.pos + size ∧
    (fwrite fault 0 size st).2.outbuf = [] := by
  unfold fwrite at h ⊢
  simp only [hob, List.nil_append, Nat.sub_zero, List.take_length] at h ⊢
  split at h
  · rename_i hc
    obtain ⟨h1, h2, _⟩ := hc
    exact ⟨by omega, List.drop_eq_nil_of_le (by omega)⟩
  · exact absurd h (by decide)

/-- A write to a stream that keeps all it has passes nothing to the file. -/
theorem fwrite_kept {fault : Option Nat} {held size : Nat} {st : Copy}
    (hh : (st.outbuf ++ st.transferBuf.take size).length ≤ held) :
    (fwrite fault held size st).2.outputfile.pos = st.outputfile.pos := by
  unfold fwrite
  simp only [Nat.sub_eq_zero_of_le hh, List.take_zero]
  cases fault <;> simp

/-- The loop over whole blocks on an output stream that holds nothing and
keeps nothing: when it runs to its end, every block has been passed to the
file. -/
theorem copyBlocks_through (flt : Faults) :
    ∀ (remaining count : Nat) (st : Copy), st.outbuf = [] →
      (∀ k, count ≤ k → k < count + remaining → flt.held k = 0) →
      (copyBlocks flt remaining count st).1 = true →
      (copyBlocks flt remaining count st).2.outputfile.pos
        = st.outputfile.pos + remaining * DEFAULT_BLOCK_SIZE ∧
      (copyBlocks flt remaining count st).2.outbuf = [] := by
  intro remaining
  induction remaining with
  | zero =>
    intro count st hob _ _
    simp [copyBlocks, hob]
  | succ n ih =>
    intro count st hob hh h
    rw [copyBlocks] at h ⊢
    simp only at h ⊢
    by_cases hr : (fread (flt.fread count) (flt.readahead count) DEFAULT_BLOCK_SIZE st).1 = 1
    · rw [if_neg (not_not.2 hr)] at h ⊢
      by_cases hw : (fwrite (flt.fwrite count) (flt.held count) DEFAULT_BLOCK_SIZE
          (fread (flt.fread count) (flt.readahead count) DEFAULT_BLOCK_SIZE st).2).1 = 1
      · rw [if_neg (not_not.2 hw)] at h ⊢
        have h0 : flt.held count = 0 := hh count (Nat.le_refl _) (by omega)
        rw [h0] at hw h ⊢
        obtain ⟨hp, ho⟩ := fwrite_through (by rw [fread_outbuf]; exact hob) hw
        obtain ⟨hp2, ho2⟩ := ih (count + 1) _ ho
          (fun k h1 h2 => hh k (by omega) (by omega)) h
        rw [hp, fread_outputfile] at hp2
        refine ⟨?_, ho2⟩
        rw [hp2]
        ring
      · rw [if_pos hw] at h
        exact absurd h (by simp)
    · rw [if_pos hr] at h
      exact absurd h (by simp)

/-- A last block that the output stream keeps in its buffer: the position of
the stream in the file stays where it was. -/
theorem copyLast_kept {flt : Faults} {block_count size : Nat} {st : Copy}
    (hob : st.outbuf = []) (hh : size ≤ flt.held block_count) :
    (copyLast flt block_count size st).2.outputfile.pos = st.outputfile.pos := by
  have hk : ∀ st2 : Copy, st2.outbuf = [] →
      (fwrite (flt.fwrite block_count) (flt.held block_count) size st2).2.outputfile.pos
        = st2.outputfile.pos := by
    intro st2 h2
    refine fwrite_kept ?_
    rw [h2, List.nil_append, List.length_take]
    omega
  unfold copyLast
  split
  · simp only
    split
    · exact congrArg FILE.pos (fread_outputfile _ _ _ _)
    · split
      · simp only
        rw [hk _ (by rw [fread_outbuf]; exact hob), fread_outputfile]
      · rw [hk _ (by rw [fread_outbuf]; exact hob), fread_outputfile]
  · rfl

/-- A run on explicit inputs: carving all 10000 bytes of the source while
the two whole blocks reach the file, the last block of 1808 bytes stays in
the buffer of the output stream, and the `fclose` of that stream fails to put
it into the file.  The run returns 0 and the destination holds the 8192
bytes of the two whole blocks. -/
theorem lost_block_run :
    (main ["carve", "in", "0", "10000", "out"] fs10000 lastBlockLost).retVal = 0 ∧
    (main ["carve", "in", "0", "10000", "out"] fs10000 lastBlockLost).fs "out"
      = some (bytes10000.take 8192) := by
  have hlen : bytes10000.length = 10000 := by simp [bytes10000]
  have hfs : fs10000 "in" = some bytes10000 := rfl
  have hsz : fs10000.size "in" = 10000 := by
    simp only [FileSystem.size, hfs, Option.getD_some, hlen]
  have hoff : parseOffset "0" = 0 := by decide
  have hres : resolveLength "10000" 0 10000 = 10000 := by decide
  have hmain : main ["carve", "in", "0", "10000", "out"] fs10000 lastBlockLost
      = copyPhase lastBlockLost fs10000 (probeCalls "in" (fs10000.size "in")) "in" "out"
          (parseOffset "0") (resolveLength "10000" (parseOffset "0") (fs10000.size "in")) := by
    refine main_reaches_copy ?_ ?_ ?_ ?_ ?_ ?_ ?_ ?_
    · rw [hfs]; simp [lastBlockLost]
    · simp [lastBlockLost]
    · rw [hsz]; decide
    · simp [lastBlockLost]
    · rw [hsz, hoff, hres]; decide
    · simp [lastBlockLost]
    · simp [lastBlockLost]
    · simp [lastBlockLost]
  rw [hmain, hsz, hoff, hres]
  obtain ⟨hb, hl⟩ := @copy_runs lastBlockLost fs10000 (probeCalls "in" 10000) "in" "out" 0
    10000 bytes10000 (fun _ => rfl) (fun _ => rfl) (by decide) hfs (by rw [hlen])
  have hret : (copyPhase lastBlockLost fs10000 (probeCalls "in" 10000) "in" "out" 0
      10000).retVal = 0 := by
    rw [copyPhase_retVal, if_pos ⟨hb, hl⟩]
  refine ⟨hret, ?_⟩
  have hfsEq : (copyPhase lastBlockLost fs10000 (probeCalls "in" 10000) "in" "out" 0 10000).fs
      = closed lastBlockLost (lastDone lastBlockLost fs10000 (probeCalls "in" 10000) "in"
          "out" 0 10000).2 := by
    unfold copyPhase
    rw [if_neg (by rw [hb]; decide), if_neg (by rw [hl]; decide)]
  have inv := (@copy_complete lastBlockLost fs10000 (probeCalls "in" 10000) "in" "out" 0
    10000 bytes10000 (by decide) hfs (by omega) hb hl).1
  obtain ⟨n, _, _, hdest, _, _, hn⟩ := @closed_files lastBlockLost _ _ _ _ _ _ inv
  have hn0 : n = (lastDone lastBlockLost fs10000 (probeCalls "in" 10000) "in" "out" 0
      10000).2.outputfile.pos := by
    have := hn 0 rfl
    omega
  have hn2 : (10000 : Nat) / DEFAULT_BLOCK_SIZE = 2 := by decide
  have hm2 : (10000 : Nat) % DEFAULT_BLOCK_SIZE = 1808 := by decide
  have hbpos := copyBlocks_through lastBlockLost 2 0
    (copyStart lastBlockLost fs10000 (probeCalls "in" 10000) "in" "out" 0) rfl
    (fun k _ hk => by
      have hk2 : k < 2 := by omega
      simp [lastBlockLost, hk2])
    (by unfold blocksDone at hb; rw [hn2] at hb; exact hb)
  have hpos : (lastDone lastBlockLost fs10000 (probeCalls "in" 10000) "in" "out" 0
      10000).2.outputfile.pos = 8192 := by
    unfold lastDone blocksDone
    rw [hn2, hm2, copyLast_kept hbpos.2 (by simp [lastBlockLost]), hbpos.1]
    show 0 + 2 * DEFAULT_BLOCK_SIZE = 8192
    decide
  rw [hfsEq, hdest, hn0, hpos, List.drop_zero]

/-! ## C1: the destination holds the range -/

/-- C1: for every source `src` whose size fits a `long` and every resolved
range with `length > 0` and `offset + length ≤ size`, a run in an environment
in which no library call fails, however the streams buffer, to a destination
other than the source, ends with exit status 0, every read and every write
of it returned 1, and it leaves a destination of exactly `length` bytes, the
bytes `src[offset, offset+length)`.  Nothing is assumed on the length: it may
be below one block or span many. -/
theorem main_copies_range (prog source offsetArg lengthArg destination : String)
    (rest : List String) (fs : FileSystem) (flt : Faults) (src : List Byte)
    (hsrc : fs source = some src) (hsize : src.length ≤ LONG_MAX) (hd : source ≠ destination)
    (hlen : 0 < resolveLength lengthArg (parseOffset offsetArg) src.length)
    (hsum : parseOffset offsetArg + resolveLength lengthArg (parseOffset offsetArg) src.length
      ≤ src.length)
    (hn : flt.noFault) :
    (main (prog :: source :: offsetArg :: lengthArg :: destination :: rest) fs flt).retVal = 0 ∧
    (∀ size ret, Event.fread size ret
      ∈ (main (prog :: source :: offsetArg :: lengthArg :: destination :: rest) fs flt).trace
      → ret = 1) ∧
    (∀ size ret, Event.fwrite size ret
      ∈ (main (prog :: source :: offsetArg :: lengthArg :: destination :: rest) fs flt).trace
      → ret = 1) ∧
    (main (prog :: source :: offsetArg :: lengthArg :: destination :: rest) fs flt).fs destination
      = some ((src.drop (parseOffset offsetArg)).take
          (resolveLength lengthArg (parseOffset offsetArg) src.length)) ∧
    ((src.drop (parseOffset offsetArg)).take
      (resolveLength lengthArg (parseOffset offsetArg) src.length)).length
      = resolveLength lengthArg (parseOffset offsetArg) src.length := by
  have hv : validate (parseOffset offsetArg)
      (resolveLength lengthArg (parseOffset offsetArg) src.length) src.length = .accepted := by
    rw [validate_accepted_iff]
    exact ⟨by omega, by omega, Nat.le_trans (Nat.mod_le _ _) hsum⟩
  obtain ⟨hret, hdest, _⟩ := @main_runs prog source offsetArg lengthArg destination rest fs flt
    src hn hsrc hsize hd hv hsum
  refine ⟨hret, (main_done_transfers hret).2.1, (main_done_transfers hret).2.2, hdest, ?_⟩
  simp only [List.length_take, List.length_drop]
  omega

/-- Witness of C1: bytes 50 to 59 of the 100-byte source, a range below one
block, on streams that do not buffer; and bytes 100 to 9099 of the 10000-byte
source, a range of two whole blocks and a last block of 808 bytes, on streams
that buffer. -/
theorem main_copies_range_witness :
    ((main ["carve", "in", "50", "10", "out"] fs100 Faults.none).retVal = 0 ∧
      (main ["carve", "in", "50", "10", "out"] fs100 Faults.none).fs "out"
        = some ((bytes100.drop (parseOffset "50")).take
            (resolveLength "10" (parseOffset "50") bytes100.length)) ∧
      ((bytes100.drop (parseOffset "50")).take
        (resolveLength "10" (parseOffset "50") bytes100.length)).length
        = resolveLength "10" (parseOffset "50") bytes100.length) ∧
    ((main ["carve", "in", "100", "9000", "out"] fs10000 buffering).retVal = 0 ∧
      (main ["carve", "in", "100", "9000", "out"] fs10000 buffering).fs "out"
        = some ((bytes10000.drop (parseOffset "100")).take
            (resolveLength "9000" (parseOffset "100") bytes10000.length)) ∧
      ((bytes10000.drop (parseOffset "100")).take
        (resolveLength "9000" (parseOffset "100") bytes10000.length)).length
        = resolveLength "9000" (parseOffset "100") bytes10000.length) := by
  have hlen : bytes10000.length = 10000 := by simp [bytes10000]
  have hoff : parseOffset "100" = 100 := by decide
  have hres : resolveLength "9000" 100 10000 = 9000 := by decide
  have hb : buffering.noFault :=
    ⟨rfl, rfl, rfl, rfl, rfl, rfl, rfl, fun _ => rfl, fun _ => rfl, rfl⟩
  have h1 := main_copies_range "carve" "in" "50" "10" "out" [] fs100 Faults.none bytes100
    rfl (by decide) (by decide) (by decide) (by decide) noFault_none
  have h2 := main_copies_range "carve" "in" "100" "9000" "out" [] fs10000 buffering bytes10000
    rfl (by rw [hlen]; decide) (by decide) (by rw [hlen, hoff, hres]; decide)
    (by rw [hlen, hoff, hres]; decide) hb
  exact ⟨⟨h1.1, h1.2.2.2.1, h1.2.2.2.2⟩, ⟨h2.1, h2.2.2.2.1, h2.2.2.2.2⟩⟩

/-! ## C2: a sum that wraps around passes the checks -/

/-- C2, the code at the failing input: on a source of 100 bytes, offset 50
and length `2 ^ 64 - 10` have a true sum far above 100, yet the `size_t` sum
of line 119 is 40 and the range is accepted; the run then truncates the
older destination file, fails at its first read and ends with status -1. -/
theorem wrapped_sum_accepted :
    parseOffset "50" = 50 ∧
    resolveLength "18446744073709551606" 50 100 = 2 ^ 64 - 10 ∧
    50 + (2 ^ 64 - 10) > 100 ∧
    validate 50 (2 ^ 64 - 10) 100 = .accepted ∧
    fs100out "out" = some [1, 2, 3] ∧
    (main ["carve", "in", "50", "18446744073709551606", "out"] fs100out Faults.none).fs "out"
      = some [] ∧
    (main ["carve", "in", "50", "18446744073709551606", "out"] fs100out Faults.none).trace
      = probeCalls "in" 100 ++ setupCalls "out" 50
        ++ [.fread 4096 0, .printf (.unableToReadBlock 0)] ++ releaseAll ∧
    (main ["carve", "in", "50", "18446744073709551606", "out"] fs100out Faults.none).retVal
      = -1 := by
  decide

/-! ## C3: the destination is opened only after the checks -/

/-- C3: on every run that takes the usage path (fewer than four arguments
after the program name) or that prints one of the three rejections
(zero length, offset larger than the file, range greater than the file), the
file system is left as it was and `fopen(..., "w+b")` is never called, for the
destination or any other path. -/
theorem rejected_run_keeps_files (argv : List String) (fs : FileSystem) (flt : Faults)
    (h : argv.length < 5 ∨
      ∃ m, m.isRejection = true ∧ Event.printf m ∈ (main argv fs flt).trace) :
    (main argv fs flt).fs = fs ∧
    ∀ path ok, Event.fopen_wb path ok ∉ (main argv fs flt).trace := by
  by_cases hargc : argv.length < 5
  · rw [main_usage hargc]
    exact ⟨rfl, by simp⟩
  · obtain ⟨prog, source, offsetArg, lengthArg, destination, rest, rfl⟩ := argv_of_length hargc
    rcases h with h | ⟨m, hm, hmem⟩
    · exact absurd h hargc
    · rw [main_eq] at hmem ⊢
      split
      · exact ⟨rfl, by simp⟩
      · split
        · exact ⟨rfl, by simp⟩
        · split
          · exact ⟨rfl, by simp⟩
          · split
            · exact ⟨rfl, by simp⟩
            · rename_i h0 h1 h2 h3
              rw [if_neg h0, if_neg h1, if_neg h2, if_neg h3] at hmem
              split
              · exact ⟨rfl, by simp [probeCalls]⟩
              · exact ⟨rfl, by simp [probeCalls]⟩
              · exact ⟨rfl, by simp [probeCalls]⟩
              · rename_i hv
                rw [hv] at hmem
                simp only at hmem
                exfalso
                have hnr := rejection_not_ofCopy hm
                rw [carve_eq] at hmem
                split at hmem
                · simp [probeCalls] at hmem
                  rcases hmem with h | h <;> rw [h] at hm <;> simp [Msg.isRejection] at hm
                · split at hmem
                  · simp [probeCalls] at hmem
                    rcases hmem with h | h <;> rw [h] at hm <;> simp [Msg.isRejection] at hm
                  · split at hmem
                    · simp [probeCalls] at hmem
                      rcases hmem with h | h <;> rw [h] at hm <;> simp [Msg.isRejection] at hm
                    · obtain ⟨calls, hend, ht⟩ := copyPhase_trace flt fs
                        (probeCalls source (fs.size source)) source destination
                        (parseOffset offsetArg)
                        (resolveLength lengthArg (parseOffset offsetArg) (fs.size source))
                      rw [ht] at hmem
                      rcases List.mem_append.1 hmem with h1 | h1
                      · simp [probeCalls, setupCalls] at h1
                        rw [h1] at hm
                        simp [Msg.isRejection] at hm
                      · rw [copyEnd_ofCopy hend h1] at hnr
                        exact absurd hnr (by decide)

/-- Witness of C3: a run with three arguments, and a run rejected for an
offset of 200 in a file of 100 bytes, both next to an older file `out`. -/
theorem rejected_run_keeps_files_witness :
    ((main ["carve", "in", "0", "10"] fs100out Faults.none).fs = fs100out ∧
      ∀ path ok, Event.fopen_wb path ok
        ∉ (main ["carve", "in", "0", "10"] fs100out Faults.none).trace) ∧
    ((main ["carve", "in", "200", "10", "out"] fs100out Faults.none).fs = fs100out ∧
      ∀ path ok, Event.fopen_wb path ok
        ∉ (main ["carve", "in", "200", "10", "out"] fs100out Faults.none).trace) :=
  ⟨rejected_run_keeps_files ["carve", "in", "0", "10"] fs100out Faults.none
      (Or.inl (by decide)),
    rejected_run_keeps_files ["carve", "in", "200", "10", "out"] fs100out Faults.none
      (Or.inr ⟨.offsetLarger 200 "in" 100, rfl, by decide⟩)⟩

/-! ## C4: a length of 0 is always rejected -/

/-- C4: whatever the offset and the size of the source, the checks answer a
length of 0 with the zero-length reason; and a run that determined the size
of the source and resolved the length to 0 prints the zero-length message,
returns -1, makes no read and no write and leaves the file system as it
was. -/
theorem zero_length_rejected (prog source offsetArg lengthArg destination : String)
    (rest : List String) (fs : FileSystem) (flt : Faults) (hp : Probed flt fs source)
    (h0 : resolveLength lengthArg (parseOffset offsetArg) (fs.size source) = 0) :
    (∀ offset inputsize, validate offset 0 inputsize = .lengthZero) ∧
    main (prog :: source :: offsetArg :: lengthArg :: destination :: rest) fs flt
      = ⟨-1, fs, probeCalls source (fs.size source)
          ++ [.printf .lengthZero, .fclose .inputfile]⟩ := by
  refine ⟨fun offset inputsize => rfl, ?_⟩
  rw [main_probed hp, h0]
  rfl

/-- Witness of C4: length 0 at offset 200, outside a source of 100 bytes. -/
theorem zero_length_rejected_witness :
    (∀ offset inputsize, validate offset 0 inputsize = .lengthZero) ∧
    main ["carve", "in", "200", "0", "out"] fs100 Faults.none
      = ⟨-1, fs100, probeCalls "in" (fs100.size "in")
          ++ [.printf .lengthZero, .fclose .inputfile]⟩ :=
  zero_length_rejected "carve" "in" "200" "0" "out" [] fs100 Faults.none
    ⟨rfl, by decide, rfl, rfl, by decide, rfl⟩ (by decide)

/-! ## C5: the order of the checks -/

/-- C5, the code at the failing input: for a source of 100 bytes, offset 200
with length 10 gets the offset reason, but offset 50 with length `2 ^ 64 - 10`
has `offset ≤ size` and a true sum above the size and gets no reason at all:
the range is accepted and the run prints no range message. -/
theorem range_reason_missed :
    validate 200 10 100 = .offsetLarger ∧
    (50 ≤ 100 ∧ 2 ^ 64 - 10 ≠ 0 ∧ 2 ^ 64 - 10 < 2 ^ 64 ∧ 50 + (2 ^ 64 - 10) > 100) ∧
    validate 50 (2 ^ 64 - 10) 100 = .accepted ∧
    Event.printf (.rangeGreater 50 (2 ^ 64 - 10) "in" 100)
      ∉ (main ["carve", "in", "50", "18446744073709551606", "out"] fs100 Faults.none).trace ∧
    Event.printf (.offsetLarger 200 "in" 100)
      ∈ (main ["carve", "in", "200", "10", "out"] fs100 Faults.none).trace := by
  decide

/-! ## C6: the length `-` carves to the end of the file -/

/-- C6: for every source `src` and every parsed offset below its size, the
length argument `-` resolves to `size - offset` and the range passes the
checks; and when no library call fails, however the streams buffer (the size
fits a `long`, the destination is not the source), the run returns 0 and the
destination is the part of the source from `offset` to its end. -/
theorem dash_carves_to_end (prog source offsetArg destination : String) (rest : List String)
    (fs : FileSystem) (flt : Faults) (src : List Byte) (hsrc : fs source = some src)
    (hoff : parseOffset offsetArg < src.length) :
    resolveLength "-" (parseOffset offsetArg) src.length = src.length - parseOffset offsetArg ∧
    validate (parseOffset offsetArg) (resolveLength "-" (parseOffset offsetArg) src.length)
      src.length = .accepted ∧
    (src.length ≤ LONG_MAX → source ≠ destination → flt.noFault →
      (main (prog :: source :: offsetArg :: "-" :: destination :: rest) fs flt).retVal = 0 ∧
      (main (prog :: source :: offsetArg :: "-" :: destination :: rest) fs flt).fs
        destination = some (src.drop (parseOffset offsetArg))) := by
  have hres : resolveLength "-" (parseOffset offsetArg) src.length
      = src.length - parseOffset offsetArg := by
    unfold resolveLength
    rw [if_pos ⟨by decide, hoff⟩]
  have hv : validate (parseOffset offsetArg)
      (resolveLength "-" (parseOffset offsetArg) src.length) src.length = .accepted := by
    rw [hres, validate_accepted_iff]
    refine ⟨by omega, by omega, ?_⟩
    rw [show parseOffset offsetArg + (src.length - parseOffset offsetArg) = src.length by omega]
    exact Nat.mod_le _ _
  refine ⟨hres, hv, fun hsize hd hn => ?_⟩
  obtain ⟨hret, hfs, _⟩ := @main_runs prog source offsetArg "-" destination rest fs flt src
    hn hsrc hsize hd hv (by rw [hres]; omega)
  refine ⟨hret, ?_⟩
  rw [hfs, hres]
  congr 1
  exact List.take_of_length_le (by simp)

/-- Witness of C6: offset 50 and length `-` on the source of 100 bytes give
a length of 50, an accepted range, exit status 0 and a destination that holds
the last 50 bytes of the source, on streams that do not buffer and on streams
that do. -/
theorem dash_carves_to_end_witness :
    resolveLength "-" (parseOffset "50") bytes100.length = bytes100.length - parseOffset "50" ∧
    validate (parseOffset "50") (resolveLength "-" (parseOffset "50") bytes100.length)
      bytes100.length = .accepted ∧
    ((main ["carve", "in", "50", "-", "out"] fs100 Faults.none).retVal = 0 ∧
      (main ["carve", "in", "50", "-", "out"] fs100 Faults.none).fs "out"
        = some (bytes100.drop (parseOffset "50"))) ∧
    ((main ["carve", "in", "50", "-", "out"] fs100 buffering).retVal = 0 ∧
      (main ["carve", "in", "50", "-", "out"] fs100 buffering).fs "out"
        = some (bytes100.drop (parseOffset "50"))) :=
  ⟨(dash_carves_to_end "carve" "in" "50" "out" [] fs100 Faults.none bytes100 (by decide)
      (by decide)).1,
   (dash_carves_to_end "carve" "in" "50" "out" [] fs100 Faults.none bytes100 (by decide)
      (by decide)).2.1,
   (dash_carves_to_end "carve" "in" "50" "out" [] fs100 Faults.none bytes100 (by decide)
      (by decide)).2.2 (by decide) (by decide) noFault_none,
   (dash_carves_to_end "carve" "in" "50" "out" [] fs100 buffering bytes100 (by decide)
      (by decide)).2.2 (by decide) (by decide)
      ⟨rfl, rfl, rfl, rfl, rfl, rfl, rfl, fun _ => rfl, fun _ => rfl, rfl⟩⟩

/-! ## C7: which length arguments carve to the end of the file -/

/-- C7, the code at the failing input: the length argument `-5` is not the
single character `-`, and the numeric literal rule reads it as `2 ^ 64 - 5`,
the value the offset parser and the length parser at an offset outside the
file give it, a length the checks reject for a source of 100 bytes.  Yet with
offset 0 the length is the rest of the file, 100, and the run copies the
whole source and returns 0. -/
theorem dash_number_carves_to_end :
    "-5" ≠ "-" ∧
    strtoul "-5".data 10 = 2 ^ 64 - 5 ∧
    parseOffset "-5" = 2 ^ 64 - 5 ∧
    resolveLength "-5" 100 100 = 2 ^ 64 - 5 ∧
    validate 0 (2 ^ 64 - 5) 100 = .rangeGreater ∧
    resolveLength "-5" 0 100 = 100 ∧
    (main ["carve", "in", "0", "-5", "out"] fs100 Faults.none).retVal = 0 ∧
    (main ["carve", "in", "0", "-5", "out"] fs100 Faults.none).fs "out" = some bytes100 ∧
    Event.printf (.carved 100 1 0 "in" "out")
      ∈ (main ["carve", "in", "0", "-5", "out"] fs100 Faults.none).trace := by
  refine ⟨by decide, by decide, by decide, by decide, by decide, by decide, by decide,
    ?_, by decide⟩
  set_option maxRecDepth 4000 in decide

/-! ## C8: the numeric literal rule -/

/-- C8: the offset and the length are read by the same rule.  An argument
made of `0x` and hexadecimal digits whose value is below `2 ^ 64` is read as
that base-16 value, and an argument made of decimal digits alone whose value
is below `2 ^ 64` is read as that base-10 value, as the offset and, whatever
the offset and the size of the source, as the length. -/
theorem numeric_literal_rule (ds : List Char) (offset inputsize : Nat) :
    ((∀ c ∈ ds, c ∈ hexDigitChars) → numeral 16 ds < 2 ^ 64 →
      parseOffset ⟨'0' :: 'x' :: ds⟩ = numeral 16 ds ∧
      resolveLength ⟨'0' :: 'x' :: ds⟩ offset inputsize = numeral 16 ds) ∧
    ((∀ c ∈ ds, c ∈ decDigitChars) → numeral 10 ds < 2 ^ 64 →
      parseOffset ⟨ds⟩ = numeral 10 ds ∧
      resolveLength ⟨ds⟩ offset inputsize = numeral 10 ds) := by
  constructor
  · intro h hfit
    have hp : parseOffset ⟨'0' :: 'x' :: ds⟩ = numeral 16 ds := by
      unfold parseOffset
      rw [if_pos (hasHexMark_hex ds)]
      exact strtoul_hex h hfit
    refine ⟨hp, ?_⟩
    unfold resolveLength
    rw [if_neg (by simp), if_pos (hasHexMark_hex ds)]
    exact strtoul_hex h hfit
  · intro h hfit
    have hp : parseOffset ⟨ds⟩ = numeral 10 ds := by
      unfold parseOffset
      rw [if_neg (by rw [hasHexMark_dec h]; decide)]
      exact strtoul_dec h hfit
    refine ⟨hp, ?_⟩
    unfold resolveLength
    rw [if_neg (fun hc => not_dash_dec h hc.1), if_neg (by rw [hasHexMark_dec h]; decide)]
    exact strtoul_dec h hfit

/-- Witness of C8: `0x10` is read as 16 and `10` as 10, as the offset and as
the length. -/
theorem numeric_literal_rule_witness :
    (parseOffset "0x10" = 16 ∧ resolveLength "0x10" 0 100 = 16) ∧
    (parseOffset "10" = 10 ∧ resolveLength "10" 0 100 = 10) :=
  ⟨(numeric_literal_rule ['1', '0'] 0 100).1 (by decide) (by decide),
   (numeric_literal_rule ['1', '0'] 0 100).2 (by decide) (by decide)⟩

/-! ## C9: the exit status -/

/-- C9, the code at the failing input: carving all 10000 bytes of the source
while the two whole blocks reach the file, the last block of 1808 bytes stays
in the buffer of the output stream, and the `fclose` of line 201 fails to put
it into the file.  Every read and every write returns 1 and the exit status
is 0, yet the copy did not run to completion: the destination holds 8192 of
the 10000 bytes.  The same happens to a copy of 10 bytes from offset 50 of the
100-byte source, which the output stream keeps in its buffer: the summary is
printed, the exit status is 0 and the destination is empty. -/
theorem lost_write_status_zero :
    ((main ["carve", "in", "0", "10000", "out"] fs10000 lastBlockLost).retVal = 0 ∧
      (∀ size ret, Event.fwrite size ret
        ∈ (main ["carve", "in", "0", "10000", "out"] fs10000 lastBlockLost).trace → ret = 1) ∧
      (main ["carve", "in", "0", "10000", "out"] fs10000 lastBlockLost).fs "out"
        = some (bytes10000.take 8192) ∧
      (bytes10000.take 8192).length = 8192 ∧
      lastBlockLost.fclose = some 0) ∧
    ((main ["carve", "in", "50", "10", "out"] fs100 closeFails).trace
        = probeCalls "in" 100 ++ setupCalls "out" 50
          ++ [.fread 10 1, .fwrite 10 1, .printf (.carved 10 1 50 "in" "out")] ++ releaseAll ∧
      (main ["carve", "in", "50", "10", "out"] fs100 closeFails).retVal = 0 ∧
      (main ["carve", "in", "50", "10", "out"] fs100 closeFails).fs "out" = some [] ∧
      ((bytes100.drop 50).take 10).length = 10 ∧
      closeFails.fclose = some 0) := by
  have hlen : bytes10000.length = 10000 := by simp [bytes10000]
  have h8 : (bytes10000.take 8192).length = 8192 := by
    rw [List.length_take, hlen]; decide
  exact ⟨⟨lost_block_run.1, (main_done_transfers lost_block_run.1).2.2, lost_block_run.2, h8,
    rfl⟩, by decide, by decide, by decide, by decide, rfl⟩

/-! ## C10: the transfers of a copy -/

/-- C10: in a run that returns 0 after the check of the argument count, the
reads and writes are exactly `length / 4096` pairs of a read and a write of
4096 bytes, followed by one pair of `length % 4096` bytes when that remainder
is not 0 and by nothing when it is 0; they all return 1 and the sizes of the
writes sum to `length`. -/
theorem copy_plan (prog source offsetArg lengthArg destination : String) (rest : List String)
    (fs : FileSystem) (flt : Faults)
    (hret : (main (prog :: source :: offsetArg :: lengthArg :: destination :: rest) fs
      flt).retVal = 0) :
    (main (prog :: source :: offsetArg :: lengthArg :: destination :: rest) fs flt).trace.filter
        Event.isTransfer
      = (List.replicate
          (resolveLength lengthArg (parseOffset offsetArg) (fs.size source) / 4096)
          [Event.fread 4096 1, Event.fwrite 4096 1]).flatten
        ++ (if resolveLength lengthArg (parseOffset offsetArg) (fs.size source) % 4096 = 0 then []
            else [Event.fread
                    (resolveLength lengthArg (parseOffset offsetArg) (fs.size source) % 4096) 1,
                  Event.fwrite
                    (resolveLength lengthArg (parseOffset offsetArg) (fs.size source) % 4096) 1])
    ∧ (writeSizes
        (main (prog :: source :: offsetArg :: lengthArg :: destination :: rest) fs flt).trace).sum
      = resolveLength lengthArg (parseOffset offsetArg) (fs.size source) := by
  rw [main_done_trace hret]
  constructor
  · simp only [List.filter_append, filter_blockCalls, filter_lastCalls]
    have h1 : (probeCalls source (fs.size source)).filter Event.isTransfer = [] := by
      simp [probeCalls, Event.isTransfer]
    have h2 : (setupCalls destination (parseOffset offsetArg)).filter Event.isTransfer = [] := by
      simp [setupCalls, Event.isTransfer]
    have h3 : releaseAll.filter Event.isTransfer = [] := by
      simp [releaseAll, Event.isTransfer]
    rw [h1, h2, h3]
    simp only [List.nil_append, List.append_nil, List.filter_cons, List.filter_nil,
      Event.isTransfer, Bool.false_eq_true, if_false]
    congr 1
    unfold lastCalls
    by_cases hz : resolveLength lengthArg (parseOffset offsetArg) (fs.size source) % 4096 = 0
    · rw [if_pos hz, if_neg]
      unfold DEFAULT_BLOCK_SIZE
      omega
    · rw [if_neg hz, if_pos]
      · rfl
      · unfold DEFAULT_BLOCK_SIZE
        omega
  · unfold writeSizes
    simp only [List.filterMap_append, List.sum_append]
    have h1 : ((probeCalls source (fs.size source)).filterMap Event.written).sum = 0 := by
      simp [probeCalls, Event.written]
    have h2 : ((setupCalls destination (parseOffset offsetArg)).filterMap Event.written).sum
        = 0 := by
      simp [setupCalls, Event.written]
    have h3 : (releaseAll.filterMap Event.written).sum = 0 := by
      simp [releaseAll, Event.written]
    have h4 := writeSizes_blockCalls
      (resolveLength lengthArg (parseOffset offsetArg) (fs.size source) / DEFAULT_BLOCK_SIZE)
    have h5 := writeSizes_lastCalls
      (resolveLength lengthArg (parseOffset offsetArg) (fs.size source) % DEFAULT_BLOCK_SIZE)
    unfold writeSizes at h4 h5
    rw [h1, h2, h3, h4, h5]
    simp only [List.filterMap_cons, List.filterMap_nil, Event.written, List.sum_nil,
      Nat.zero_add, Nat.add_zero]
    rw [Nat.mul_comm]
    exact Nat.div_add_mod _ _

/-- Witness of C10: a copy of all 10000 bytes of a source makes two
transfers of 4096 bytes and one of 1808 bytes. -/
theorem copy_plan_witness :
    (main ["carve", "in", "0", "10000", "out"] fs10000 Faults.none).trace.filter
        Event.isTransfer
      = [Event.fread 4096 1, Event.fwrite 4096 1, Event.fread 4096 1, Event.fwrite 4096 1,
         Event.fread 1808 1, Event.fwrite 1808 1]
    ∧ (writeSizes (main ["carve", "in", "0", "10000", "out"] fs10000 Faults.none).trace).sum
      = 10000 := by
  have hlen : bytes10000.length = 10000 := by simp [bytes10000]
  have hfs : fs10000 "in" = some bytes10000 := rfl
  have hsz : fs10000.size "in" = 10000 := by
    simp only [FileSystem.size, hfs, Option.getD_some, hlen]
  have hoff : parseOffset "0" = 0 := by decide
  have hres : resolveLength "10000" 0 10000 = 10000 := by decide
  have hrun : (main ["carve", "in", "0", "10000", "out"] fs10000 Faults.none).retVal = 0 ∧
      (main ["carve", "in", "0", "10000", "out"] fs10000 Faults.none).fs "out"
        = some ((bytes10000.drop (parseOffset "0")).take
            (resolveLength "10000" (parseOffset "0") bytes10000.length)) :=
    main_succeeds (show fs10000 "in" = some bytes10000 from rfl)
      (by rw [hlen]; decide) (by decide)
      (by rw [hlen, hoff, hres]; decide) (by rw [hlen, hoff, hres])
  have h := copy_plan "carve" "in" "0" "10000" "out" [] fs10000 Faults.none hrun.1
  rw [hsz, hoff, hres] at h
  exact h

/-! ## C11: the same arguments give the same destination -/

/-- C11: with a destination other than the source, in environments in which
no library call fails, however the streams buffer: when a run returns 0, its
destination is the range that the source, the offset and the length
determine; a run with the same arguments on any file system that holds the
same source, whatever else it holds, returns 0 as well and leaves the same
destination; and so does a second run in the file system the first one left
behind. -/
theorem same_arguments_same_output (prog source offsetArg lengthArg destination : String)
    (rest : List String) (fs1 fs2 : FileSystem) (flt1 flt2 : Faults) (src : List Byte)
    (hd : source ≠ destination) (hs1 : fs1 source = some src) (hs2 : fs2 source = some src)
    (hn1 : flt1.noFault) (hn2 : flt2.noFault)
    (h1 : (main (prog :: source :: offsetArg :: lengthArg :: destination :: rest) fs1
      flt1).retVal = 0) :
    (main (prog :: source :: offsetArg :: lengthArg :: destination :: rest) fs1 flt1).fs
        destination
      = some ((src.drop (parseOffset offsetArg)).take
          (resolveLength lengthArg (parseOffset offsetArg) src.length)) ∧
    (main (prog :: source :: offsetArg :: lengthArg :: destination :: rest) fs2 flt2).retVal
      = 0 ∧
    (main (prog :: source :: offsetArg :: lengthArg :: destination :: rest) fs2 flt2).fs
        destination
      = (main (prog :: source :: offsetArg :: lengthArg :: destination :: rest) fs1 flt1).fs
        destination ∧
    (main (prog :: source :: offsetArg :: lengthArg :: destination :: rest)
        (main (prog :: source :: offsetArg :: lengthArg :: destination :: rest) fs1 flt1).fs
        flt2).retVal = 0 ∧
    (main (prog :: source :: offsetArg :: lengthArg :: destination :: rest)
        (main (prog :: source :: offsetArg :: lengthArg :: destination :: rest) fs1 flt1).fs
        flt2).fs destination
      = (main (prog :: source :: offsetArg :: lengthArg :: destination :: rest) fs1 flt1).fs
        destination := by
  have hsz : fs1.size source = src.length := by simp [FileSystem.size, hs1]
  obtain ⟨_, _, g2, _, hv, _⟩ :=
    (main_done_iff prog source offsetArg lengthArg destination rest fs1 flt1).1 h1
  rw [hsz] at hv g2
  have hsize : src.length ≤ LONG_MAX := by
    simp only [not_or, not_lt] at g2
    exact g2.2
  obtain ⟨hsum, _, _⟩ := main_done_files hd hs1 h1
  obtain ⟨_, hd1, hsrc1⟩ := @main_runs prog source offsetArg lengthArg destination rest
    fs1 flt1 src hn1 hs1 hsize hd hv hsum
  obtain ⟨hr2, hd2, _⟩ := @main_runs prog source offsetArg lengthArg destination rest
    fs2 flt2 src hn2 hs2 hsize hd hv hsum
  obtain ⟨hr3, hd3, _⟩ := @main_runs prog source offsetArg lengthArg destination rest
    (main (prog :: source :: offsetArg :: lengthArg :: destination :: rest) fs1 flt1).fs
    flt2 src hn2 hsrc1 hsize hd hv hsum
  exact ⟨hd1, hr2, by rw [hd1, hd2], hr3, by rw [hd1, hd3]⟩

/-- Witness of C11: carving bytes 50 to 59 of the 100-byte source into `out`,
once on streams that do not buffer where `out` does not exist, once on
streams that buffer where it holds three older bytes, and once more in the
file system the first run left behind. -/
theorem same_arguments_same_output_witness :
    (main ["carve", "in", "50", "10", "out"] fs100 Faults.none).fs "out"
      = some ((bytes100.drop (parseOffset "50")).take
          (resolveLength "10" (parseOffset "50") bytes100.length)) ∧
    (main ["carve", "in", "50", "10", "out"] fs100out buffering).retVal = 0 ∧
    (main ["carve", "in", "50", "10", "out"] fs100out buffering).fs "out"
      = (main ["carve", "in", "50", "10", "out"] fs100 Faults.none).fs "out" ∧
    (main ["carve", "in", "50", "10", "out"]
        (main ["carve", "in", "50", "10", "out"] fs100 Faults.none).fs buffering).retVal = 0 ∧
    (main ["carve", "in", "50", "10", "out"]
        (main ["carve", "in", "50", "10", "out"] fs100 Faults.none).fs buffering).fs "out"
      = (main ["carve", "in", "50", "10", "out"] fs100 Faults.none).fs "out" :=
  same_arguments_same_output "carve" "in" "50" "10" "out" [] fs100 fs100out Faults.none
    buffering bytes100 (by decide) rfl rfl noFault_none
    ⟨rfl, rfl, rfl, rfl, rfl, rfl, rfl, fun _ => rfl, fun _ => rfl, rfl⟩ (by decide)

/-! ## C12: the length `-` at or past the end of the file -/

/-- C12: for every source and every parsed offset that is not below its
size, the length argument `-` is read by the decimal rule, which gives 0; a
run that determined the size of the source is then rejected with the
zero-length message, also when the offset is larger than the file, and it
returns -1 without a call of `fopen(..., "w+b")` and without a change to the
file system. -/
theorem dash_past_end_rejected (prog source offsetArg destination : String)
    (rest : List String) (fs : FileSystem) (flt : Faults) (hp : Probed flt fs source)
    (hoff : fs.size source ≤ parseOffset offsetArg) :
    resolveLength "-" (parseOffset offsetArg) (fs.size source) = strtoul "-".data 10 ∧
    strtoul "-".data 10 = 0 ∧
    main (prog :: source :: offsetArg :: "-" :: destination :: rest) fs flt
      = ⟨-1, fs, probeCalls source (fs.size source)
          ++ [.printf .lengthZero, .fclose .inputfile]⟩ := by
  have hres : resolveLength "-" (parseOffset offsetArg) (fs.size source)
      = strtoul "-".data 10 := by
    unfold resolveLength
    rw [if_neg (fun h => absurd h.2 (by omega)), if_neg (by decide)]
  have h0 : strtoul "-".data 10 = 0 := by decide
  refine ⟨hres, h0, ?_⟩
  rw [main_probed hp, hres, h0]
  rfl

/-- Witness of C12: offset 200 and length `-` on the source of 100 bytes. -/
theorem dash_past_end_rejected_witness :
    resolveLength "-" (parseOffset "200") (fs100.size "in") = strtoul "-".data 10 ∧
    strtoul "-".data 10 = 0 ∧
    main ["carve", "in", "200", "-", "out"] fs100 Faults.none
      = ⟨-1, fs100, probeCalls "in" (fs100.size "in")
          ++ [.printf .lengthZero, .fclose .inputfile]⟩ :=
  dash_past_end_rejected "carve" "in" "200" "out" [] fs100 Faults.none
    ⟨rfl, by decide, rfl, rfl, by decide, rfl⟩ (by decide)

/-! ## C13: a whole block that fails -/

/-- C13 as stated fails: in the run that carves all 10000 bytes of the source
while its first write puts only 5 bytes into the file, the write of block 0
is the first transfer to fail, yet the destination does not hold exactly the
0 blocks written before, `src[0, 0 * 4096)`: it holds 5 bytes. -/
theorem short_write_counterexample :
    Event.printf (.unableToWriteBlock 0)
      ∈ (main ["carve", "in", "0", "10000", "out"] fs10000 firstWriteShort).trace ∧
    (main ["carve", "in", "0", "10000", "out"] fs10000 firstWriteShort).fs "out"
      = some (bytes10000.take 5) ∧
    (bytes10000.take 5).length = 5 ∧
    (main ["carve", "in", "0", "10000", "out"] fs10000 firstWriteShort).fs "out"
      ≠ some ((bytes10000.drop 0).take (0 * 4096)) := by
  have hlen : bytes10000.length = 10000 := by simp [bytes10000]
  have h5 : (bytes10000.take 5).length = 5 := by
    rw [List.length_take, hlen]; decide
  refine ⟨short_write_run.2.1, short_write_run.2.2, h5, ?_⟩
  have h0 : (bytes10000.drop 0).take (0 * 4096) = [] := by
    rw [Nat.zero_mul, List.take_zero]
  rw [short_write_run.2.2, h0]
  intro h
  have hnil : bytes10000.take 5 = [] := Option.some.inj h
  rw [hnil] at h5
  exact absurd h5 (by decide)

/-- C13 amended: when a run to a destination other than the source prints
that it was unable to read or to write whole block `k`, it returns -1, `k` is
below the number of whole blocks, and the record of the run is: the `k`
transfers that succeeded, the read of block `k` (and its write, when the read
returned 1), the message and the releases; so the run stops at once, without
a further read or write, retry or rollback.  The destination is left with
leading bytes of the range, `src[offset, offset + n)`: after a failed read
`n` is at most the `k` blocks written, and is exactly these `k * 4096` bytes
when the `fclose` of the output stream does not fail; after a failed write,
which is a faulty one, `n` is at most `k + 1` blocks. -/
theorem block_failure (prog source offsetArg lengthArg destination : String)
    (rest : List String) (fs : FileSystem) (flt : Faults) (src : List Byte) (k : Nat)
    (hsrc : fs source = some src) (hd : source ≠ destination)
    (h : Event.printf (.unableToReadBlock k)
        ∈ (main (prog :: source :: offsetArg :: lengthArg :: destination :: rest) fs
            flt).trace ∨
      Event.printf (.unableToWriteBlock k)
        ∈ (main (prog :: source :: offsetArg :: lengthArg :: destination :: rest) fs
            flt).trace) :
    (main (prog :: source :: offsetArg :: lengthArg :: destination :: rest) fs flt).retVal
      = -1 ∧
    k < resolveLength lengthArg (parseOffset offsetArg) src.length / DEFAULT_BLOCK_SIZE ∧
    parseOffset offsetArg + k * DEFAULT_BLOCK_SIZE ≤ src.length ∧
    (((main (prog :: source :: offsetArg :: lengthArg :: destination :: rest) fs flt).trace
        = probeCalls source src.length ++ setupCalls destination (parseOffset offsetArg)
          ++ blockCalls k
          ++ [.fread DEFAULT_BLOCK_SIZE 0, .printf (.unableToReadBlock k)] ++ releaseAll ∧
      ∃ n, n ≤ k * DEFAULT_BLOCK_SIZE ∧
        (main (prog :: source :: offsetArg :: lengthArg :: destination :: rest) fs flt).fs
            destination
          = some ((src.drop (parseOffset offsetArg)).take n) ∧
        (flt.fclose = none → n = k * DEFAULT_BLOCK_SIZE)) ∨
    ((main (prog :: source :: offsetArg :: lengthArg :: destination :: rest) fs flt).trace
        = probeCalls source src.length ++ setupCalls destination (parseOffset offsetArg)
          ++ blockCalls k
          ++ [.fread DEFAULT_BLOCK_SIZE 1, .fwrite DEFAULT_BLOCK_SIZE 0,
              .printf (.unableToWriteBlock k)] ++ releaseAll ∧
      parseOffset offsetArg + (k + 1) * DEFAULT_BLOCK_SIZE ≤ src.length ∧
      flt.fwrite k ≠ none ∧
      ∃ n, n ≤ (k + 1) * DEFAULT_BLOCK_SIZE ∧
        (main (prog :: source :: offsetArg :: lengthArg :: destination :: rest) fs flt).fs
            destination
          = some ((src.drop (parseOffset offsetArg)).take n))) := by
  have hsz : fs.size source = src.length := by simp [FileSystem.size, hsrc]
  have hmsg : ∃ e, e.blockMessage = true ∧ e.early = false ∧
      e ∈ (main (prog :: source :: offsetArg :: lengthArg :: destination :: rest) fs
        flt).trace ∧
      (e = Event.printf (.unableToReadBlock k) ∨ e = Event.printf (.unableToWriteBlock k)) := by
    rcases h with h | h
    · exact ⟨Event.printf (.unableToReadBlock k), rfl, rfl, h, Or.inl rfl⟩
    · exact ⟨Event.printf (.unableToWriteBlock k), rfl, rfl, h, Or.inr rfl⟩
  obtain ⟨e, hbm, hne, hmem, hek⟩ := hmsg
  rcases main_early_or_copy prog source offsetArg lengthArg destination rest fs flt with
    hearly | ⟨hv, hmain⟩
  · rw [hearly e hmem] at hne
    exact absurd hne (by decide)
  rw [hsz] at hv hmain
  rw [hmain] at hmem ⊢
  have ho : parseOffset offsetArg ≤ src.length := ((validate_accepted_iff _ _ _).1 hv).2.1
  by_cases hb : (blocksDone flt fs (probeCalls source src.length) source destination
      (parseOffset offsetArg)
      (resolveLength lengthArg (parseOffset offsetArg) src.length)).1 = false
  · have hcp : copyPhase flt fs (probeCalls source src.length) source destination
        (parseOffset offsetArg) (resolveLength lengthArg (parseOffset offsetArg) src.length)
        = ⟨-1, closed flt (blocksDone flt fs (probeCalls source src.length) source destination
            (parseOffset offsetArg)
            (resolveLength lengthArg (parseOffset offsetArg) src.length)).2,
          (blocksDone flt fs (probeCalls source src.length) source destination
            (parseOffset offsetArg)
            (resolveLength lengthArg (parseOffset offsetArg) src.length)).2.trace
            ++ releaseAll⟩ := by
      unfold copyPhase
      rw [if_pos hb]
      rfl
    rw [hcp] at hmem ⊢
    have hstart : (copyStart flt fs (probeCalls source src.length) source destination
        (parseOffset offsetArg)).trace
        = probeCalls source src.length ++ setupCalls destination (parseOffset offsetArg) := rfl
    have hpre := copyStart_not_blockMessage flt fs source destination src.length
      (parseOffset offsetArg)
    obtain ⟨k2, hk2, hkb, hcase⟩ := blocks_failed hd hsrc ho hb
    rcases hcase with ⟨ht, n, hn, hfs, hfull⟩ | ⟨ht, hb2, hfault, n, hn, hfs⟩
    · simp only at hmem ⊢
      rw [ht] at hmem ⊢
      have hin := blockMessage_mem hpre hbm hmem
      have hk : k = k2 := by
        rcases hek with he | he
        · rw [he] at hin; simpa using hin
        · rw [he] at hin; simp at hin
      subst hk
      rw [hstart]
      exact ⟨trivial, hk2, hkb, Or.inl ⟨rfl, n, hn, hfs, hfull⟩⟩
    · simp only at hmem ⊢
      rw [ht] at hmem ⊢
      have hin := blockMessage_mem hpre hbm hmem
      have hk : k = k2 := by
        rcases hek with he | he
        · rw [he] at hin; simp at hin
        · rw [he] at hin; simpa using hin
      subst hk
      rw [hstart]
      exact ⟨trivial, hk2, hkb, Or.inr ⟨rfl, hb2, hfault, n, hn, hfs⟩⟩
  · have hbt : (blocksDone flt fs (probeCalls source src.length) source destination
        (parseOffset offsetArg)
        (resolveLength lengthArg (parseOffset offsetArg) src.length)).1 = true := by
      simpa using hb
    rw [copyPhase_not_blockMessage hbt e hmem] at hbm
    exact absurd hbm (by decide)

/-- Witness of C13 amended: the run that carves all 10000 bytes of the source
while its first write puts only 5 bytes into the file returns -1, its record
ends with the read and the write of block 0, the message and the releases,
and its destination holds leading bytes of the source, no more than one
block. -/
theorem block_failure_witness :
    (main ["carve", "in", "0", "10000", "out"] fs10000 firstWriteShort).retVal = -1 ∧
    0 < resolveLength "10000" (parseOffset "0") bytes10000.length / DEFAULT_BLOCK_SIZE ∧
    (main ["carve", "in", "0", "10000", "out"] fs10000 firstWriteShort).trace
      = probeCalls "in" bytes10000.length ++ setupCalls "out" (parseOffset "0")
        ++ blockCalls 0
        ++ [.fread DEFAULT_BLOCK_SIZE 1, .fwrite DEFAULT_BLOCK_SIZE 0,
            .printf (.unableToWriteBlock 0)] ++ releaseAll ∧
    ∃ n, n ≤ (0 + 1) * DEFAULT_BLOCK_SIZE ∧
      (main ["carve", "in", "0", "10000", "out"] fs10000 firstWriteShort).fs "out"
        = some ((bytes10000.drop (parseOffset "0")).take n) := by
  have h := block_failure "carve" "in" "0" "10000" "out" [] fs10000 firstWriteShort
    bytes10000 0 rfl (by decide) (Or.inr short_write_run.2.1)
  obtain ⟨hret, hk, _, hcase⟩ := h
  refine ⟨hret, hk, ?_⟩
  rcases hcase with ⟨ht, _⟩ | ⟨ht, _, _, n, hn, hfs⟩
  · exfalso
    have hmem := short_write_run.2.1
    rw [ht] at hmem
    simp [probeCalls, setupCalls, blockCalls, releaseAll] at hmem
  · exact ⟨ht, n, hn, hfs⟩

/-! ## C14: the message after a failed write of the last block -/

/-- C14, the code at the failing input: carving 10 bytes at offset 50 of the
100-byte source, with a first write that fails, the read of the last block
returns 1, its write returns 0, and the message printed is the one of line
176, which is the read message of line 171; no write message is printed. -/
theorem last_write_reported_as_read :
    (main ["carve", "in", "50", "10", "out"] fs100 firstWriteFails).trace
      = probeCalls "in" 100 ++ setupCalls "out" 50
        ++ [.fread 10 1, .fwrite 10 0, .printf .unableToReadLastBlock] ++ releaseAll ∧
    (∀ k, Event.printf (.unableToWriteBlock k)
      ∉ (main ["carve", "in", "50", "10", "out"] fs100 firstWriteFails).trace) ∧
    (main ["carve", "in", "50", "10", "out"] fs100 firstWriteFails).retVal = -1 := by
  have ht : (main ["carve", "in", "50", "10", "out"] fs100 firstWriteFails).trace
      = probeCalls "in" 100 ++ setupCalls "out" 50
        ++ [.fread 10 1, .fwrite 10 0, .printf .unableToReadLastBlock] ++ releaseAll := by
    decide
  refine ⟨ht, fun k => ?_, by decide⟩
  rw [ht]
  simp [probeCalls, setupCalls, releaseAll]

/-! ## C15: `get_file_size` -/

/-- C15: whenever `get_file_size` returns false, the cell `*s` is as it was;
it returns false on a null stream or cell and when a seek or `ftell` fails.
On a stream and a cell that are not null, when both seeks succeed and `ftell`
reports the position (no fault, and a size that fits a `long`), it returns
true, stores the length of the file in `*s` and leaves the stream at
position 0, wherever the stream stood before. -/
theorem get_file_size_spec (flt : Faults) (fs : FileSystem) (f : Option FILE)
    (s : Option Nat) :
    ((get_file_size flt fs f s).ret = false → (get_file_size flt fs f s).s = s) ∧
    ((f = none ∨ s = none ∨ flt.fseek_end = true ∨ flt.ftell = true ∨ flt.fseek_set = true) →
      (get_file_size flt fs f s).ret = false) ∧
    (∀ h v, f = some h → s = some v → flt.fseek_end = false → flt.ftell = false →
      fs.size h.path ≤ LONG_MAX → flt.fseek_set = false →
      (get_file_size flt fs f s).ret = true ∧
      (get_file_size flt fs f s).s = some (fs.size h.path) ∧
      (get_file_size flt fs f s).f = some ⟨h.path, 0⟩) := by
  constructor
  · intro hret
    cases f with
    | none => rfl
    | some h =>
      cases s with
      | none => rfl
      | some v =>
        unfold get_file_size at hret ⊢
        simp only at hret ⊢
        by_cases h1 : flt.fseek_end = true
        · rw [if_pos h1]
        · rw [if_neg h1] at hret ⊢
          by_cases h2 : ((if flt.ftell = true ∨ fs.size h.path > LONG_MAX then (-1 : Int)
              else (fs.size h.path : Int)) % (SIZE_MOD : Int)).toNat = ULONG_MAX
          · rw [if_pos h2]
          · rw [if_neg h2] at hret ⊢
            by_cases h3 : flt.fseek_set = true
            · rw [if_pos h3]
            · rw [if_neg h3] at hret
              exact absurd hret (Bool.noConfusion)
  constructor
  · intro hc
    cases f with
    | none => cases s <;> rfl
    | some h =>
      cases s with
      | none => rfl
      | some v =>
        unfold get_file_size
        simp only
        by_cases h1 : flt.fseek_end = true
        · rw [if_pos h1]
        · rw [if_neg h1]
          by_cases h2 : flt.ftell = true
          · rw [if_pos (Or.inl h2), size_cast_neg_one, if_pos rfl]
          · have h3 : flt.fseek_set = true := by
              rcases hc with hc | hc | hc | hc | hc
              · exact absurd hc (by simp)
              · exact absurd hc (by simp)
              · exact absurd hc h1
              · exact absurd hc h2
              · exact hc
            simp only [h3, if_true]
            split <;> split <;> rfl
  · intro h v hf hs h1 h2 h3 h4
    subst hf hs
    unfold get_file_size
    simp only [h1, h2, h4, Bool.false_eq_true, if_false, false_or]
    have hle : ¬ fs.size h.path > LONG_MAX := by omega
    obtain ⟨h5, h6⟩ := size_cast_of_le h3
    simp only [hle, if_false, h5, h6]
    exact ⟨trivial, trivial, trivial⟩

/-- Witness of C15: on the 100-byte source, from position 30 and with 7 in
the cell, the call returns true, stores 100 and rewinds the stream. -/
theorem get_file_size_spec_witness :
    (get_file_size Faults.none fs100 (some ⟨"in", 30⟩) (some 7)).ret = true ∧
    (get_file_size Faults.none fs100 (some ⟨"in", 30⟩) (some 7)).s = some (fs100.size "in") ∧
    (get_file_size Faults.none fs100 (some ⟨"in", 30⟩) (some 7)).f = some ⟨"in", 0⟩ :=
  (get_file_size_spec Faults.none fs100 (some ⟨"in", 30⟩) (some 7)).2.2 ⟨"in", 30⟩ 7 rfl rfl
    rfl rfl (by decide) rfl

/-! ## C16: every resource acquired is released once -/

/-- C16: in every run of `main`, for each of the three resources (input
stream, output stream, transfer buffer), the record of the run holds as many
releases as acquisitions, and at most one acquisition: a resource that was
acquired is released exactly once, and one that was not acquired is not
released. -/
theorem resources_released_once (argv : List String) (fs : FileSystem) (flt : Faults)
    (r : Resource) :
    (main argv fs flt).trace.countP (Event.releases r)
      = (main argv fs flt).trace.countP (Event.acquires r) ∧
    (main argv fs flt).trace.countP (Event.acquires r) ≤ 1 := by
  by_cases hargc : argv.length < 5
  · rw [main_usage hargc]
    cases r <;> simp [Event.releases, Event.acquires]
  · obtain ⟨prog, source, offsetArg, lengthArg, destination, rest, rfl⟩ := argv_of_length hargc
    rw [main_eq]
    split
    · cases r <;> simp [Event.releases, Event.acquires]
    · split
      · cases r <;> simp [Event.releases, Event.acquires]
      · split
        · cases r <;> simp [Event.releases, Event.acquires]
        · split
          · cases r <;> simp [Event.releases, Event.acquires]
          · split
            · cases r <;> simp [probeCalls, Event.releases, Event.acquires]
            · cases r <;> simp [probeCalls, Event.releases, Event.acquires]
            · cases r <;> simp [probeCalls, Event.releases, Event.acquires]
            · rw [carve_eq]
              split
              · cases r <;> simp [probeCalls, Event.releases, Event.acquires]
              · split
                · cases r <;> simp [probeCalls, Event.releases, Event.acquires]
                · split
                  · cases r <;> simp [probeCalls, Event.releases, Event.acquires]
                  · obtain ⟨calls, hend, ht⟩ := copyPhase_trace flt fs
                      (probeCalls source (fs.size source)) source destination
                      (parseOffset offsetArg)
                      (resolveLength lengthArg (parseOffset offsetArg) (fs.size source))
                    obtain ⟨body, hcalls, hbody⟩ := copyEnd_body hend
                    rw [ht, hcalls]
                    obtain ⟨ha, hr⟩ := countP_eq_zero_of_neutral hbody r
                    simp only [List.countP_append, ha, hr]
                    cases r <;>
                      simp [probeCalls, setupCalls, releaseAll, Event.releases, Event.acquires]

/-! ## C17: the reads lie inside the source -/

/-- C17: when the source holds `size` bytes and `offset + length ≤ size`,
every read of the copy lies inside the source: for every block index `k`
below `length / 4096`, `offset + (k + 1) * 4096 ≤ size`, and the read of the
last block ends at `offset + length ≤ size`.  So in a run where no read fails
for a reason outside the program, with a destination other than the source,
every read returns 1 and the read message of a whole block is never printed,
whatever happens to the writes.  This holds for every length; with a length
above 0 the run is not rejected for its length and the reads are made. -/
theorem reads_inside_source (prog source offsetArg lengthArg destination : String)
    (rest : List String) (fs : FileSystem) (flt : Faults) (src : List Byte)
    (hsrc : fs source = some src) (hd : source ≠ destination)
    (hsum : parseOffset offsetArg + resolveLength lengthArg (parseOffset offsetArg) src.length
      ≤ src.length)
    (hrf : ∀ k, flt.fread k = false) :
    (∀ k, k < resolveLength lengthArg (parseOffset offsetArg) src.length / 4096 →
      parseOffset offsetArg + (k + 1) * 4096 ≤ src.length) ∧
    (parseOffset offsetArg
        + resolveLength lengthArg (parseOffset offsetArg) src.length / 4096 * 4096
        + resolveLength lengthArg (parseOffset offsetArg) src.length % 4096
      = parseOffset offsetArg + resolveLength lengthArg (parseOffset offsetArg) src.length) ∧
    (∀ size ret, Event.fread size ret
      ∈ (main (prog :: source :: offsetArg :: lengthArg :: destination :: rest) fs flt).trace
      → ret = 1) ∧
    (∀ k, Event.printf (.unableToReadBlock k)
      ∉ (main (prog :: source :: offsetArg :: lengthArg :: destination :: rest) fs
          flt).trace) := by
  have hdm := Nat.div_add_mod (resolveLength lengthArg (parseOffset offsetArg) src.length) 4096
  have hsz : fs.size source = src.length := by simp [FileSystem.size, hsrc]
  have hall : ∀ e ∈ (main (prog :: source :: offsetArg :: lengthArg :: destination :: rest)
      fs flt).trace, e.readOk = true := by
    rw [main_eq, hsz]
    split
    · simp [Event.readOk]
    · split
      · simp [Event.readOk]
      · split
        · simp [Event.readOk]
        · split
          · simp [Event.readOk]
          · split
            · simp [probeCalls, Event.readOk]
            · simp [probeCalls, Event.readOk]
            · simp [probeCalls, Event.readOk]
            · rw [carve_eq]
              split
              · simp [probeCalls, Event.readOk]
              · split
                · simp [probeCalls, Event.readOk]
                · split
                  · simp [probeCalls, Event.readOk]
                  · exact copyPhase_readOk hrf hd hsrc hsum
                      (by simp [probeCalls, Event.readOk])
  refine ⟨fun k hk => ?_, by omega, fun size ret h => ?_, fun k h => ?_⟩
  · have : (k + 1) * 4096 ≤
        resolveLength lengthArg (parseOffset offsetArg) src.length / 4096 * 4096 :=
      Nat.mul_le_mul_right 4096 hk
    omega
  · simpa [Event.readOk] using hall _ h
  · have := hall _ h
    simp [Event.readOk] at this

/-- Witness of C17: carving bytes 100 to 9099 of the 10000-byte source, in an
environment whose first write fails: the reads of blocks 0 and 1 end at 4196
and 8292, below 10000, and the one read that is made returns 1. -/
theorem reads_inside_source_witness :
    (∀ k, k < resolveLength "9000" (parseOffset "100") bytes10000.length / 4096 →
      parseOffset "100" + (k + 1) * 4096 ≤ bytes10000.length) ∧
    (parseOffset "100"
        + resolveLength "9000" (parseOffset "100") bytes10000.length / 4096 * 4096
        + resolveLength "9000" (parseOffset "100") bytes10000.length % 4096
      = parseOffset "100" + resolveLength "9000" (parseOffset "100") bytes10000.length) ∧
    (∀ size ret, Event.fread size ret
      ∈ (main ["carve", "in", "100", "9000", "out"] fs10000 firstWriteFails).trace
      → ret = 1) ∧
    (∀ k, Event.printf (.unableToReadBlock k)
      ∉ (main ["carve", "in", "100", "9000", "out"] fs10000 firstWriteFails).trace) := by
  have hlen : bytes10000.length = 10000 := by simp [bytes10000]
  have hoff : parseOffset "100" = 100 := by decide
  have hres : resolveLength "9000" 100 10000 = 9000 := by decide
  exact reads_inside_source "carve" "in" "100" "9000" "out" [] fs10000 firstWriteFails
    bytes10000 rfl (by decide) (by rw [hlen, hoff, hres]; decide) (fun _ => rfl)

/-! ## C18: no transfer exceeds the buffer -/

/-- C18: in every run, each read and each write has a size of exactly 4096
bytes, a whole block, or of `length % 4096` bytes, the last block, which is
below 4096; so no transfer exceeds the 4096 bytes of the buffer, and the
buffer has 4096 bytes after the loop over the whole blocks and after the
last block.  The buffer is the only staging area.  For every whole block `k`
that the loop of the run carries (to a destination other than the source):
the loop goes on from the state it has reached after block `k`; in that state
the front of the buffer holds the 4096 bytes of the source at
`offset + k * 4096`, the bytes read; and the bytes the output stream has
accepted are those it had accepted after `k` blocks followed by exactly
these bytes, the bytes written.  The same holds of the last block. -/
theorem transfers_fit_buffer (prog source offsetArg lengthArg destination : String)
    (rest : List String) (fs : FileSystem) (flt : Faults) :
    (∀ size ret,
      (Event.fread size ret
          ∈ (main (prog :: source :: offsetArg :: lengthArg :: destination :: rest) fs
              flt).trace ∨
        Event.fwrite size ret
          ∈ (main (prog :: source :: offsetArg :: lengthArg :: destination :: rest) fs
              flt).trace) →
      size ≤ 4096 ∧
      (size = 4096 ∨
        (size = resolveLength lengthArg (parseOffset offsetArg) (fs.size source) % 4096 ∧
          size < 4096))) ∧
    (blocksDone flt fs (probeCalls source (fs.size source)) source destination
      (parseOffset offsetArg)
      (resolveLength lengthArg (parseOffset offsetArg) (fs.size source))).2.transferBuf.length
      = 4096 ∧
    (lastDone flt fs (probeCalls source (fs.size source)) source destination
      (parseOffset offsetArg)
      (resolveLength lengthArg (parseOffset offsetArg) (fs.size source))).2.transferBuf.length
      = 4096 ∧
    (∀ (src : List Byte) (k : Nat), fs source = some src → source ≠ destination →
      parseOffset offsetArg ≤ src.length →
      k < resolveLength lengthArg (parseOffset offsetArg) (fs.size source)
        / DEFAULT_BLOCK_SIZE →
      (copyBlocks flt (k + 1) 0 (copyStart flt fs (probeCalls source (fs.size source)) source
        destination (parseOffset offsetArg))).1 = true →
      blocksDone flt fs (probeCalls source (fs.size source)) source destination
          (parseOffset offsetArg)
          (resolveLength lengthArg (parseOffset offsetArg) (fs.size source))
        = copyBlocks flt
            (resolveLength lengthArg (parseOffset offsetArg) (fs.size source)
              / DEFAULT_BLOCK_SIZE - (k + 1))
            (k + 1)
            (copyBlocks flt (k + 1) 0 (copyStart flt fs (probeCalls source (fs.size source))
              source destination (parseOffset offsetArg))).2 ∧
      (copyBlocks flt (k + 1) 0 (copyStart flt fs (probeCalls source (fs.size source)) source
          destination (parseOffset offsetArg))).2.transferBuf.take DEFAULT_BLOCK_SIZE
        = (src.drop (parseOffset offsetArg + k * DEFAULT_BLOCK_SIZE)).take
            DEFAULT_BLOCK_SIZE ∧
      ((src.drop (parseOffset offsetArg + k * DEFAULT_BLOCK_SIZE)).take
          DEFAULT_BLOCK_SIZE).length = DEFAULT_BLOCK_SIZE ∧
      (copyBlocks flt (k + 1) 0 (copyStart flt fs (probeCalls source (fs.size source)) source
          destination (parseOffset offsetArg))).2.accepted
        = (copyBlocks flt k 0 (copyStart flt fs (probeCalls source (fs.size source)) source
            destination (parseOffset offsetArg))).2.accepted
          ++ (copyBlocks flt (k + 1) 0 (copyStart flt fs (probeCalls source (fs.size source))
              source destination (parseOffset offsetArg))).2.transferBuf.take
                DEFAULT_BLOCK_SIZE) ∧
    (∀ (src : List Byte), fs source = some src → source ≠ destination →
      parseOffset offsetArg ≤ src.length →
      0 < resolveLength lengthArg (parseOffset offsetArg) (fs.size source)
        % DEFAULT_BLOCK_SIZE →
      (blocksDone flt fs (probeCalls source (fs.size source)) source destination
        (parseOffset offsetArg)
        (resolveLength lengthArg (parseOffset offsetArg) (fs.size source))).1 = true →
      (lastDone flt fs (probeCalls source (fs.size source)) source destination
        (parseOffset offsetArg)
        (resolveLength lengthArg (parseOffset offsetArg) (fs.size source))).1 = true →
      (lastDone flt fs (probeCalls source (fs.size source)) source destination
          (parseOffset offsetArg)
          (resolveLength lengthArg (parseOffset offsetArg) (fs.size source))).2.transferBuf.take
            (resolveLength lengthArg (parseOffset offsetArg) (fs.size source)
              % DEFAULT_BLOCK_SIZE)
        = (src.drop (parseOffset offsetArg
              + resolveLength lengthArg (parseOffset offsetArg) (fs.size source)
                / DEFAULT_BLOCK_SIZE * DEFAULT_BLOCK_SIZE)).take
            (resolveLength lengthArg (parseOffset offsetArg) (fs.size source)
              % DEFAULT_BLOCK_SIZE) ∧
      ((src.drop (parseOffset offsetArg
            + resolveLength lengthArg (parseOffset offsetArg) (fs.size source)
              / DEFAULT_BLOCK_SIZE * DEFAULT_BLOCK_SIZE)).take
          (resolveLength lengthArg (parseOffset offsetArg) (fs.size source)
            % DEFAULT_BLOCK_SIZE)).length
        = resolveLength lengthArg (parseOffset offsetArg) (fs.size source)
            % DEFAULT_BLOCK_SIZE ∧
      (lastDone flt fs (probeCalls source (fs.size source)) source destination
          (parseOffset offsetArg)
          (resolveLength lengthArg (parseOffset offsetArg) (fs.size source))).2.accepted
        = (blocksDone flt fs (probeCalls source (fs.size source)) source destination
            (parseOffset offsetArg)
            (resolveLength lengthArg (parseOffset offsetArg) (fs.size source))).2.accepted
          ++ (lastDone flt fs (probeCalls source (fs.size source)) source destination
              (parseOffset offsetArg)
              (resolveLength lengthArg (parseOffset offsetArg)
                (fs.size source))).2.transferBuf.take
                (resolveLength lengthArg (parseOffset offsetArg) (fs.size source)
                  % DEFAULT_BLOCK_SIZE)) := by
  have hmod : resolveLength lengthArg (parseOffset offsetArg) (fs.size source) % 4096 < 4096 :=
    Nat.mod_lt _ (by decide)
  have hsizes : ∀ e ∈ (main (prog :: source :: offsetArg :: lengthArg :: destination :: rest)
      fs flt).trace,
      e.sizeIn (resolveLength lengthArg (parseOffset offsetArg) (fs.size source)
        % DEFAULT_BLOCK_SIZE) = true :=
    main_sizeIn prog source offsetArg lengthArg destination rest fs flt
  have hb : (blocksDone flt fs (probeCalls source (fs.size source)) source destination
      (parseOffset offsetArg)
      (resolveLength lengthArg (parseOffset offsetArg) (fs.size source))).2.transferBuf.length
      = 4096 := by
    unfold blocksDone
    rw [copyBlocks_buf flt _ _ _ (by simp [copyStart])]
    show (List.replicate DEFAULT_BLOCK_SIZE (0 : Byte)).length = 4096
    rw [List.length_replicate]
    rfl
  refine ⟨fun size ret h => ?_, hb, ?_, ?_, ?_⟩
  · have hs : size = 4096 ∨
        size = resolveLength lengthArg (parseOffset offsetArg) (fs.size source) % 4096 := by
      rcases h with h | h
      · simpa [Event.sizeIn, DEFAULT_BLOCK_SIZE] using hsizes _ h
      · simpa [Event.sizeIn, DEFAULT_BLOCK_SIZE] using hsizes _ h
    rcases hs with hs | hs
    · exact ⟨by omega, Or.inl hs⟩
    · exact ⟨by omega, Or.inr ⟨hs, by omega⟩⟩
  · unfold lastDone
    rw [copyLast_buf flt _ _ _ (by rw [hb]; unfold DEFAULT_BLOCK_SIZE; omega), hb]
  · intro src k hsrc hd ho hk h
    have inv := @copyStart_copying flt fs (probeCalls source (fs.size source)) source
      destination (parseOffset offsetArg) src hd hsrc ho
    obtain ⟨h1, h2, h3⟩ := block_staged inv k h
    refine ⟨?_, h1, h2, h3⟩
    have hadd := copyBlocks_add flt (k + 1)
      (resolveLength lengthArg (parseOffset offsetArg) (fs.size source)
        / DEFAULT_BLOCK_SIZE - (k + 1)) 0
      (copyStart flt fs (probeCalls source (fs.size source)) source destination
        (parseOffset offsetArg)) h
    rw [Nat.zero_add, show k + 1 + (resolveLength lengthArg (parseOffset offsetArg)
        (fs.size source) / DEFAULT_BLOCK_SIZE - (k + 1))
      = resolveLength lengthArg (parseOffset offsetArg) (fs.size source)
        / DEFAULT_BLOCK_SIZE by omega] at hadd
    exact hadd
  · intro src hsrc hd ho hs hbt hl
    have inv := @copyStart_copying flt fs (probeCalls source (fs.size source)) source
      destination (parseOffset offsetArg) src hd hsrc ho
    unfold blocksDone at hbt
    obtain ⟨inv1, _⟩ := copyBlocks_true _ 0 0 _ inv hbt
    rw [Nat.zero_add] at inv1
    unfold lastDone at hl ⊢
    unfold blocksDone at hl ⊢
    exact last_staged inv1 hs hl

/-- Witness of C18: in the run that carves 10 bytes at offset 50 of the
100-byte source, the read of 10 bytes has the size of the last block, and
after the last block the front of the buffer holds bytes 50 to 59 of the
source, which are the bytes the output stream accepted; in the run that
carves 9000 bytes at offset 100 of the 10000-byte source on streams that
buffer, after whole block 1 the front of the buffer holds the 4096 bytes of
the source at 100 + 4096, which are the bytes the output stream accepted
behind block 0. -/
theorem transfers_fit_buffer_witness :
    (10 ≤ 4096 ∧
      (10 = 4096 ∨
        (10 = resolveLength "10" (parseOffset "50") (fs100.size "in") % 4096 ∧ 10 < 4096))) ∧
    ((lastDone Faults.none fs100 (probeCalls "in" (fs100.size "in")) "in" "out"
          (parseOffset "50")
          (resolveLength "10" (parseOffset "50") (fs100.size "in"))).2.transferBuf.take
            (resolveLength "10" (parseOffset "50") (fs100.size "in") % DEFAULT_BLOCK_SIZE)
        = (bytes100.drop (parseOffset "50"
              + resolveLength "10" (parseOffset "50") (fs100.size "in")
                / DEFAULT_BLOCK_SIZE * DEFAULT_BLOCK_SIZE)).take
            (resolveLength "10" (parseOffset "50") (fs100.size "in") % DEFAULT_BLOCK_SIZE) ∧
      (lastDone Faults.none fs100 (probeCalls "in" (fs100.size "in")) "in" "out"
          (parseOffset "50")
          (resolveLength "10" (parseOffset "50") (fs100.size "in"))).2.accepted
        = (blocksDone Faults.none fs100 (probeCalls "in" (fs100.size "in")) "in" "out"
            (parseOffset "50")
            (resolveLength "10" (parseOffset "50") (fs100.size "in"))).2.accepted
          ++ (lastDone Faults.none fs100 (probeCalls "in" (fs100.size "in")) "in" "out"
              (parseOffset "50")
              (resolveLength "10" (parseOffset "50") (fs100.size "in"))).2.transferBuf.take
                (resolveLength "10" (parseOffset "50") (fs100.size "in")
                  % DEFAULT_BLOCK_SIZE)) ∧
    ((copyBlocks buffering (1 + 1) 0 (copyStart buffering fs10000
          (probeCalls "in" (fs10000.size "in")) "in" "out"
          (parseOffset "100"))).2.transferBuf.take DEFAULT_BLOCK_SIZE
        = (bytes10000.drop (parseOffset "100" + 1 * DEFAULT_BLOCK_SIZE)).take
            DEFAULT_BLOCK_SIZE ∧
      (copyBlocks buffering (1 + 1) 0 (copyStart buffering fs10000
          (probeCalls "in" (fs10000.size "in")) "in" "out" (parseOffset "100"))).2.accepted
        = (copyBlocks buffering 1 0 (copyStart buffering fs10000
            (probeCalls "in" (fs10000.size "in")) "in" "out" (parseOffset "100"))).2.accepted
          ++ (copyBlocks buffering (1 + 1) 0 (copyStart buffering fs10000
              (probeCalls "in" (fs10000.size "in")) "in" "out"
              (parseOffset "100"))).2.transferBuf.take DEFAULT_BLOCK_SIZE) := by
  have hlen : bytes10000.length = 10000 := by simp [bytes10000]
  have hfs : fs10000 "in" = some bytes10000 := rfl
  have hsz : fs10000.size "in" = 10000 := by
    simp only [FileSystem.size, hfs, Option.getD_some, hlen]
  have hoff : parseOffset "100" = 100 := by decide
  have hres : resolveLength "9000" 100 10000 = 9000 := by decide
  have hruns := @copy_runs buffering fs10000 (probeCalls "in" (fs10000.size "in")) "in" "out"
    (parseOffset "100") 9000 bytes10000 (fun _ => rfl) (fun _ => rfl) (by decide) rfl
    (by rw [hoff, hlen]; decide)
  have hb2 : (copyBlocks buffering (1 + 1) 0 (copyStart buffering fs10000
      (probeCalls "in" (fs10000.size "in")) "in" "out" (parseOffset "100"))).1 = true :=
    hruns.1
  have h1 := (transfers_fit_buffer "carve" "in" "50" "10" "out" [] fs100 Faults.none).1 10 1
    (Or.inl (by decide))
  have h2 := (transfers_fit_buffer "carve" "in" "50" "10" "out" [] fs100
    Faults.none).2.2.2.2 bytes100 rfl (by decide) (by decide) (by decide) (by decide)
    (by decide)
  have h3 := (transfers_fit_buffer "carve" "in" "100" "9000" "out" [] fs10000
    buffering).2.2.2.1 bytes10000 1 rfl (by decide) (by rw [hoff, hlen]; decide)
    (by rw [hsz, hoff, hres]; decide) hb2
  exact ⟨h1, ⟨h2.1, h2.2.2⟩, ⟨h3.2.1, h3.2.2.2⟩⟩

end Carve
